import Mathlib

/-!
# Verification of the `rust-ast-lox` tree-walking interpreter

This development shallowly embeds the Lox interpreter from the repository
(crates `lexer`, `parser`, `resolver`, `interpreter`) and proves properties
of the embedded code.

Conventions of the embedding:

* Rust `f64` numbers are modelled as `Int`.  Every program the claims
  mention computes with small integral values only; IEEE-754 specific
  behaviour (NaN, infinities, rounding) is outside the scope of the
  properties proved here.
* Source positions (`line`, `column`) are carried exactly where they are
  semantically significant: in `Reference` (the identity key of a variable
  occurrence, used by the resolver's `locals` table) and in the `This` and
  `Super` expressions (which build such references).  Everywhere else a
  position only feeds the rendering of diagnostics, which this embedding
  does not model; error values therefore consist of their kind only.
* Rust `Rc<RefCell<Environment>>` / `Rc<RefCell<LoxInstance>>` sharing is
  modelled with explicit heaps: the interpreter state holds a list of
  environments and a list of instances, and values refer to them by index.
  Object identity is index identity.
* `unreachable!` and out-of-bounds panics of the Rust code are modelled by
  the distinguished error `RtErr.panicked`.
* Recursion of the parser, the resolver and the evaluator is made total
  with an explicit fuel parameter; exhausting the fuel yields the
  distinguished result `.fuel`, never confused with genuine termination.
-/

set_option maxHeartbeats 1000000

namespace Lox

/-! ## Tokens (crate `lexer`, as far as the parser depends on them) -/

/-- `lexer::TokenKind`, restricted to the variants the parser consumes.
Number literals carry their parsed value (modelled as `Int`). -/
inductive TokKind where
  | leftParen | rightParen | leftCurly | rightCurly
  | comma | dot | semicolon | questionMark | colon
  | plus | minus | star | slash
  | bang | bangEqual | equals | doubleEquals
  | greaterThan | greaterEqual | lessThan | lessEqual
  | identifier (name : String)
  | string (value : String)
  | number (value : Int)
  | andT | orT | ifT | elseT | forT | whileT | breakT | continueT
  | varT | funT | returnT | classT | thisT | superT | nilT | trueT | falseT
  | eof
  deriving DecidableEq, Repr

/-- `lexer::Token`: kind plus source position (the lexeme length only feeds
diagnostics and is omitted). -/
structure Token where
  line : Nat
  column : Nat
  kind : TokKind
  deriving DecidableEq, Repr

/-! ## AST (crate `parser`) -/

/-- `parser::Literal` (numbers as `Int`, see the header). -/
inductive Lit where
  | str (s : String)
  | num (n : Int)
  | boolean (b : Bool)
  | nil
  deriving DecidableEq, Repr

/-- `parser::UnaryOperatorKind`. -/
inductive UnOp where
  | minus | bang
  deriving DecidableEq, Repr

/-- `parser::BinaryOperatorKind`. -/
inductive BinOp where
  | plus | minus | star | slash
  | bangEqual | doubleEquals
  | greaterThan | greaterEqual | lessThan | lessEqual
  | comma
  deriving DecidableEq, Repr

/-- `parser::LogicalOperatorKind`. -/
inductive LogOp where
  | andOp | orOp
  deriving DecidableEq, Repr

/-- `parser::Reference`: the identity triple of a variable occurrence.
Compared and hashed by all three fields. -/
structure Ref where
  line : Nat
  column : Nat
  identifier : String
  deriving DecidableEq, Repr

mutual

/-- `parser::Expression`. -/
inductive Expr where
  | ternary (condition truthy falsey : Expr)
  | binary (left : Expr) (op : BinOp) (right : Expr)
  | logical (left : Expr) (op : LogOp) (right : Expr)
  | unary (op : UnOp) (expression : Expr)
  | grouping (expression : Expr)
  | lit (l : Lit)
  | var (reference : Ref)
  | assignment (reference : Ref) (value : Expr)
  | anonFun (parameters : List String) (body : List Stmt)
  | call (callee : Expr) (args : List Expr)
  | get (object : Expr) (identifier : String)
  | set (object : Expr) (identifier : String) (value : Expr)
  | this (line column : Nat)
  | super (line column : Nat) (method : String)

/-- `parser::Statement`.  The `forS` variant exists in the Rust enum but is
never produced by the parser (`for` is desugared); `Interpreter::execute`
has no arm for it. -/
inductive Stmt where
  | expr (e : Expr)
  | decl (identifier : String) (initVal : Option Expr)
  | block (stmts : List Stmt)
  | ifS (condition : Expr) (thenBranch : Stmt) (elseBranch : Option Stmt)
  | forS (condition : Expr) (increment : Option Expr) (body : Stmt)
  | whileS (condition : Expr) (body : Stmt)
  | breakS
  | continueS
  | funDecl (f : Func)
  | ret (e : Option Expr)
  | classS (identifier : String) (superClass : Option Expr) (methods : List Func)

/-- `parser::Function` (a named function record). -/
inductive Func where
  | mk (identifier : String) (parameters : List String) (body : List Stmt)

end

/-- Name of a `Func`. -/
def Func.identifier : Func → String
  | .mk i _ _ => i

/-- Parameters of a `Func`. -/
def Func.parameters : Func → List String
  | .mk _ p _ => p

/-- Body of a `Func`. -/
def Func.body : Func → List Stmt
  | .mk _ _ b => b

end Lox

namespace Lox

/-! ## Parser (crate `parser`, `parser.rs`)

The Rust parser is a family of mutually recursive methods over a token
slice with a cursor.  The embedding packs them into a single function
`parseF`, structurally recursive on a fuel parameter, dispatching on a
`PJob` tag; each job corresponds to one Rust method (loop bodies of the
`binary_operators!`/`logical_operators!` macros and of `parameters`,
`arguments`, `block`, class-method and `program` loops get their own
`...LoopJ` tag carrying the accumulated value, exactly as the Rust loop
keeps it in a local).  Every recursive call decrements the fuel; `.fuel`
signals exhaustion.  Rust's `report` calls to stderr (the non-fatal
parameter/argument-limit diagnostics and `program`'s error reports) have
no observable effect on the returned data and are not modelled. -/

/-- `parser::ParserError`.  `expectedDotAfterSuper` is referenced by
`Parser::primary` (the variant is listed in the spec's error taxonomy,
§7).  `embeddingUnreachable` is an artifact of the job encoding: each job
returns a fixed output shape, so the arms producing it are dead code. -/
inductive PErr where
  | expectedExpression
  | unterminatedTernary
  | expectedSemicolon
  | expectedIdentifier
  | expectedSemicolonOrInit
  | invalidAssignmentTarget
  | expectedLeftCurly
  | expectedRightCurly
  | expectedLeftParen
  | expectedRightParen
  | expectedDotAfterSuper
  | embeddingUnreachable
  deriving DecidableEq, Repr

/-- Output of one parsing job. -/
inductive POut where
  | expr (e : Expr)
  | stmt (s : Stmt)
  | stmts (ss : List Stmt)
  | params (ps : List String)
  | args (es : List Expr)
  | funcs (fs : List Func)

/-- Result of one parsing job: success with new cursor, error, or fuel
exhaustion. -/
inductive PRes where
  | ok (o : POut) (pos : Nat)
  | err (e : PErr)
  | fuel

/-- One job per Rust parser method; `...LoopJ` jobs carry the loop
accumulator. A job starting "after the keyword" models the Rust method
being entered once `match_token!` has consumed that keyword. -/
inductive PJob where
  | programJ (acc : List Stmt) (hadError : Bool)
  | declarationJ
  | varDeclJ
  | functionDeclJ
  | classDeclJ
  | namedFunctionJ (isMethod : Bool)
  | classMethodsJ (acc : List Func)
  | anonymousFunctionJ
  | parametersJ (acc : List String)
  | statementJ
  | ifJ
  | whileJ
  | forJ
  | breakJ
  | continueJ
  | returnJ
  | blockJ (acc : List Stmt)
  | exprStatementJ
  | expressionJ
  | assignmentJ
  | ternaryJ
  | orJ
  | orLoopJ (e : Expr)
  | andJ
  | andLoopJ (e : Expr)
  | commaJ
  | commaLoopJ (e : Expr)
  | equalityJ
  | equalityLoopJ (e : Expr)
  | comparisonJ
  | comparisonLoopJ (e : Expr)
  | termJ
  | termLoopJ (e : Expr)
  | factorJ
  | factorLoopJ (e : Expr)
  | unaryJ
  | callJ
  | callLoopJ (e : Expr)
  | argumentsJ (acc : List Expr)
  | primaryJ

/-- `Parser::peek`.  The Rust`self.tokens[self.current]` can only be
in bounds because every token stream ends in `eof` and the cursor never
passes it; the default is therefore never read on such streams. -/
def peekT (ts : List Token) (pos : Nat) : Token :=
  ts.getD pos ⟨0, 0, .eof⟩

/-- `Parser::previous` (same indexing remark as `peekT`). -/
def prevT (ts : List Token) (pos : Nat) : Token :=
  ts.getD (pos - 1) ⟨0, 0, .eof⟩

/-- `Parser::is_done`. -/
def pDone (ts : List Token) (pos : Nat) : Bool :=
  (peekT ts pos).kind = .eof

/-- The operator sets tested by the `binary_operators!`/`logical_operators!`
macro instances, and the keyword set of `Parser::sinchronyze`. -/
def isCommaOp (k : TokKind) : Bool := k = .comma

def isEqualityOp (k : TokKind) : Bool := k = .bangEqual ∨ k = .doubleEquals

def isComparisonOp (k : TokKind) : Bool :=
  k = .lessThan ∨ k = .lessEqual ∨ k = .greaterEqual ∨ k = .greaterThan

def isTermOp (k : TokKind) : Bool := k = .plus ∨ k = .minus

def isFactorOp (k : TokKind) : Bool := k = .star ∨ k = .slash

def isSyncKind (k : TokKind) : Bool :=
  k = .ifT ∨ k = .forT ∨ k = .whileT ∨ k = .funT ∨ k = .returnT ∨
  k = .classT ∨ k = .varT

/-- Binary operator denoted by a token (for the macro loop bodies). -/
def binOpOf (k : TokKind) : BinOp :=
  match k with
  | .comma => .comma
  | .bangEqual => .bangEqual
  | .doubleEquals => .doubleEquals
  | .lessThan => .lessThan
  | .lessEqual => .lessEqual
  | .greaterEqual => .greaterEqual
  | .greaterThan => .greaterThan
  | .plus => .plus
  | .minus => .minus
  | .star => .star
  | _ => .slash

/-- Inner loop of `Parser::sinchronyze`. -/
def syncLoop (fuel : Nat) (ts : List Token) (pos : Nat) : Nat :=
  match fuel with
  | 0 => pos
  | n + 1 =>
    if pDone ts pos then pos
    else if (prevT ts pos).kind = .semicolon then pos
    else if isSyncKind (peekT ts pos).kind then pos
    else syncLoop n ts (pos + 1)

/-- `Parser::sinchronyze`: skip one token, then skip until just past a
semicolon or in front of a statement keyword. -/
def sync (fuel : Nat) (ts : List Token) (pos : Nat) : Nat :=
  syncLoop fuel ts (if pDone ts pos then pos else pos + 1)


/-- The parser: one fuel step per Rust method invocation / loop iteration.
Each arm mirrors the correspondingly named method of `Parser` in
`src/parser/src/parser.rs`. -/
def parseF (fuel : Nat) (ts : List Token) (job : PJob) (pos : Nat) : PRes :=
  match fuel with
  | 0 => .fuel
  | n + 1 =>
    match job with
    | .programJ acc hadError =>
      -- `Parser::program`
      if pDone ts pos then .ok (.stmts acc.reverse) pos
      else
        match parseF n ts .declarationJ pos with
        | .ok (.stmt s) p =>
          parseF n ts (.programJ (if hadError then acc else s :: acc) hadError) p
        | .ok _ _ => .err .embeddingUnreachable
        | .err _ =>
          -- report to stderr, discard accumulated statements, synchronise
          parseF n ts (.programJ [] true) (sync n ts pos)
        | .fuel => .fuel
    | .declarationJ =>
      -- `Parser::declaration`
      if (peekT ts pos).kind = .varT then parseF n ts .varDeclJ (pos + 1)
      else if (peekT ts pos).kind = .funT then parseF n ts .functionDeclJ (pos + 1)
      else if (peekT ts pos).kind = .classT then parseF n ts .classDeclJ (pos + 1)
      else parseF n ts .statementJ pos
    | .varDeclJ =>
      -- `Parser::var_declaration` (the `var` keyword is already consumed)
      match (peekT ts pos).kind with
      | .identifier name =>
        let pos := pos + 1
        let withInit : PRes :=
          match (peekT ts pos).kind with
          | .equals =>
            match parseF n ts .expressionJ (pos + 1) with
            | .ok (.expr e) p => .ok (.stmt (.decl name (some e))) p
            | .ok _ _ => .err .embeddingUnreachable
            | .err e => .err e
            | .fuel => .fuel
          | .semicolon => .ok (.stmt (.decl name none)) pos
          | _ => .err .expectedSemicolonOrInit
        match withInit with
        | .ok o p =>
          if (peekT ts p).kind = .semicolon then .ok o (p + 1)
          else .err .expectedSemicolon
        | r => r
      | _ => .err .expectedIdentifier
    | .functionDeclJ =>
      -- `Parser::function_declaration`
      parseF n ts (.namedFunctionJ false) pos
    | .classDeclJ =>
      -- `Parser::class_declaration` (the `class` keyword is already consumed)
      match (peekT ts pos).kind with
      | .identifier name =>
        let pos := pos + 1
        let superRes : Except PErr (Option Expr × Nat) :=
          if (peekT ts pos).kind = .lessThan then
            match (peekT ts (pos + 1)).kind with
            | .identifier sup =>
              let t := peekT ts (pos + 1)
              .ok (some (.var ⟨t.line, t.column, sup⟩), pos + 2)
            | _ => .error .expectedIdentifier
          else .ok (none, pos)
        match superRes with
        | .error e => .err e
        | .ok (superClass, pos) =>
          if (peekT ts pos).kind = .leftCurly then
            match parseF n ts (.classMethodsJ []) (pos + 1) with
            | .ok (.funcs methods) p =>
              if (peekT ts p).kind = .rightCurly then
                .ok (.stmt (.classS name superClass methods)) (p + 1)
              else .err .expectedRightCurly
            | .ok _ _ => .err .embeddingUnreachable
            | .err e => .err e
            | .fuel => .fuel
          else .err .expectedLeftCurly
      | _ => .err .expectedIdentifier
    | .classMethodsJ acc =>
      -- the method loop of `Parser::class_declaration`
      if pDone ts pos ∨ (peekT ts pos).kind = .rightCurly then
        .ok (.funcs acc.reverse) pos
      else
        match parseF n ts (.namedFunctionJ true) pos with
        | .ok (.stmt (.funDecl f)) p => parseF n ts (.classMethodsJ (f :: acc)) p
        | .ok _ _ => .err .embeddingUnreachable
        | .err e => .err e
        | .fuel => .fuel
    | .namedFunctionJ _ =>
      -- `Parser::named_function` (`is_method` only selects the position
      -- recorded on the statement, which the embedding does not keep)
      match (peekT ts pos).kind with
      | .identifier name =>
        match parseF n ts .anonymousFunctionJ (pos + 1) with
        | .ok (.expr (.anonFun parameters body)) p =>
          .ok (.stmt (.funDecl (.mk name parameters body))) p
        | .ok _ _ => .err .embeddingUnreachable
        | .err e => .err e
        | .fuel => .fuel
      | _ => .err .expectedIdentifier
    | .anonymousFunctionJ =>
      -- `Parser::anonymous_function`
      if (peekT ts pos).kind = .leftParen then
        match parseF n ts (.parametersJ []) (pos + 1) with
        | .ok (.params parameters) p =>
          if (peekT ts p).kind = .rightParen then
            if (peekT ts (p + 1)).kind = .leftCurly then
              match parseF n ts (.blockJ []) (p + 2) with
              | .ok (.stmts body) p2 => .ok (.expr (.anonFun parameters body)) p2
              | .ok _ _ => .err .embeddingUnreachable
              | .err e => .err e
              | .fuel => .fuel
            else .err .expectedLeftCurly
          else .err .expectedRightParen
        | .ok _ _ => .err .embeddingUnreachable
        | .err e => .err e
        | .fuel => .fuel
      else .err .expectedLeftParen
    | .parametersJ acc =>
      -- `Parser::parameters` (the 255-limit diagnostic is reported to
      -- stderr but not returned; it does not affect the result)
      if (peekT ts pos).kind = .rightParen then .ok (.params acc.reverse) pos
      else
        match (peekT ts pos).kind with
        | .identifier name =>
          if (peekT ts (pos + 1)).kind = .comma then
            parseF n ts (.parametersJ (name :: acc)) (pos + 2)
          else .ok (.params (name :: acc).reverse) (pos + 1)
        | _ => .err .expectedIdentifier
    | .statementJ =>
      -- `Parser::statement`
      match (peekT ts pos).kind with
      | .leftCurly =>
        match parseF n ts (.blockJ []) (pos + 1) with
        | .ok (.stmts ss) p => .ok (.stmt (.block ss)) p
        | .ok _ _ => .err .embeddingUnreachable
        | .err e => .err e
        | .fuel => .fuel
      | .ifT => parseF n ts .ifJ (pos + 1)
      | .whileT => parseF n ts .whileJ (pos + 1)
      | .forT => parseF n ts .forJ (pos + 1)
      | .breakT => parseF n ts .breakJ (pos + 1)
      | .continueT => parseF n ts .continueJ (pos + 1)
      | .returnT => parseF n ts .returnJ (pos + 1)
      | _ => parseF n ts .exprStatementJ pos
    | .ifJ =>
      -- `Parser::if_statement`
      if (peekT ts pos).kind = .leftParen then
        match parseF n ts .expressionJ (pos + 1) with
        | .ok (.expr condition) p =>
          if (peekT ts p).kind = .rightParen then
            match parseF n ts .statementJ (p + 1) with
            | .ok (.stmt thenBranch) p2 =>
              if (peekT ts p2).kind = .elseT then
                match parseF n ts .statementJ (p2 + 1) with
                | .ok (.stmt elseBranch) p3 =>
                  .ok (.stmt (.ifS condition thenBranch (some elseBranch))) p3
                | .ok _ _ => .err .embeddingUnreachable
                | .err e => .err e
                | .fuel => .fuel
              else .ok (.stmt (.ifS condition thenBranch none)) p2
            | .ok _ _ => .err .embeddingUnreachable
            | .err e => .err e
            | .fuel => .fuel
          else .err .expectedRightParen
        | .ok _ _ => .err .embeddingUnreachable
        | .err e => .err e
        | .fuel => .fuel
      else .err .expectedLeftParen
    | .whileJ =>
      -- `Parser::while_statement`
      if (peekT ts pos).kind = .leftParen then
        match parseF n ts .expressionJ (pos + 1) with
        | .ok (.expr condition) p =>
          if (peekT ts p).kind = .rightParen then
            match parseF n ts .statementJ (p + 1) with
            | .ok (.stmt body) p2 => .ok (.stmt (.whileS condition body)) p2
            | .ok _ _ => .err .embeddingUnreachable
            | .err e => .err e
            | .fuel => .fuel
          else .err .expectedRightParen
        | .ok _ _ => .err .embeddingUnreachable
        | .err e => .err e
        | .fuel => .fuel
      else .err .expectedLeftParen
    | .forJ =>
      -- `Parser::for_statement`: parse the three header slots, then
      -- desugar to `Block[init, While(cond, Block[body, Expr(incr)])]`
      if (peekT ts pos).kind = .leftParen then
        let initRes : PRes :=
          if (peekT ts (pos + 1)).kind = .semicolon then
            .ok (.stmts []) (pos + 2)
          else if (peekT ts (pos + 1)).kind = .varT then
            match parseF n ts .varDeclJ (pos + 2) with
            | .ok (.stmt s) p => .ok (.stmts [s]) p
            | .ok _ _ => .err .embeddingUnreachable
            | r => r
          else
            match parseF n ts .exprStatementJ (pos + 1) with
            | .ok (.stmt s) p => .ok (.stmts [s]) p
            | .ok _ _ => .err .embeddingUnreachable
            | r => r
        match initRes with
        | .ok (.stmts initList) p =>
          let condRes : PRes :=
            if (peekT ts p).kind = .semicolon then
              .ok (.expr (.lit (.boolean true))) p
            else parseF n ts .expressionJ p
          match condRes with
          | .ok (.expr condition) p2 =>
            if (peekT ts p2).kind = .semicolon then
              let incrRes : PRes :=
                if (peekT ts (p2 + 1)).kind = .rightParen then
                  .ok (.args []) (p2 + 1)
                else
                  match parseF n ts .expressionJ (p2 + 1) with
                  | .ok (.expr e) p3 => .ok (.args [e]) p3
                  | .ok _ _ => .err .embeddingUnreachable
                  | r => r
              match incrRes with
              | .ok (.args incrList) p3 =>
                if (peekT ts p3).kind = .rightParen then
                  match parseF n ts .statementJ (p3 + 1) with
                  | .ok (.stmt body) p4 =>
                    let stmt :=
                      match incrList with
                      | [increment] => Stmt.block [body, .expr increment]
                      | _ => body
                    let stmt := Stmt.whileS condition stmt
                    let stmt :=
                      match initList with
                      | [initStmt] => Stmt.block [initStmt, stmt]
                      | _ => stmt
                    .ok (.stmt stmt) p4
                  | .ok _ _ => .err .embeddingUnreachable
                  | .err e => .err e
                  | .fuel => .fuel
                else .err .expectedRightParen
              | .ok _ _ => .err .embeddingUnreachable
              | .err e => .err e
              | .fuel => .fuel
            else .err .expectedSemicolon
          | .ok _ _ => .err .embeddingUnreachable
          | .err e => .err e
          | .fuel => .fuel
        | .ok _ _ => .err .embeddingUnreachable
        | .err e => .err e
        | .fuel => .fuel
      else .err .expectedLeftParen
    | .breakJ =>
      -- `Parser::break_statement`
      if (peekT ts pos).kind = .semicolon then .ok (.stmt .breakS) (pos + 1)
      else .err .expectedSemicolon
    | .continueJ =>
      -- `Parser::continue_statement`
      if (peekT ts pos).kind = .semicolon then .ok (.stmt .continueS) (pos + 1)
      else .err .expectedSemicolon
    | .returnJ =>
      -- `Parser::return_statement`
      if (peekT ts pos).kind = .semicolon then .ok (.stmt (.ret none)) (pos + 1)
      else
        match parseF n ts .expressionJ pos with
        | .ok (.expr e) p =>
          if (peekT ts p).kind = .semicolon then .ok (.stmt (.ret (some e))) (p + 1)
          else .err .expectedSemicolon
        | .ok _ _ => .err .embeddingUnreachable
        | .err e => .err e
        | .fuel => .fuel
    | .blockJ acc =>
      -- `Parser::block` (the `{` is already consumed)
      if (peekT ts pos).kind = .rightCurly ∨ (peekT ts pos).kind = .eof then
        if (peekT ts pos).kind = .rightCurly then
          .ok (.stmts acc.reverse) (pos + 1)
        else .err .expectedRightCurly
      else
        match parseF n ts .declarationJ pos with
        | .ok (.stmt s) p => parseF n ts (.blockJ (s :: acc)) p
        | .ok _ _ => .err .embeddingUnreachable
        | .err e => .err e
        | .fuel => .fuel
    | .exprStatementJ =>
      -- `Parser::expression_statement`
      match parseF n ts .expressionJ pos with
      | .ok (.expr e) p =>
        if (peekT ts p).kind = .semicolon then .ok (.stmt (.expr e)) (p + 1)
        else .err .expectedSemicolon
      | .ok _ _ => .err .embeddingUnreachable
      | .err e => .err e
      | .fuel => .fuel
    | .expressionJ =>
      -- `Parser::expression`
      parseF n ts .commaJ pos
    | .assignmentJ =>
      -- `Parser::assignment`
      match parseF n ts .ternaryJ pos with
      | .ok (.expr e) p =>
        if (peekT ts p).kind = .equals then
          match parseF n ts .assignmentJ (p + 1) with
          | .ok (.expr value) p2 =>
            match e with
            | .var reference => .ok (.expr (.assignment reference value)) p2
            | .get object identifier =>
              .ok (.expr (.set object identifier value)) p2
            | _ => .err .invalidAssignmentTarget
          | .ok _ _ => .err .embeddingUnreachable
          | .err e => .err e
          | .fuel => .fuel
        else .ok (.expr e) p
      | .ok _ _ => .err .embeddingUnreachable
      | .err e => .err e
      | .fuel => .fuel
    | .ternaryJ =>
      -- `Parser::ternary`
      if (peekT ts pos).kind = .questionMark then .err .expectedExpression
      else
        match parseF n ts .orJ pos with
        | .ok (.expr e) p =>
          if (peekT ts p).kind = .questionMark then
            match parseF n ts .ternaryJ (p + 1) with
            | .ok (.expr truthy) p2 =>
              if (peekT ts p2).kind = .colon then
                match parseF n ts .ternaryJ (p2 + 1) with
                | .ok (.expr falsey) p3 => .ok (.expr (.ternary e truthy falsey)) p3
                | .ok _ _ => .err .embeddingUnreachable
                | .err e => .err e
                | .fuel => .fuel
              else .err .unterminatedTernary
            | .ok _ _ => .err .embeddingUnreachable
            | .err e => .err e
            | .fuel => .fuel
          else .ok (.expr e) p
        | .ok _ _ => .err .embeddingUnreachable
        | .err e => .err e
        | .fuel => .fuel
    | .orJ =>
      -- `logical_operators!` instance `(or, and)`
      if (peekT ts pos).kind = .orT then .err .expectedExpression
      else
        match parseF n ts .andJ pos with
        | .ok (.expr e) p => parseF n ts (.orLoopJ e) p
        | r => r
    | .orLoopJ e =>
      if (peekT ts pos).kind = .orT then
        match parseF n ts .andJ (pos + 1) with
        | .ok (.expr right) p => parseF n ts (.orLoopJ (.logical e .orOp right)) p
        | r => r
      else .ok (.expr e) pos
    | .andJ =>
      -- `logical_operators!` instance `(and, equality)`
      if (peekT ts pos).kind = .andT then .err .expectedExpression
      else
        match parseF n ts .equalityJ pos with
        | .ok (.expr e) p => parseF n ts (.andLoopJ e) p
        | r => r
    | .andLoopJ e =>
      if (peekT ts pos).kind = .andT then
        match parseF n ts .equalityJ (pos + 1) with
        | .ok (.expr right) p => parseF n ts (.andLoopJ (.logical e .andOp right)) p
        | r => r
      else .ok (.expr e) pos
    | .commaJ =>
      -- `binary_operators!` instance `(comma, assignment)`
      if isCommaOp (peekT ts pos).kind then .err .expectedExpression
      else
        match parseF n ts .assignmentJ pos with
        | .ok (.expr e) p => parseF n ts (.commaLoopJ e) p
        | r => r
    | .commaLoopJ e =>
      if isCommaOp (peekT ts pos).kind then
        match parseF n ts .assignmentJ (pos + 1) with
        | .ok (.expr right) p =>
          parseF n ts (.commaLoopJ (.binary e (binOpOf (peekT ts pos).kind) right)) p
        | r => r
      else .ok (.expr e) pos
    | .equalityJ =>
      -- `binary_operators!` instance `(equality, comparison)`
      if isEqualityOp (peekT ts pos).kind then .err .expectedExpression
      else
        match parseF n ts .comparisonJ pos with
        | .ok (.expr e) p => parseF n ts (.equalityLoopJ e) p
        | r => r
    | .equalityLoopJ e =>
      if isEqualityOp (peekT ts pos).kind then
        match parseF n ts .comparisonJ (pos + 1) with
        | .ok (.expr right) p =>
          parseF n ts (.equalityLoopJ (.binary e (binOpOf (peekT ts pos).kind) right)) p
        | r => r
      else .ok (.expr e) pos
    | .comparisonJ =>
      -- `binary_operators!` instance `(comparison, term)`
      if isComparisonOp (peekT ts pos).kind then .err .expectedExpression
      else
        match parseF n ts .termJ pos with
        | .ok (.expr e) p => parseF n ts (.comparisonLoopJ e) p
        | r => r
    | .comparisonLoopJ e =>
      if isComparisonOp (peekT ts pos).kind then
        match parseF n ts .termJ (pos + 1) with
        | .ok (.expr right) p =>
          parseF n ts (.comparisonLoopJ (.binary e (binOpOf (peekT ts pos).kind) right)) p
        | r => r
      else .ok (.expr e) pos
    | .termJ =>
      -- `binary_operators!` instance `(term, factor)`
      if isTermOp (peekT ts pos).kind then .err .expectedExpression
      else
        match parseF n ts .factorJ pos with
        | .ok (.expr e) p => parseF n ts (.termLoopJ e) p
        | r => r
    | .termLoopJ e =>
      if isTermOp (peekT ts pos).kind then
        match parseF n ts .factorJ (pos + 1) with
        | .ok (.expr right) p =>
          parseF n ts (.termLoopJ (.binary e (binOpOf (peekT ts pos).kind) right)) p
        | r => r
      else .ok (.expr e) pos
    | .factorJ =>
      -- `binary_operators!` instance `(factor, unary)`
      if isFactorOp (peekT ts pos).kind then .err .expectedExpression
      else
        match parseF n ts .unaryJ pos with
        | .ok (.expr e) p => parseF n ts (.factorLoopJ e) p
        | r => r
    | .factorLoopJ e =>
      if isFactorOp (peekT ts pos).kind then
        match parseF n ts .unaryJ (pos + 1) with
        | .ok (.expr right) p =>
          parseF n ts (.factorLoopJ (.binary e (binOpOf (peekT ts pos).kind) right)) p
        | r => r
      else .ok (.expr e) pos
    | .unaryJ =>
      -- `Parser::unary`
      match (peekT ts pos).kind with
      | .bang =>
        match parseF n ts .unaryJ (pos + 1) with
        | .ok (.expr e) p => .ok (.expr (.unary .bang e)) p
        | r => r
      | .minus =>
        match parseF n ts .unaryJ (pos + 1) with
        | .ok (.expr e) p => .ok (.expr (.unary .minus e)) p
        | r => r
      | _ => parseF n ts .callJ pos
    | .callJ =>
      -- `Parser::call`
      match parseF n ts .primaryJ pos with
      | .ok (.expr e) p => parseF n ts (.callLoopJ e) p
      | r => r
    | .callLoopJ e =>
      match (peekT ts pos).kind with
      | .leftParen =>
        match parseF n ts (.argumentsJ []) (pos + 1) with
        | .ok (.args args) p =>
          if (peekT ts p).kind = .rightParen then
            parseF n ts (.callLoopJ (.call e args)) (p + 1)
          else .err .expectedRightParen
        | .ok _ _ => .err .embeddingUnreachable
        | .err e => .err e
        | .fuel => .fuel
      | .dot =>
        match (peekT ts (pos + 1)).kind with
        | .identifier name => parseF n ts (.callLoopJ (.get e name)) (pos + 2)
        | _ => .err .expectedIdentifier
      | _ => .ok (.expr e) pos
    | .argumentsJ acc =>
      -- `Parser::arguments` (the 255-limit diagnostic is reported to
      -- stderr but not returned; it does not affect the result)
      if (peekT ts pos).kind = .rightParen then .ok (.args acc.reverse) pos
      else
        match parseF n ts .assignmentJ pos with
        | .ok (.expr e) p =>
          if (peekT ts p).kind = .comma then
            parseF n ts (.argumentsJ (e :: acc)) (p + 1)
          else .ok (.args (e :: acc).reverse) p
        | .ok _ _ => .err .embeddingUnreachable
        | .err e => .err e
        | .fuel => .fuel
    | .primaryJ =>
      -- `Parser::primary`
      match (peekT ts pos).kind with
      | .identifier name =>
        let t := peekT ts pos
        .ok (.expr (.var ⟨t.line, t.column, name⟩)) (pos + 1)
      | .thisT =>
        let t := peekT ts pos
        .ok (.expr (.this t.line t.column)) (pos + 1)
      | .superT =>
        let t := peekT ts pos
        if (peekT ts (pos + 1)).kind = .dot then
          match (peekT ts (pos + 2)).kind with
          | .identifier method =>
            .ok (.expr (.super t.line t.column method)) (pos + 3)
          | _ => .err .expectedIdentifier
        else .err .expectedDotAfterSuper
      | .trueT => .ok (.expr (.lit (.boolean true))) (pos + 1)
      | .falseT => .ok (.expr (.lit (.boolean false))) (pos + 1)
      | .nilT => .ok (.expr (.lit .nil)) (pos + 1)
      | .number value => .ok (.expr (.lit (.num value))) (pos + 1)
      | .string value => .ok (.expr (.lit (.str value))) (pos + 1)
      | .leftParen =>
        match parseF n ts .expressionJ (pos + 1) with
        | .ok (.expr e) p =>
          if (peekT ts p).kind = .rightParen then
            .ok (.expr (.grouping e)) (p + 1)
          else .err .expectedRightParen
        | .ok _ _ => .err .embeddingUnreachable
        | .err e => .err e
        | .fuel => .fuel
      | .funT => parseF n ts .anonymousFunctionJ (pos + 1)
      | _ => .err .expectedExpression

/-- `Parser::parse` / `Parser::program` from the start of a token stream. -/
def parseProgram (fuel : Nat) (ts : List Token) : Option (List Stmt) :=
  match parseF fuel ts (.programJ [] false) 0 with
  | .ok (.stmts ss) _ => some ss
  | _ => none


/-- Build a token stream from a list of kinds, assigning each token the
column equal to its index (line 0) and appending the terminating `eof`.
Distinct occurrences thus get distinct positions, as the lexer guarantees
on a single line. -/
def mkToks (ks : List TokKind) : List Token :=
  ks.enum.map (fun p => ⟨0, p.1, p.2⟩) ++ [⟨0, ks.length, .eof⟩]

end Lox


namespace Lox

/-! ## Association-list helpers

Rust `HashMap` values are modelled as association lists whose `insert`
replaces an existing binding (the observable behaviour of `HashMap::insert`
through `get`/`contains_key`). -/

/-- `HashMap::get`. -/
def alFind? {κ α : Type} [DecidableEq κ] : List (κ × α) → κ → Option α
  | [], _ => none
  | (k, v) :: rest, key => if k = key then some v else alFind? rest key

/-- `HashMap::insert` (replace an existing binding, else append). -/
def alInsert {κ α : Type} [DecidableEq κ] : List (κ × α) → κ → α → List (κ × α)
  | [], key, v => [(key, v)]
  | (k, w) :: rest, key, v =>
    if k = key then (k, v) :: rest else (k, w) :: alInsert rest key v

/-! ## Resolver (crate `resolver`, `resolver.rs`)

Mirrors `Resolver`: a stack of scopes (`Vec<HashMap<Rc<str>, bool>>`,
modelled with the innermost scope at the head of the list), the `locals`
side table, and the `had_error` / `is_in_loop` / `function_kind` /
`class_kind` flags.  As in the parser, the mutually recursive methods are
packed into one fuel-indexed function dispatching on a job tag. -/

/-- `resolver::FunctionKind`. -/
inductive FunctionKind where
  | noneK | functionK | initK | methodK
  deriving DecidableEq, Repr

/-- `resolver::ClassKind`. -/
inductive ClassKind where
  | noneK | classK | subclassK
  deriving DecidableEq, Repr

/-- `resolver::ResolverError`.  `panickedR` models the `unreachable!` hit
when a class's superclass expression is not a `Variable` (the parser never
produces that shape). -/
inductive RErr where
  | accessInOwnInit
  | redeclareVariable (name : String)
  | unexpectedReturn
  | unexpectedBreak
  | unexpectedContinue
  | unexpectedThis
  | cannotReturnFromInit
  | classInheritFromItself
  | unexpectedSuper
  | panickedR
  deriving DecidableEq, Repr

/-- The mutable fields of `Resolver` (minus `source`/`had_error`, which
only drive reporting). The innermost scope is the head of `scopes`. -/
structure RState where
  scopes : List (List (String × Bool))
  locals : List (Ref × Nat)
  isInLoop : Bool
  functionKind : FunctionKind
  classKind : ClassKind
  deriving Repr

/-- Result of a resolver job.  Errors carry the state because the Rust
`Resolver` keeps all mutations performed before the error (its `resolve`
reports the error and carries on with the same `self`). -/
inductive RRes where
  | ok (st : RState)
  | err (e : RErr) (st : RState)
  | fuel

/-- Resolver jobs: statements, statement lists, expressions, expression
lists (call arguments), `resolve_function`, and the method loop of the
class arm. -/
inductive RJob where
  | stmtJ (s : Stmt)
  | stmtsJ (ss : List Stmt)
  | exprJ (e : Expr)
  | exprsJ (es : List Expr)
  | funcJ (parameters : List String) (body : List Stmt) (kind : FunctionKind)
  | methodsJ (ms : List Func)

/-- `Resolver::begin_scope`. -/
def beginScope (st : RState) : RState :=
  { st with scopes := [] :: st.scopes }

/-- `Resolver::end_scope`. -/
def endScope (st : RState) : RState :=
  { st with scopes := st.scopes.tail }

/-- `Resolver::declare`: error on redeclaration in the same local scope,
no-op at global level (empty scope stack). -/
def rDeclare (st : RState) (identifier : String) : Except RErr RState :=
  match st.scopes with
  | [] => .ok st
  | scope :: rest =>
    if (alFind? scope identifier).isSome then
      .error (.redeclareVariable identifier)
    else .ok { st with scopes := alInsert scope identifier false :: rest }

/-- `Resolver::define`. -/
def rDefine (st : RState) (identifier : String) : RState :=
  match st.scopes with
  | [] => st
  | scope :: rest => { st with scopes := alInsert scope identifier true :: rest }

/-- `Resolver::resolve_local`.  The Rust loop runs `i` from the top of the
scope stack (`scopes.len() - 1`) down to `0` and, at every index whose
scope contains the identifier, inserts depth `scopes.len() - 1 - i` into
`locals`, without breaking.  With the stack top at the head of our list
this is exactly depth `d = 0, 1, ...` in ascending order, later insertions
overwriting earlier ones.  `rlStep` is one loop iteration at depth `d`. -/
def rlStep (reference : Ref) (acc : RState) (d : Nat) : RState :=
  if (alFind? (acc.scopes.getD d []) reference.identifier).isSome then
    { acc with locals := alInsert acc.locals reference d }
  else acc

/-- `Resolver::resolve_local` (see `rlStep`). -/
def resolveLocal (st : RState) (reference : Ref) : RState :=
  (List.range st.scopes.length).foldl (rlStep reference) st

/-- The parameter loop of `Resolver::resolve_function`:
`declare` + `define` for each parameter in order. -/
def declareParams (st : RState) : List String → Except RErr RState
  | [] => .ok st
  | p :: rest =>
    match rDeclare st p with
    | .error e => .error e
    | .ok st' => declareParams (rDefine st' p) rest

/-- The resolver: one fuel step per Rust method invocation.  Each arm
mirrors the correspondingly named method of `Resolver` in
`src/resolver/src/resolver.rs`. -/
def resolveF (fuel : Nat) (job : RJob) (st : RState) : RRes :=
  match fuel with
  | 0 => .fuel
  | n + 1 =>
    match job with
    | .stmtsJ [] => .ok st
    | .stmtsJ (s :: rest) =>
      match resolveF n (.stmtJ s) st with
      | .ok st' => resolveF n (.stmtsJ rest) st'
      | r => r
    | .exprsJ [] => .ok st
    | .exprsJ (e :: rest) =>
      match resolveF n (.exprJ e) st with
      | .ok st' => resolveF n (.exprsJ rest) st'
      | r => r
    | .methodsJ [] => .ok st
    | .methodsJ (m :: rest) =>
      -- the method loop of the `Statement::Class` arm
      let kind : FunctionKind :=
        if m.identifier = "init" then .initK else .methodK
      match resolveF n (.funcJ m.parameters m.body kind) st with
      | .ok st' => resolveF n (.methodsJ rest) st'
      | r => r
    | .funcJ parameters body kind =>
      -- `Resolver::resolve_function`
      let prevFunctionKind := st.functionKind
      let prevIsInLoop := st.isInLoop
      let st := { st with isInLoop := false, functionKind := kind }
      let st := beginScope st
      match declareParams st parameters with
      | .error e => .err e st
      | .ok st =>
        match resolveF n (.stmtsJ body) st with
        | .ok st =>
          let st := endScope st
          .ok { st with functionKind := prevFunctionKind, isInLoop := prevIsInLoop }
        | r => r
    | .stmtJ s =>
      match s with
      | .expr e => resolveF n (.exprJ e) st
      | .decl identifier initVal =>
        match rDeclare st identifier with
        | .error e => .err e st
        | .ok st =>
          match initVal with
          | some e =>
            match resolveF n (.exprJ e) st with
            | .ok st' => .ok (rDefine st' identifier)
            | r => r
          | none => .ok (rDefine st identifier)
      | .block stmts =>
        match resolveF n (.stmtsJ stmts) (beginScope st) with
        | .ok st' => .ok (endScope st')
        | r => r
      | .ifS condition thenBranch elseBranch =>
        match resolveF n (.exprJ condition) st with
        | .ok st =>
          match resolveF n (.stmtJ thenBranch) st with
          | .ok st =>
            match elseBranch with
            | some e => resolveF n (.stmtJ e) st
            | none => .ok st
          | r => r
        | r => r
      | .forS condition increment body =>
        -- the (dead) `Statement::For` arm of `resolve_statement`
        let prevIsInLoop := st.isInLoop
        match resolveF n (.exprJ condition) { st with isInLoop := true } with
        | .ok st =>
          match resolveF n (.stmtJ body) st with
          | .ok st =>
            match increment with
            | some e =>
              match resolveF n (.exprJ e) st with
              | .ok st => .ok { st with isInLoop := prevIsInLoop }
              | r => r
            | none => .ok { st with isInLoop := prevIsInLoop }
          | r => r
        | r => r
      | .whileS condition body =>
        let prevIsInLoop := st.isInLoop
        match resolveF n (.exprJ condition) { st with isInLoop := true } with
        | .ok st =>
          match resolveF n (.stmtJ body) st with
          | .ok st => .ok { st with isInLoop := prevIsInLoop }
          | r => r
        | r => r
      | .breakS =>
        if st.isInLoop then .ok st else .err .unexpectedBreak st
      | .continueS =>
        if st.isInLoop then .ok st else .err .unexpectedContinue st
      | .funDecl f =>
        match rDeclare st f.identifier with
        | .error e => .err e st
        | .ok st =>
          let st := rDefine st f.identifier
          resolveF n (.funcJ f.parameters f.body .functionK) st
      | .ret e =>
        if st.functionKind = .noneK then .err .unexpectedReturn st
        else
          match e with
          | some e =>
            if st.functionKind = .initK then .err .cannotReturnFromInit st
            else resolveF n (.exprJ e) st
          | none => .ok st
      | .classS identifier superClass methods =>
        let prevClassKind := st.classKind
        let st := { st with classKind := .classK }
        match rDeclare st identifier with
        | .error e => .err e st
        | .ok st =>
          let st := rDefine st identifier
          let withSuper : RRes :=
            match superClass with
            | some sup =>
              let st := { st with classKind := .subclassK }
              match sup with
              | .var reference =>
                if reference.identifier = identifier then
                  .err .classInheritFromItself st
                else
                  let st := beginScope st
                  match rDeclare st "super" with
                  | .error e => .err e st
                  | .ok st => resolveF n (.exprJ sup) (rDefine st "super")
              | _ => .err .panickedR st
            | none => .ok st
          match withSuper with
          | .ok st =>
            let st := beginScope st
            match rDeclare st "this" with
            | .error e => .err e st
            | .ok st =>
              match resolveF n (.methodsJ methods) (rDefine st "this") with
              | .ok st =>
                let st := if superClass.isSome then endScope st else st
                let st := endScope st
                .ok { st with classKind := prevClassKind }
              | r => r
          | r => r
    | .exprJ e =>
      match e with
      | .ternary condition truthy falsey =>
        match resolveF n (.exprJ condition) st with
        | .ok st =>
          match resolveF n (.exprJ truthy) st with
          | .ok st => resolveF n (.exprJ falsey) st
          | r => r
        | r => r
      | .logical left _ right =>
        match resolveF n (.exprJ left) st with
        | .ok st => resolveF n (.exprJ right) st
        | r => r
      | .binary left _ right =>
        match resolveF n (.exprJ left) st with
        | .ok st => resolveF n (.exprJ right) st
        | r => r
      | .grouping e => resolveF n (.exprJ e) st
      | .unary _ e => resolveF n (.exprJ e) st
      | .lit _ => .ok st
      | .var reference =>
        if (st.scopes.head?.bind (fun scope => alFind? scope reference.identifier))
            = some false then
          .err .accessInOwnInit st
        else .ok (resolveLocal st reference)
      | .assignment reference value =>
        match resolveF n (.exprJ value) st with
        | .ok st => .ok (resolveLocal st reference)
        | r => r
      | .anonFun parameters body =>
        resolveF n (.funcJ parameters body .functionK) st
      | .call callee args =>
        match resolveF n (.exprJ callee) st with
        | .ok st => resolveF n (.exprsJ args) st
        | r => r
      | .get object _ => resolveF n (.exprJ object) st
      | .set object _ value =>
        match resolveF n (.exprJ object) st with
        | .ok st => resolveF n (.exprJ value) st
        | r => r
      | .this line column =>
        if st.classKind = .noneK then .err .unexpectedThis st
        else .ok (resolveLocal st ⟨line, column, "this"⟩)
      | .super line column _ =>
        if st.classKind ≠ .subclassK then .err .unexpectedSuper st
        else .ok (resolveLocal st ⟨line, column, "super"⟩)

/-- `Resolver::new`. -/
def rInit : RState :=
  ⟨[], [], false, .noneK, .noneK⟩

/-- `Resolver::resolve`: resolve each top-level statement, reporting (and
here: recording) errors but carrying on.  Returns `none` if the embedding
fuel ran out, otherwise the final state and the `had_error` flag. -/
def resolveProgram (fuel : Nat) (stmts : List Stmt) : Option (RState × Bool) :=
  stmts.foldl
    (fun acc s =>
      match acc with
      | none => none
      | some (st, hadError) =>
        match resolveF fuel (.stmtJ s) st with
        | .ok st' => some (st', hadError)
        | .err _ st' => some (st', true)
        | .fuel => none)
    (some (rInit, false))

end Lox

namespace Lox

/-! ## Runtime values (crate `interpreter`: `value.rs`, `callable.rs`)

`Rc<RefCell<Environment>>` and `Rc<RefCell<LoxInstance>>` are heap
indices into the interpreter state (see `SState`); everything else is
by-value, as in the source. -/

/-- The three native functions installed by `Interpreter::new`.  Their
Rust bodies close over no state; the `NativeFunction` pointer is replaced
by this tag and its behaviour by `runNative`. -/
inductive NativeFn where
  | clock | printFn | readLine
  deriving DecidableEq, Repr

mutual

/-- `interpreter::Value`. -/
inductive Value where
  | str (s : String)
  | num (n : Int)
  | boolean (b : Bool)
  | nil
  | callable (c : Callable)
  | instanceV (i : Nat)

/-- `interpreter::Callable`. -/
inductive Callable where
  | mk (arity : Nat) (kind : CallableKind)

/-- `interpreter::CallableKind`.  `closure` is an environment-heap index;
`isInit` is the `is_initializer` flag. -/
inductive CallableKind where
  | native (f : NativeFn)
  | loxFun (identifier : Option String) (parameters : List String)
      (body : List Stmt) (closure : Nat) (isInit : Bool)
  | loxClass (c : LoxClass)

/-- `interpreter::LoxClass` (`super_class: Option<Rc<LoxClass>>` is an
owned optional class, as in the source). -/
inductive LoxClass where
  | mk (identifier : String) (methods : List (String × Callable))
      (superClass : Option LoxClass)

end

def Callable.arity : Callable → Nat
  | .mk a _ => a

def Callable.kind : Callable → CallableKind
  | .mk _ k => k

def LoxClass.identifier : LoxClass → String
  | .mk i _ _ => i

def LoxClass.methods : LoxClass → List (String × Callable)
  | .mk _ m _ => m

def LoxClass.superClass : LoxClass → Option LoxClass
  | .mk _ _ s => s

/-- `Value::type_name`. -/
def Value.typeName : Value → String
  | .str _ => "string"
  | .num _ => "number"
  | .boolean _ => "boolean"
  | .nil => "nil"
  | .callable _ => "function"
  | .instanceV _ => "object"

/-- `Value::is_truthy`: everything except `Nil` and `Boolean(false)`. -/
def Value.isTruthy : Value → Bool
  | .nil => false
  | .boolean false => false
  | _ => true

/-- `From<Literal> for Value`. -/
def litToValue : Lit → Value
  | .str s => .str s
  | .num n => .num n
  | .boolean b => .boolean b
  | .nil => .nil

/-- `PartialEq for Value`.  Primitives compare by value; `Instance` by
object identity, i.e. heap index.  Rust compares `Callable`s by raw
pointer identity of the native handler or of the body `Rc`; pointer
identity has no counterpart in this embedding and no claim exercises
callable equality, so it is conservatively modelled as `false`. -/
def valueEq : Value → Value → Bool
  | .str a, .str b => a = b
  | .num a, .num b => a = b
  | .boolean a, .boolean b => a = b
  | .nil, .nil => true
  | .instanceV a, .instanceV b => a = b
  | _, _ => false

/-- `environment::State`. -/
inductive VarState where
  | undeclared
  | unassigned
  | assigned (v : Value)

/-- `interpreter::Environment`: optional parent (heap index) and the
name → binding-state map. -/
structure Env where
  parent : Option Nat
  values : List (String × VarState)

/-- `interpreter::LoxInstance`. -/
structure Inst where
  klass : LoxClass
  fields : List (String × Value)

/-- The interpreter state: the two heaps, the `environment` pointer
(`current`), the `locals` side table and the stdout stream produced by
`print`.  The `globals` pointer of the Rust struct always refers to the
root environment created by `Interpreter::new`, which lives at heap
index `0` here. -/
structure SState where
  envs : List Env
  insts : List Inst
  current : Nat
  locals : List (Ref × Nat)
  output : List String

/-- `interpreter::RuntimeError`.  `incorrectNumberOfArguments` is spelled
`ImcorrectNumberOfArguments` in the source; `ret`/`brk`/`cont` are the
internal control-flow variants `Return`/`Break`/`Continue`; `panicked`
models `unreachable!`/indexing panics (see the file header). -/
inductive RtErr where
  | typeError (expected found : String)
  | divideByZero
  | undeclaredVariable (name : String)
  | unassignedVariable (name : String)
  | brk
  | cont
  | typeIsNotCallable (t : String)
  | incorrectNumberOfArguments (expected found : Nat)
  | ret (v : Value)
  | typeIsNotInstance (t : String)
  | undefinedProperty (name : String)
  | superClassMustBeAClass
  | panicked

/-! ### Environment operations (`environment.rs`) -/

/-- Read an environment from the heap (the index is always in bounds for
states produced by the interpreter; the default mirrors nothing in the
source and is never hit there). -/
def getEnv (st : SState) (i : Nat) : Env :=
  st.envs.getD i ⟨none, []⟩

def setEnv (st : SState) (i : Nat) (e : Env) : SState :=
  { st with envs := st.envs.set i e }

def getInst (st : SState) (i : Nat) : Inst :=
  st.insts.getD i ⟨⟨"", [], none⟩, []⟩

/-- `Environment::spawn_child`: allocate a fresh child environment,
returning its index. -/
def spawnChild (st : SState) (parent : Nat) : Nat × SState :=
  (st.envs.length, { st with envs := st.envs ++ [⟨some parent, []⟩] })

/-- `Environment::define` on the environment at heap index `i`:
unconditional insert; `none` yields `Unassigned`. -/
def envDefine (st : SState) (i : Nat) (name : String) (v : Option Value) : SState :=
  let e := getEnv st i
  setEnv st i
    { e with
      values :=
        alInsert e.values name
          (match v with
           | some value => .assigned value
           | none => .unassigned) }

/-- `Environment::ancestor`-style walk: follow `d` parent links starting
from env `i`; `none` models the panicking `unreachable!`/`unwrap`. -/
def ancestorIx (st : SState) : Nat → Nat → Option Nat
  | i, 0 => some i
  | i, d + 1 =>
    match (getEnv st i).parent with
    | some p => ancestorIx st p d
    | none => none

/-- `Environment::lookup_at` starting from env `i`: ascend `distance`
parents, then read.  A missing key panics in Rust (`self.values[&k]`),
as does `State::Undeclared` (`unreachable!`); both are `panicked`. -/
def lookupAt (st : SState) (i : Nat) (distance : Nat) (reference : Ref) :
    Except RtErr Value :=
  let stateAt : Option VarState :=
    match ancestorIx st i distance with
    | some j => alFind? (getEnv st j).values reference.identifier
    | none => none
  match stateAt with
  | some (.assigned v) => .ok v
  | some .unassigned => .error (.unassignedVariable reference.identifier)
  | some .undeclared => .error .panicked
  | none => .error .panicked

/-- `Environment::assign_at` starting from env `i`. -/
def assignAt (st : SState) (i : Nat) (distance : Nat) (reference : Ref)
    (v : Value) : Except RtErr SState :=
  match ancestorIx st i distance with
  | none => .error .panicked
  | some j =>
    let e := getEnv st j
    if (alFind? e.values reference.identifier).isSome then
      .ok (setEnv st j
        { e with values := alInsert e.values reference.identifier (.assigned v) })
    else .error (.undeclaredVariable reference.identifier)

/-- `Environment::lookup`: searches only the given environment's own map
(used on the globals root); distinguishes `Unassigned` from
`Undeclared`. -/
def envLookup (e : Env) (reference : Ref) : Except RtErr Value :=
  let state := (alFind? e.values reference.identifier).getD .undeclared
  match state with
  | .assigned v => .ok v
  | .unassigned => .error (.unassignedVariable reference.identifier)
  | .undeclared => .error (.undeclaredVariable reference.identifier)

/-- `Environment::assign` on the environment at heap index `i`:
local-only overwrite of an existing binding. -/
def envAssign (st : SState) (i : Nat) (reference : Ref) (v : Value) :
    Except RtErr SState :=
  let e := getEnv st i
  if (alFind? e.values reference.identifier).isSome then
    .ok (setEnv st i
      { e with values := alInsert e.values reference.identifier (.assigned v) })
  else .error (.undeclaredVariable reference.identifier)

/-! ### Display forms and pure expression helpers (`interpreter.rs`) -/

/-- `Display for CallableKind`. -/
def CallableKind.display : CallableKind → String
  | .native _ => "<native fn>"
  | .loxFun (some identifier) _ _ _ _ => "<fn " ++ identifier ++ ">"
  | .loxFun none _ _ _ _ => "<anonymous fn>"
  | .loxClass c => "<class " ++ c.identifier ++ ">"

/-- `Display for Value` (instances need the heap: `<NAME instance>`). -/
def displayV (st : SState) : Value → String
  | .str s => s
  | .num n => toString n
  | .boolean true => "true"
  | .boolean false => "false"
  | .nil => "nil"
  | .callable c => c.kind.display
  | .instanceV i => "<" ++ (getInst st i).klass.identifier ++ " instance>"

/-- `Interpreter::concatenate_strings`.  Its two internal matches realise
exactly the display forms of the operands (numbers via `to_string`,
booleans/nil literally, strings verbatim, callables via their kind,
instances via `<NAME instance>`), followed by concatenation. -/
def concatenateStrings (st : SState) (left right : Value) : Value :=
  .str (displayV st left ++ displayV st right)

/-- `Interpreter::evaluate_plus_operation`.  The arms appear in source
order; the final arm's `expected` string is the literal
`number" or "string` of the source. -/
def evaluatePlus (st : SState) (left right : Value) : Except RtErr Value :=
  match left, right with
  | .num a, .num b => .ok (.num (a + b))
  | .str a, b => .ok (concatenateStrings st (.str a) b)
  | a, .str b => .ok (concatenateStrings st a (.str b))
  | .num _, x => .error (.typeError "number" x.typeName)
  | x, _ => .error (.typeError "number\" or \"string" x.typeName)

/-- `Interpreter::evaluate_comparison`.  Only called with one of the four
comparison operators; other operators hit the `unreachable!` arms.
Boolean comparison is Rust's derived `Ord` on `bool` (`false < true`):
`<` is `!a && b`, `<=` is `!a || b`, `>` is `a && !b`, `>=` is `a || !b`.
For `(Nil, Nil)`, `<`/`>` yield `true` and `<=`/`>=` yield `false`. -/
def evaluateComparison (left : Value) (op : BinOp) (right : Value) :
    Except RtErr Value :=
  match left, right with
  | .str a, .str b =>
    match op with
    | .lessThan => .ok (.boolean (decide (a < b)))
    | .lessEqual => .ok (.boolean (decide (a ≤ b)))
    | .greaterThan => .ok (.boolean (decide (b < a)))
    | .greaterEqual => .ok (.boolean (decide (b ≤ a)))
    | _ => .error .panicked
  | .num a, .num b =>
    match op with
    | .lessThan => .ok (.boolean (decide (a < b)))
    | .lessEqual => .ok (.boolean (decide (a ≤ b)))
    | .greaterThan => .ok (.boolean (decide (b < a)))
    | .greaterEqual => .ok (.boolean (decide (b ≤ a)))
    | _ => .error .panicked
  | .boolean a, .boolean b =>
    match op with
    | .lessThan => .ok (.boolean (!a && b))
    | .lessEqual => .ok (.boolean (!a || b))
    | .greaterThan => .ok (.boolean (a && !b))
    | .greaterEqual => .ok (.boolean (a || !b))
    | _ => .error .panicked
  | .nil, .nil =>
    match op with
    | .lessThan => .ok (.boolean true)
    | .greaterThan => .ok (.boolean true)
    | .lessEqual => .ok (.boolean false)
    | .greaterEqual => .ok (.boolean false)
    | _ => .error .panicked
  | a, b => .error (.typeError a.typeName b.typeName)

end Lox

namespace Lox

/-! ### Instances and method binding (`instance.rs`) -/

/-- Allocate a fresh `LoxInstance { class, fields: HashMap::new() }`,
returning its heap index. -/
def allocInst (st : SState) (cls : LoxClass) : Nat × SState :=
  (st.insts.length, { st with insts := st.insts ++ [⟨cls, []⟩] })

/-- `LoxInstance::set`. -/
def instSet (st : SState) (instIx : Nat) (identifier : String) (v : Value) :
    SState :=
  let inst := getInst st instIx
  { st with
    insts := st.insts.set instIx
      { inst with fields := alInsert inst.fields identifier v } }

/-- Method binding: wrap a `LoxFunction` in a fresh child of its closure
that defines `this = instance`, preserving `is_initializer`.  This code
is spelled out three times in the source (`LoxInstance::get`, the
`Expression::Super` arm of `Interpreter::evaluate`, and the class arm of
`Interpreter::call`); `none` models the `unreachable!` these sites hit on
a non-`LoxFunction`. -/
def bindThis (st : SState) (c : Callable) (instIx : Nat) :
    Option (Callable × SState) :=
  match c with
  | ⟨arity, .loxFun identifier parameters body closure isInit⟩ =>
    let (fresh, st) := spawnChild st closure
    let st := envDefine st fresh "this" (some (.instanceV instIx))
    some (⟨arity, .loxFun identifier parameters body fresh isInit⟩, st)
  | _ => none

/-- The method-table construction of the `Statement::Class` arm:
insert each method in source order (`last one wins`), with the given
closure environment and `is_initializer = (name == "init")`. -/
def buildMethods (ms : List Func) (closure : Nat) : List (String × Callable) :=
  ms.foldl
    (fun acc m =>
      alInsert acc m.identifier
        ⟨m.parameters.length,
         .loxFun (some m.identifier) m.parameters m.body closure
           (m.identifier = "init")⟩)
    []

/-- Behaviour of the three natives of `Interpreter::new`.  `clock` reads
the system time and `readLine` reads stdin; neither effect is modelled
(they return `0` resp. `""` here, and no claim depends on them).  `print`
renders its first argument's display form to stdout; `args[0]` on an
empty slice panics. -/
def runNative (st : SState) (f : NativeFn) (args : List Value) :
    Except RtErr (Value × SState) :=
  match f with
  | .clock => .ok (.num 0, st)
  | .printFn =>
    match args with
    | a :: _ => .ok (.nil, { st with output := st.output ++ [displayV st a] })
    | [] => .error .panicked
  | .readLine => .ok (.str "", st)

/-! ### The evaluator (`interpreter.rs`) -/

/-- Output of an interpreter job (`methodO` is the result of the
method-search job, `LoxClass::find_method`). -/
inductive IOut where
  | unit
  | val (v : Value)
  | vals (vs : List Value)
  | methodO (m : Option Callable)

/-- Result of an interpreter job.  Errors carry the state (Rust errors
leave `self` with all mutations performed so far); `.fuel` also carries
it so that a divergence witness can exhibit the output produced before
the fuel ran out. -/
inductive Res where
  | ok (o : IOut) (st : SState)
  | err (e : RtErr) (st : SState)
  | fuel (st : SState)

/-- Interpreter jobs: `execute`, the statement sequences of
`interpret`/`execute_block`/`call`, `evaluate`, the argument loop of
`evaluate_call`, `call`, and the superclass-chain search of
`LoxClass::find_method`. -/
inductive IJob where
  | stmtJ (s : Stmt)
  | stmtsJ (ss : List Stmt)
  | exprJ (e : Expr)
  | argsJ (es : List Expr) (acc : List Value)
  | callJ (c : Callable) (args : List Value)
  | findJ (c : Option LoxClass) (identifier : String)

/-- Parameter binding of `Interpreter::call`: spawn a child of the
closure, make it the current environment, and `define` each parameter to
its argument (`parameters.iter().zip(args)`). -/
def callSetup (st : SState) (parameters : List String) (args : List Value)
    (closure : Nat) : SState :=
  let (fresh, st1) := spawnChild st closure
  (parameters.zip args).foldl
    (fun acc pa => envDefine acc fresh pa.1 (some pa.2))
    { st1 with current := fresh }

/-- The evaluator: one fuel step per Rust method invocation / loop
iteration.  Each arm mirrors the corresponding match arm of
`Interpreter::execute`, `Interpreter::evaluate`, `Interpreter::call` and
their helpers in `src/interpreter/src/interpreter.rs`.  The `.err
.panicked` results on `.ok` outputs of unexpected shape are artifacts of
the job encoding (an expression job always yields `.val`, a statement
job `.unit`, an argument job `.vals`); those arms are dead code. -/
def interp (fuel : Nat) (job : IJob) (st : SState) : Res :=
  match fuel with
  | 0 => .fuel st
  | n + 1 =>
    match job with
    | .stmtsJ [] => .ok .unit st
    | .stmtsJ (s :: rest) =>
      match interp n (.stmtJ s) st with
      | .ok _ st' => interp n (.stmtsJ rest) st'
      | r => r
    | .argsJ [] acc => .ok (.vals acc.reverse) st
    | .argsJ (e :: rest) acc =>
      -- the argument loop of `evaluate_call` (left-to-right)
      match interp n (.exprJ e) st with
      | .ok (.val v) st' => interp n (.argsJ rest (v :: acc)) st'
      | .ok _ st' => .err .panicked st'
      | r => r
    | .stmtJ s =>
      match s with
      | .expr e =>
        match interp n (.exprJ e) st with
        | .ok _ st' => .ok .unit st'
        | r => r
      | .decl identifier initVal =>
        -- `Statement::Declaration`
        match initVal with
        | some e =>
          match interp n (.exprJ e) st with
          | .ok (.val v) st' =>
            .ok .unit (envDefine st' st'.current identifier (some v))
          | .ok _ st' => .err .panicked st'
          | r => r
        | none => .ok .unit (envDefine st st.current identifier none)
      | .block stmts =>
        -- `Interpreter::execute_block`: spawn a child, run, restore the
        -- previous environment on success and on error
        let cur := st.current
        let (fresh, st1) := spawnChild st cur
        match interp n (.stmtsJ stmts) { st1 with current := fresh } with
        | .ok _ st2 => .ok .unit { st2 with current := cur }
        | .err e st2 => .err e { st2 with current := cur }
        | .fuel st2 => .fuel st2
      | .ifS condition thenBranch elseBranch =>
        match interp n (.exprJ condition) st with
        | .ok (.val v) st1 =>
          if v.isTruthy then interp n (.stmtJ thenBranch) st1
          else
            match elseBranch with
            | some e => interp n (.stmtJ e) st1
            | none => .ok .unit st1
        | .ok _ st1 => .err .panicked st1
        | r => r
      | .forS _ _ _ =>
        -- `Interpreter::execute` has no arm for `Statement::For` (the
        -- match over `Statement` does not cover this variant); the
        -- parser never produces it
        .err .panicked st
      | .whileS condition body =>
        -- `Statement::While`: `break` is caught and ends the loop,
        -- `continue` is caught and re-tests the condition
        match interp n (.exprJ condition) st with
        | .ok (.val v) st1 =>
          if v.isTruthy then
            match interp n (.stmtJ body) st1 with
            | .ok _ st2 => interp n (.stmtJ (.whileS condition body)) st2
            | .err .brk st2 => .ok .unit st2
            | .err .cont st2 => interp n (.stmtJ (.whileS condition body)) st2
            | .err e st2 => .err e st2
            | .fuel st2 => .fuel st2
          else .ok .unit st1
        | .ok _ st1 => .err .panicked st1
        | r => r
      | .breakS => .err .brk st
      | .continueS => .err .cont st
      | .funDecl f =>
        -- `Statement::Function`
        .ok .unit
          (envDefine st st.current f.identifier
            (some (.callable
              ⟨f.parameters.length,
               .loxFun (some f.identifier) f.parameters f.body st.current
                 false⟩)))
      | .ret e =>
        -- `Statement::Return`: signalled as the `Return` error variant
        match e with
        | some e =>
          match interp n (.exprJ e) st with
          | .ok (.val v) st' => .err (.ret v) st'
          | .ok _ st' => .err .panicked st'
          | r => r
        | none => .err (.ret .nil) st
      | .classS identifier superClass methods =>
        -- `Statement::Class`: evaluate the superclass, declare the name
        -- unassigned, open the `super` environment if needed, build the
        -- method table, then assign the class value
        let superRes : Res :=
          match superClass with
          | some supE =>
            match interp n (.exprJ supE) st with
            | .ok (.val v) st1 =>
              match v with
              | .callable ⟨_, .loxClass superC⟩ =>
                .ok (.val (.callable ⟨0, .loxClass superC⟩)) st1
              | _ => .err .superClassMustBeAClass st1
            | .ok _ st1 => .err .panicked st1
            | r => r
          | none => .ok .unit st
        match superRes with
        | .ok supOut st =>
          let superC : Option LoxClass :=
            match supOut with
            | .val (.callable ⟨_, .loxClass c⟩) => some c
            | _ => none
          let st := envDefine st st.current identifier none
          let cur := st.current
          let st :=
            match superC with
            | some c =>
              let (fresh, st) := spawnChild st cur
              let st := { st with current := fresh }
              envDefine st fresh "super"
                (some (.callable ⟨0, .loxClass c⟩))
            | none => st
          let methodsMap := buildMethods methods st.current
          let cls : Value :=
            .callable
              ⟨((alFind? methodsMap "init").map Callable.arity).getD 0,
               .loxClass (.mk identifier methodsMap superC)⟩
          let st := if superClass.isSome then { st with current := cur } else st
          .ok .unit (envDefine st st.current identifier (some cls))
        | r => r
    | .exprJ e =>
      match e with
      | .ternary condition truthy falsey =>
        -- `Interpreter::evaluate_ternary_expression`
        match interp n (.exprJ condition) st with
        | .ok (.val v) st1 =>
          if v.isTruthy then interp n (.exprJ truthy) st1
          else interp n (.exprJ falsey) st1
        | .ok _ st1 => .err .panicked st1
        | r => r
      | .binary left op right =>
        -- `Interpreter::evaluate_binary_expression`
        match interp n (.exprJ left) st with
        | .ok (.val l) st1 =>
          match interp n (.exprJ right) st1 with
          | .ok (.val r) st2 =>
            match op with
            | .comma => .ok (.val r) st2
            | .bangEqual => .ok (.val (.boolean (!valueEq l r))) st2
            | .doubleEquals => .ok (.val (.boolean (valueEq l r))) st2
            | .greaterThan | .greaterEqual | .lessThan | .lessEqual =>
              match evaluateComparison l op r with
              | .ok v => .ok (.val v) st2
              | .error e => .err e st2
            | .plus =>
              match evaluatePlus st2 l r with
              | .ok v => .ok (.val v) st2
              | .error e => .err e st2
            | .minus =>
              match l, r with
              | .num a, .num b => .ok (.val (.num (a - b))) st2
              | .num _, x => .err (.typeError "number" x.typeName) st2
              | x, _ => .err (.typeError "number" x.typeName) st2
            | .star =>
              match l, r with
              | .num a, .num b => .ok (.val (.num (a * b))) st2
              | .num _, x => .err (.typeError "number" x.typeName) st2
              | x, _ => .err (.typeError "number" x.typeName) st2
            | .slash =>
              -- `f64` division in the source (no `DivideByZero`); `Int`
              -- division here, see the file header
              match l, r with
              | .num a, .num b => .ok (.val (.num (a / b))) st2
              | .num _, x => .err (.typeError "number" x.typeName) st2
              | x, _ => .err (.typeError "number" x.typeName) st2
          | .ok _ st2 => .err .panicked st2
          | r => r
        | .ok _ st1 => .err .panicked st1
        | r => r
      | .logical left op right =>
        -- `Interpreter::evaluate_logical_expression`: short-circuit,
        -- returning the deciding operand
        match interp n (.exprJ left) st with
        | .ok (.val l) st1 =>
          match op with
          | .andOp =>
            if l.isTruthy then interp n (.exprJ right) st1
            else .ok (.val l) st1
          | .orOp =>
            if l.isTruthy then .ok (.val l) st1
            else interp n (.exprJ right) st1
        | .ok _ st1 => .err .panicked st1
        | r => r
      | .unary op e =>
        match interp n (.exprJ e) st with
        | .ok (.val v) st1 =>
          match op with
          | .minus =>
            match v with
            | .num a => .ok (.val (.num (-a))) st1
            | x => .err (.typeError "number" x.typeName) st1
          | .bang => .ok (.val (.boolean (!v.isTruthy))) st1
        | .ok _ st1 => .err .panicked st1
        | r => r
      | .grouping e => interp n (.exprJ e) st
      | .lit l => .ok (.val (litToValue l)) st
      | .var reference =>
        -- `Interpreter::lookup_variable`
        match alFind? st.locals reference with
        | some distance =>
          match lookupAt st st.current distance reference with
          | .ok v => .ok (.val v) st
          | .error e => .err e st
        | none =>
          match envLookup (getEnv st 0) reference with
          | .ok v => .ok (.val v) st
          | .error e => .err e st
      | .assignment reference value =>
        match interp n (.exprJ value) st with
        | .ok (.val v) st1 =>
          match alFind? st1.locals reference with
          | some distance =>
            match assignAt st1 st1.current distance reference v with
            | .ok st2 => .ok (.val v) st2
            | .error e => .err e st1
          | none =>
            match envAssign st1 0 reference v with
            | .ok st2 => .ok (.val v) st2
            | .error e => .err e st1
        | .ok _ st1 => .err .panicked st1
        | r => r
      | .call callee args =>
        -- `Interpreter::evaluate_call`: evaluate the callee, then the
        -- arguments left-to-right, check the arity, dispatch
        match interp n (.exprJ callee) st with
        | .ok (.val calleeV) st1 =>
          match interp n (.argsJ args []) st1 with
          | .ok (.vals argVals) st2 =>
            match calleeV with
            | .callable f =>
              if args.length = f.arity then interp n (.callJ f argVals) st2
              else
                .err (.incorrectNumberOfArguments f.arity args.length) st2
            | x => .err (.typeIsNotCallable x.typeName) st2
          | .ok _ st2 => .err .panicked st2
          | r => r
        | .ok _ st1 => .err .panicked st1
        | r => r
      | .anonFun parameters body =>
        .ok
          (.val (.callable
            ⟨parameters.length,
             .loxFun none parameters body st.current false⟩))
          st
      | .get object identifier =>
        -- `LoxInstance::get`: fields first, then the class chain via the
        -- `find_method` job, binding any found method to the instance
        match interp n (.exprJ object) st with
        | .ok (.val v) st1 =>
          match v with
          | .instanceV i =>
            match alFind? (getInst st1 i).fields identifier with
            | some w => .ok (.val w) st1
            | none =>
              match interp n
                  (.findJ (some (getInst st1 i).klass) identifier) st1 with
              | .ok (.methodO (some m)) st2 =>
                match bindThis st2 m i with
                | some (bound, st3) => .ok (.val (.callable bound)) st3
                | none => .err .panicked st2
              | .ok (.methodO none) st2 =>
                .err (.undefinedProperty identifier) st2
              | .ok _ st2 => .err .panicked st2
              | r => r
          | x => .err (.typeIsNotInstance x.typeName) st1
        | .ok _ st1 => .err .panicked st1
        | r => r
      | .set object identifier value =>
        match interp n (.exprJ object) st with
        | .ok (.val o) st1 =>
          match interp n (.exprJ value) st1 with
          | .ok (.val v) st2 =>
            match o with
            | .instanceV i => .ok (.val v) (instSet st2 i identifier v)
            | x => .err (.typeIsNotInstance x.typeName) st2
          | .ok _ st2 => .err .panicked st2
          | r => r
        | .ok _ st1 => .err .panicked st1
        | r => r
      | .this line column =>
        -- resolved as an ordinary local reference `this` at the usage
        -- position
        let reference : Ref := ⟨line, column, "this"⟩
        match alFind? st.locals reference with
        | some distance =>
          match lookupAt st st.current distance reference with
          | .ok v => .ok (.val v) st
          | .error e => .err e st
        | none =>
          match envLookup (getEnv st 0) reference with
          | .ok v => .ok (.val v) st
          | .error e => .err e st
      | .super line column method =>
        -- `Expression::Super`: superclass at the recorded depth, `this`
        -- at depth − 1, method looked up on the superclass and bound
        let superRef : Ref := ⟨line, column, "super"⟩
        let thisRef : Ref := ⟨0, 0, "this"⟩
        match alFind? st.locals superRef with
        | none => .err .panicked st
        | some distance =>
          match lookupAt st st.current distance superRef with
          | .error e => .err e st
          | .ok superV =>
            match superV with
            | .callable ⟨_, .loxClass superC⟩ =>
              -- `distance - 1` on `usize`: underflow at 0 panics
              if distance = 0 then .err .panicked st
              else
                match lookupAt st st.current (distance - 1) thisRef with
                | .error e => .err e st
                | .ok objV =>
                  match objV with
                  | .instanceV obj =>
                    match interp n (.findJ (some superC) method) st with
                    | .ok (.methodO none) st2 =>
                      .err (.undefinedProperty method) st2
                    | .ok (.methodO (some m)) st2 =>
                      match bindThis st2 m obj with
                      | some (bound, st') => .ok (.val (.callable bound)) st'
                      | none => .err .panicked st2
                    | .ok _ st2 => .err .panicked st2
                    | r => r
                  | _ => .err .panicked st
            | _ => .err .panicked st
    | .callJ c args =>
      -- `Interpreter::call`
      match c with
      | ⟨_, .native f⟩ =>
        match runNative st f args with
        | .ok (v, st') => .ok (.val v) st'
        | .error e => .err e st
      | ⟨_, .loxFun _ parameters body closure isInit⟩ =>
        let cur := st.current
        let st2 := callSetup st parameters args closure
        match interp n (.stmtsJ body) st2 with
        | .ok _ st3 =>
          let st4 := { st3 with current := cur }
          if isInit then
            match lookupAt st4 closure 0 ⟨0, 0, "this"⟩ with
            | .ok v => .ok (.val v) st4
            | .error e => .err e st4
          else .ok (.val .nil) st4
        | .err e st3 =>
          let st4 := { st3 with current := cur }
          match e with
          | .ret v =>
            if isInit then
              match lookupAt st4 closure 0 ⟨0, 0, "this"⟩ with
              | .ok w => .ok (.val w) st4
              | .error e2 => .err e2 st4
            else .ok (.val v) st4
          | _ => .err e st4
        | .fuel st3 => .fuel st3
      | ⟨_, .loxClass cls⟩ =>
        -- look up `init`, build a fresh instance, bind and invoke the
        -- initializer if present
        let initM := alFind? cls.methods "init"
        let (instIx, st1) := allocInst st cls
        match initM with
        | none => .ok (.val (.instanceV instIx)) st1
        | some m =>
          match bindThis st1 m instIx with
          | none => .err .panicked st1
          | some (bound, st2) => interp n (.callJ bound args) st2
    | .findJ c identifier =>
      -- `LoxClass::find_method`: one fuel step per recursive invocation
      -- along the superclass chain (own method table first)
      match c with
      | none => .ok (.methodO none) st
      | some (.mk _ methods superClass) =>
        match alFind? methods identifier with
        | some m => .ok (.methodO (some m)) st
        | none => interp n (.findJ superClass identifier) st

/-- The globals root built by `Interpreter::new` (heap index 0). -/
def initialEnv : Env :=
  ⟨none,
   [("clock", .assigned (.callable ⟨0, .native .clock⟩)),
    ("print", .assigned (.callable ⟨1, .native .printFn⟩)),
    ("readLine", .assigned (.callable ⟨0, .native .readLine⟩))]⟩

/-- Fresh interpreter state with the resolver's `locals` table installed
(`Interpreter::new` + `resolve_locals`). -/
def initState (locals : List (Ref × Nat)) : SState :=
  ⟨[initialEnv], [], 0, locals, []⟩

/-- `Interpreter::interpret`: execute the top-level statements in order,
stopping at (and returning) the first error. -/
def interpret (fuel : Nat) (stmts : List Stmt) (st : SState) : Res :=
  interp fuel (.stmtsJ stmts) st

/-- The full pipeline on a token stream: parse, resolve, and (when the
resolver reports no error) interpret.  `none` when parsing or resolution
fails or the embedding fuel runs out. -/
def pipeline (fuel : Nat) (ks : List TokKind) : Option Res :=
  match parseProgram fuel (mkToks ks) with
  | none => none
  | some stmts =>
    match resolveProgram fuel stmts with
    | some (rst, false) => some (interpret fuel stmts (initState rst.locals))
    | _ => none

/-- The stdout stream of a result (also defined for `.fuel`, whose state
records the output produced before the fuel ran out). -/
def Res.outputOf : Res → List String
  | .ok _ st => st.output
  | .err _ st => st.output
  | .fuel st => st.output

end Lox

namespace Lox

/-! ## Claim-support definitions -/

/-- Whether a result is the fuel-exhaustion marker. -/
def Res.isFuel : Res → Bool
  | .fuel _ => true
  | _ => false

/-- The internal control-flow error variants (`Break`, `Continue`,
`Return`). -/
def RtErr.isCtrl : RtErr → Bool
  | .brk => true
  | .cont => true
  | .ret _ => true
  | _ => false

/-- `function_kind != FunctionKind::None` (rule 3 of the resolver). -/
def FunctionKind.inFun : FunctionKind → Bool
  | .noneK => false
  | _ => true

/-- No binding of the environment is the (never-stored) explicit
`State::Undeclared`: `Environment::define` and `assign` only ever insert
`Unassigned` or `Assigned`, so every reachable environment satisfies
this. -/
def EnvWf (e : Env) : Prop :=
  ∀ p ∈ e.values, p.2 ≠ VarState.undeclared

mutual

/-- Static shape of statements guaranteed by a successful resolver run:
first parameter = `is_in_loop` at the statement, second =
`function_kind != None`.  `break`/`continue` only occur where the loop
flag is set, `return` only where the function flag is set, and loop/
function sub-contexts adjust the flags exactly as
`Resolver::resolve_statement` does. -/
inductive SOk : Bool → Bool → Stmt → Prop where
  | expr : ∀ {l f e}, EOk e → SOk l f (.expr e)
  | decl : ∀ {l f id initVal}, (∀ e, initVal = some e → EOk e) →
      SOk l f (.decl id initVal)
  | block : ∀ {l f ss}, (∀ s ∈ ss, SOk l f s) → SOk l f (.block ss)
  | ifS : ∀ {l f c t eb}, EOk c → SOk l f t →
      (∀ s, eb = some s → SOk l f s) → SOk l f (.ifS c t eb)
  | forS : ∀ {l f c inc body}, EOk c → SOk true f body →
      (∀ e, inc = some e → EOk e) → SOk l f (.forS c inc body)
  | whileS : ∀ {l f c b}, EOk c → SOk true f b → SOk l f (.whileS c b)
  | breakS : ∀ {f}, SOk true f .breakS
  | continueS : ∀ {f}, SOk true f .continueS
  | funDecl : ∀ {l f fn}, (∀ s ∈ Func.body fn, SOk false true s) →
      SOk l f (.funDecl fn)
  | ret : ∀ {l e}, (∀ e', e = some e' → EOk e') → SOk l true (.ret e)
  | classS : ∀ {l f id sup ms}, (∀ e, sup = some e → EOk e) →
      (∀ m ∈ ms, ∀ s ∈ Func.body m, SOk false true s) →
      SOk l f (.classS id sup ms)

/-- Static shape of expressions guaranteed by a successful resolver run:
every anonymous-function body is resolved with the loop flag cleared and
the function flag set. -/
inductive EOk : Expr → Prop where
  | ternary : ∀ {c t f}, EOk c → EOk t → EOk f → EOk (.ternary c t f)
  | binary : ∀ {a op b}, EOk a → EOk b → EOk (.binary a op b)
  | logical : ∀ {a op b}, EOk a → EOk b → EOk (.logical a op b)
  | unary : ∀ {op e}, EOk e → EOk (.unary op e)
  | grouping : ∀ {e}, EOk e → EOk (.grouping e)
  | lit : ∀ {l}, EOk (.lit l)
  | var : ∀ {r}, EOk (.var r)
  | assignment : ∀ {r v}, EOk v → EOk (.assignment r v)
  | anonFun : ∀ {ps body}, (∀ s ∈ body, SOk false true s) →
      EOk (.anonFun ps body)
  | call : ∀ {c args}, EOk c → (∀ a ∈ args, EOk a) → EOk (.call c args)
  | get : ∀ {o id}, EOk o → EOk (.get o id)
  | set : ∀ {o id v}, EOk o → EOk v → EOk (.set o id v)
  | this : ∀ {l c}, EOk (.this l c)
  | super : ∀ {l c m}, EOk (.super l c m)

end

mutual

/-- A runtime value whose embedded function bodies all have the static
shape of resolver-accepted code. -/
inductive VOk : Value → Prop where
  | str : ∀ {s}, VOk (.str s)
  | num : ∀ {n}, VOk (.num n)
  | boolean : ∀ {b}, VOk (.boolean b)
  | nil : VOk .nil
  | callable : ∀ {c}, COk c → VOk (.callable c)
  | instanceV : ∀ {i}, VOk (.instanceV i)

inductive COk : Callable → Prop where
  | mk : ∀ {a k}, KOk k → COk (.mk a k)

inductive KOk : CallableKind → Prop where
  | native : ∀ {f}, KOk (.native f)
  | loxFun : ∀ {id ps body cl ini}, (∀ s ∈ body, SOk false true s) →
      KOk (.loxFun id ps body cl ini)
  | loxClass : ∀ {c}, ClsOk c → KOk (.loxClass c)

inductive ClsOk : LoxClass → Prop where
  | mk : ∀ {id ms sup}, (∀ p ∈ ms, COk p.2) →
      (∀ s, sup = some s → ClsOk s) → ClsOk (.mk id ms sup)

end

/-- All values stored in an environment are well-formed. -/
def EnvOk (e : Env) : Prop :=
  ∀ p ∈ e.values, ∀ v, p.2 = VarState.assigned v → VOk v

/-- All values and classes stored in an instance are well-formed. -/
def InstOk (i : Inst) : Prop :=
  ClsOk i.klass ∧ ∀ p ∈ i.fields, VOk p.2

/-- State invariant: every stored value is well-formed. -/
def StOk (st : SState) : Prop :=
  (∀ e ∈ st.envs, EnvOk e) ∧ (∀ i ∈ st.insts, InstOk i)

/-- Output well-formedness for the preservation argument. -/
def OutOk : IOut → Prop
  | .unit => True
  | .val v => VOk v
  | .vals vs => ∀ v ∈ vs, VOk v
  | .methodO r => ∀ m, r = some m → COk m

/-- Job well-formedness: the pieces of resolver-accepted code that each
job may carry. -/
def JobOk (l f : Bool) : IJob → Prop
  | .stmtJ s => SOk l f s
  | .stmtsJ ss => ∀ s ∈ ss, SOk l f s
  | .exprJ e => EOk e
  | .argsJ es acc => (∀ e ∈ es, EOk e) ∧ (∀ v ∈ acc, VOk v)
  | .callJ c args => COk c ∧ ∀ v ∈ args, VOk v
  | .findJ c _ => ∀ s, c = some s → ClsOk s

/-- Which control errors a job may raise: statements may raise
`Break`/`Continue` only under a live loop flag and `Return` only under a
live function flag (with a well-formed payload); expression, argument and
call jobs never let a control error escape. -/
def JobCtrl (l f : Bool) (j : IJob) (e : RtErr) : Prop :=
  match j with
  | .stmtJ _ | .stmtsJ _ =>
    ((e = .brk ∨ e = .cont) → l = true) ∧
    (∀ v, e = .ret v → f = true ∧ VOk v)
  | _ => e ≠ .brk ∧ e ≠ .cont ∧ ∀ v, e ≠ .ret v

/-- The conclusion of the preservation argument for one result. -/
def ResSpec (l f : Bool) (j : IJob) : Res → Prop
  | .ok o st => StOk st ∧ OutOk o
  | .err e st => StOk st ∧ JobCtrl l f j e
  | .fuel _ => True

/-! ### Concrete programs used by the claims -/

/-- The operand shapes for which the spec declares comparison defined:
`String/String`, `Number/Number`, `Boolean/Boolean`, `Nil/Nil` (a
claim-side device used to state C7, not a translation of source code). -/
def comparablePair : Value → Value → Bool
  | .str _, .str _ => true
  | .num _, .num _ => true
  | .boolean _, .boolean _ => true
  | .nil, .nil => true
  | _, _ => false

/-- Tokens of `for (var i=0; i<3; i=i+1) { if (i==1) continue; print(i); }`
(spec §8, scenario 7). -/
def toksC1 : List TokKind :=
  [.forT, .leftParen, .varT, .identifier "i", .equals, .number 0, .semicolon,
   .identifier "i", .lessThan, .number 3, .semicolon,
   .identifier "i", .equals, .identifier "i", .plus, .number 1, .rightParen,
   .leftCurly,
   .ifT, .leftParen, .identifier "i", .doubleEquals, .number 1, .rightParen,
   .continueT, .semicolon,
   .identifier "print", .leftParen, .identifier "i", .rightParen, .semicolon,
   .rightCurly]

/-- The loop condition `i < 3` of the desugared scenario-7 program. -/
def condC1 : Expr := .binary (.var ⟨0, 7, "i"⟩) .lessThan (.lit (.num 3))

/-- The user-written loop body of the scenario-7 program. -/
def userBodyC1 : Stmt :=
  .block
    [.ifS (.binary (.var ⟨0, 20, "i"⟩) .doubleEquals (.lit (.num 1)))
       .continueS none,
     .expr (.call (.var ⟨0, 26, "print"⟩) [.var ⟨0, 28, "i"⟩])]

/-- The increment `i = i + 1` of the scenario-7 program. -/
def incrC1 : Expr :=
  .assignment ⟨0, 11, "i"⟩ (.binary (.var ⟨0, 13, "i"⟩) .plus (.lit (.num 1)))

/-- The `While` statement of the desugared scenario-7 program. -/
def whileC1 : Stmt := .whileS condC1 (.block [userBodyC1, .expr incrC1])

/-- The desugared scenario-7 program:
`Block[init, While(cond, Block[body, Expr(incr)])]`. -/
def progC1 : List Stmt :=
  [.block [.decl "i" (some (.lit (.num 0))), whileC1]]

/-- The `locals` table the resolver computes for the scenario-7
program. -/
def localsC1 : List (Ref × Nat) :=
  [(⟨0, 7, "i"⟩, 0), (⟨0, 20, "i"⟩, 2), (⟨0, 28, "i"⟩, 2),
   (⟨0, 13, "i"⟩, 1), (⟨0, 11, "i"⟩, 1)]

/-- Invariant of the diverging loop of the scenario-7 program: the
current environment is the block environment holding `i = 1`, a direct
child of the globals root. -/
def InvC1 (st : SState) : Prop :=
  st.current = 1 ∧ 1 < st.envs.length ∧
  getEnv st 1 = ⟨some 0, [("i", VarState.assigned (Value.num 1))]⟩ ∧
  st.locals = localsC1

/-- Tokens of `{ var a = 1; { var a = 2; print(a); } }`: the inner `a`
shadows the outer block-local `a`, so the spec's shadowing rule prints
`2`. -/
def toksC2 : List TokKind :=
  [.leftCurly, .varT, .identifier "a", .equals, .number 1, .semicolon,
   .leftCurly, .varT, .identifier "a", .equals, .number 2, .semicolon,
   .identifier "print", .leftParen, .identifier "a", .rightParen, .semicolon,
   .rightCurly, .rightCurly]

/-- The reference of the `a` read by `print(a)` in `toksC2` (token
index 14). -/
def refC2 : Ref := ⟨0, 14, "a"⟩

/-- Tokens of
`class Foo { init() { this.x = 42; } } print(Foo().init().x);`. -/
def toksC4get : List TokKind :=
  [.classT, .identifier "Foo", .leftCurly,
   .identifier "init", .leftParen, .rightParen, .leftCurly,
   .thisT, .dot, .identifier "x", .equals, .number 42, .semicolon,
   .rightCurly, .rightCurly,
   .identifier "print", .leftParen,
   .identifier "Foo", .leftParen, .rightParen, .dot, .identifier "init",
   .leftParen, .rightParen, .dot, .identifier "x",
   .rightParen, .semicolon]

/-- Tokens of
`class Foo { init() {} } var f = Foo(); print(f == f.init());`
(instance identity after an initializer that falls off the end). -/
def toksC4fall : List TokKind :=
  [.classT, .identifier "Foo", .leftCurly,
   .identifier "init", .leftParen, .rightParen, .leftCurly, .rightCurly,
   .rightCurly,
   .varT, .identifier "f", .equals, .identifier "Foo", .leftParen,
   .rightParen, .semicolon,
   .identifier "print", .leftParen, .identifier "f", .doubleEquals,
   .identifier "f", .dot, .identifier "init", .leftParen, .rightParen,
   .rightParen, .semicolon]

/-- Tokens of
`class Bar { init() { return; } } var b = Bar(); print(b == b.init());`
(instance identity after a bare `return;`). -/
def toksC4ret : List TokKind :=
  [.classT, .identifier "Bar", .leftCurly,
   .identifier "init", .leftParen, .rightParen, .leftCurly,
   .returnT, .semicolon, .rightCurly, .rightCurly,
   .varT, .identifier "b", .equals, .identifier "Bar", .leftParen,
   .rightParen, .semicolon,
   .identifier "print", .leftParen, .identifier "b", .doubleEquals,
   .identifier "b", .dot, .identifier "init", .leftParen, .rightParen,
   .rightParen, .semicolon]

/-- Tokens of `class A {} A(1);` (calling an `init`-less class with one
argument). -/
def toksC9 : List TokKind :=
  [.classT, .identifier "A", .leftCurly, .rightCurly,
   .identifier "A", .leftParen, .number 1, .rightParen, .semicolon]

/-- Tokens of `f(1, 2,);` (call with trailing comma). -/
def toksC10argsTrail : List TokKind :=
  [.identifier "f", .leftParen, .number 1, .comma, .number 2, .comma,
   .rightParen, .semicolon]

/-- Tokens of `f(1, 2);`. -/
def toksC10args : List TokKind :=
  [.identifier "f", .leftParen, .number 1, .comma, .number 2,
   .rightParen, .semicolon]

/-- Tokens of `(fun (a, b,) {});` (parameter list with trailing comma). -/
def toksC10paramsTrail : List TokKind :=
  [.leftParen, .funT, .leftParen, .identifier "a", .comma, .identifier "b",
   .comma, .rightParen, .leftCurly, .rightCurly, .rightParen, .semicolon]

/-- Tokens of `(fun (a, b) {});`. -/
def toksC10params : List TokKind :=
  [.leftParen, .funT, .leftParen, .identifier "a", .comma, .identifier "b",
   .rightParen, .leftCurly, .rightCurly, .rightParen, .semicolon]

end Lox

namespace Lox

/-! # Theorems -/

/-! ## Unfolding equations for `interp` (proved by `rfl`; used to reason
about single evaluation steps) -/

theorem interp_zero (j : IJob) (st : SState) : interp 0 j st = .fuel st := rfl

theorem interp_succ_block (n : Nat) (ss : List Stmt) (st : SState) :
    interp (n + 1) (.stmtJ (.block ss)) st =
      match interp n (.stmtsJ ss)
          { st with envs := st.envs ++ [⟨some st.current, []⟩],
                    current := st.envs.length } with
      | .ok _ st2 => .ok .unit { st2 with current := st.current }
      | .err e st2 => .err e { st2 with current := st.current }
      | .fuel st2 => .fuel st2 := rfl

theorem interp_succ_while (n : Nat) (c : Expr) (b : Stmt) (st : SState) :
    interp (n + 1) (.stmtJ (.whileS c b)) st =
      match interp n (.exprJ c) st with
      | .ok (.val v) st1 =>
        if v.isTruthy then
          match interp n (.stmtJ b) st1 with
          | .ok _ st2 => interp n (.stmtJ (.whileS c b)) st2
          | .err .brk st2 => .ok .unit st2
          | .err .cont st2 => interp n (.stmtJ (.whileS c b)) st2
          | .err e st2 => .err e st2
          | .fuel st2 => .fuel st2
        else .ok .unit st1
      | .ok _ st1 => .err .panicked st1
      | r => r := rfl

end Lox

namespace Lox

/-- C5: executing a `Block` statement leaves the interpreter's
current-environment pointer unchanged on every exit path — whether the
inner statements all succeed or one of them returns an error, the state
after `execute_block` has the same `environment` field as before (the
block's child environment is abandoned). -/
theorem block_restores_environment (n : Nat) (ss : List Stmt) (st st' : SState) :
    (∀ o, interp n (.stmtJ (.block ss)) st = .ok o st' → st'.current = st.current) ∧
    (∀ e, interp n (.stmtJ (.block ss)) st = .err e st' → st'.current = st.current) := by
  constructor
  · intro o h
    cases n with
    | zero => simp [interp_zero] at h
    | succ n =>
      rw [interp_succ_block] at h
      cases hin : interp n (.stmtsJ ss)
          { st with envs := st.envs ++ [⟨some st.current, []⟩],
                    current := st.envs.length } <;> rw [hin] at h <;>
        cases h <;> rfl
  · intro e h
    cases n with
    | zero => simp [interp_zero] at h
    | succ n =>
      rw [interp_succ_block] at h
      cases hin : interp n (.stmtsJ ss)
          { st with envs := st.envs ++ [⟨some st.current, []⟩],
                    current := st.envs.length } <;> rw [hin] at h <;>
        cases h <;> rfl

/-- C5 witness: a concrete empty block run from the fresh interpreter
state ends with the same current environment (index 0). -/
theorem block_restores_environment_witness :
    (⟨[initialEnv, ⟨some 0, []⟩], [], 0, [], []⟩ : SState).current
      = (initState []).current :=
  (block_restores_environment 5 [] (initState [])
    ⟨[initialEnv, ⟨some 0, []⟩], [], 0, [], []⟩).1 .unit rfl

end Lox

namespace Lox

/-- C6: `+` returns `Number(a+b)` on two numbers; whenever at least one
operand is a string, it returns the concatenation of the display forms of
the two operands (the other operand being stringified whatever its type);
every other combination is a `TypeError`.  In particular `"ab" + 1` is
`ab1`, `1 + "b"` is `1b`, and `true + 1` is a `TypeError`. -/
theorem plus_overload (st : SState) :
    (∀ a b : Int, evaluatePlus st (.num a) (.num b) = .ok (.num (a + b))) ∧
    (∀ a b : Value, (∃ s, a = .str s) ∨ (∃ s, b = .str s) →
      evaluatePlus st a b = .ok (.str (displayV st a ++ displayV st b))) ∧
    (∀ a b : Value, (∀ s, a ≠ .str s) → (∀ s, b ≠ .str s) →
      (∀ x y : Int, ¬(a = .num x ∧ b = .num y)) →
      ∃ exp fnd, evaluatePlus st a b = .error (.typeError exp fnd)) ∧
    evaluatePlus st (.str "ab") (.num 1) = .ok (.str "ab1") ∧
    evaluatePlus st (.num 1) (.str "b") = .ok (.str "1b") ∧
    evaluatePlus st (.boolean true) (.num 1) =
      .error (.typeError "number\" or \"string" "boolean") := by
  refine ⟨fun a b => rfl, ?_, ?_, rfl, rfl, rfl⟩
  · rintro a b (⟨s, rfl⟩ | ⟨s, rfl⟩)
    · cases b <;> rfl
    · cases a <;> rfl
  · intro a b ha hb hnum
    cases a <;> cases b <;>
      first
        | (exact absurd rfl (ha _))
        | (exact absurd rfl (hb _))
        | (exact absurd ⟨rfl, rfl⟩ (hnum _ _))
        | exact ⟨_, _, rfl⟩

/-- C6 witness: the string arm applies with a `nil` right operand
(`"a" + nil` is `anil`), and the error arm applies to `true + 1`. -/
theorem plus_overload_witness :
    evaluatePlus (initState []) (.str "a") .nil = .ok (.str "anil") ∧
    ∃ exp fnd, evaluatePlus (initState []) (.boolean true) (.num 1)
      = .error (.typeError exp fnd) :=
  ⟨(plus_overload (initState [])).2.1 (.str "a") .nil (.inl ⟨"a", rfl⟩),
   (plus_overload (initState [])).2.2.1 (.boolean true) (.num 1)
     (fun _ h => Value.noConfusion h) (fun _ h => Value.noConfusion h)
     (fun _ _ h => Value.noConfusion h.1)⟩

/-- C7: the comparison operators succeed exactly on the operand shapes
`String/String`, `Number/Number`, `Boolean/Boolean` and `Nil/Nil` and are
a `TypeError` for every other pair; on booleans `false < true`
(`<` is `!a && b`, `<=` is `!a || b`, and dually), and on `(Nil, Nil)`
the operators `<` and `>` both return `true` while `<=` and `>=` both
return `false`. -/
theorem comparison_semantics :
    (evaluateComparison .nil .lessThan .nil = .ok (.boolean true)) ∧
    (evaluateComparison .nil .greaterThan .nil = .ok (.boolean true)) ∧
    (evaluateComparison .nil .lessEqual .nil = .ok (.boolean false)) ∧
    (evaluateComparison .nil .greaterEqual .nil = .ok (.boolean false)) ∧
    (∀ a b : Bool,
      evaluateComparison (.boolean a) .lessThan (.boolean b)
          = .ok (.boolean (!a && b)) ∧
      evaluateComparison (.boolean a) .lessEqual (.boolean b)
          = .ok (.boolean (!a || b)) ∧
      evaluateComparison (.boolean a) .greaterThan (.boolean b)
          = .ok (.boolean (a && !b)) ∧
      evaluateComparison (.boolean a) .greaterEqual (.boolean b)
          = .ok (.boolean (a || !b))) ∧
    (∀ op, op = BinOp.lessThan ∨ op = .lessEqual ∨
        op = .greaterThan ∨ op = .greaterEqual →
      (∀ a b : Value, comparablePair a b = true →
        ∃ r, evaluateComparison a op b = .ok (.boolean r)) ∧
      (∀ a b : Value, comparablePair a b = false →
        evaluateComparison a op b
          = .error (.typeError a.typeName b.typeName))) := by
  refine ⟨rfl, rfl, rfl, rfl, fun a b => ⟨rfl, rfl, rfl, rfl⟩, ?_⟩
  rintro op (rfl | rfl | rfl | rfl) <;>
    refine ⟨?_, ?_⟩ <;> intro a b h <;>
      cases a <;> cases b <;> simp [comparablePair] at h <;>
        first
          | exact ⟨_, rfl⟩
          | rfl

/-- C7 witness: the error arm applied to the mixed pair
`(Number 1, Nil)` under `<`. -/
theorem comparison_semantics_witness :
    evaluateComparison (.num 1) .lessThan .nil
      = .error (.typeError "number" "nil") :=
  (comparison_semantics.2.2.2.2.2 BinOp.lessThan (Or.inl rfl)).2
    (.num 1) .nil rfl

/-- A successful association-list lookup finds a stored pair. -/
theorem alFind?_mem {κ α : Type} [DecidableEq κ] :
    ∀ {l : List (κ × α)} {k : κ} {v : α}, alFind? l k = some v → (k, v) ∈ l := by
  intro l k v h
  induction l with
  | nil => exact absurd h (by simp [alFind?])
  | cons p rest ih =>
    obtain ⟨k', w⟩ := p
    unfold alFind? at h
    split at h
    · rename_i heq
      cases h
      subst heq
      exact List.mem_cons_self _ _
    · exact List.mem_cons_of_mem _ (ih h)

/-- C8: `Environment::lookup` inspects only the environment's own map
(the parent link is irrelevant): it returns the stored value iff the
binding is `Assigned`, fails with `UnassignedVariable` iff the name is
bound but unassigned, and fails with `UndeclaredVariable` iff the name is
absent from the map — the two failure kinds are distinct and
observable. -/
theorem lookup_root_trichotomy (e : Env) (r : Ref) (hwf : EnvWf e) :
    (∀ p, envLookup ⟨p, e.values⟩ r = envLookup e r) ∧
    (∀ v, envLookup e r = .ok v ↔
      alFind? e.values r.identifier = some (.assigned v)) ∧
    (envLookup e r = .error (.unassignedVariable r.identifier) ↔
      alFind? e.values r.identifier = some .unassigned) ∧
    (envLookup e r = .error (.undeclaredVariable r.identifier) ↔
      alFind? e.values r.identifier = none) ∧
    (.unassignedVariable r.identifier : RtErr)
      ≠ .undeclaredVariable r.identifier := by
  refine ⟨fun p => rfl, ?_, ?_, ?_, by simp⟩
  · intro v
    unfold envLookup
    cases h : alFind? e.values r.identifier with
    | none => simp
    | some s => cases s <;> simp
  · unfold envLookup
    cases h : alFind? e.values r.identifier with
    | none => simp
    | some s => cases s <;> simp
  · unfold envLookup
    cases h : alFind? e.values r.identifier with
    | none => simp
    | some s =>
      cases s with
      | undeclared => exact absurd rfl (hwf _ (alFind?_mem h))
      | unassigned => simp
      | assigned v => simp

end Lox

namespace Lox

/-- C8 witness: a root environment binding `x` without a value yields the
`UnassignedVariable` failure. -/
theorem lookup_root_trichotomy_witness :
    envLookup ⟨none, [("x", VarState.unassigned)]⟩ ⟨0, 0, "x"⟩
      = .error (.unassignedVariable "x") :=
  ((lookup_root_trichotomy ⟨none, [("x", VarState.unassigned)]⟩ ⟨0, 0, "x"⟩
      (by intro p hp; simp at hp; subst hp; simp)).2.2.1).2 rfl

end Lox

namespace Lox

/-! ## Helper lemmas on lists and heap operations -/

theorem getD_set_self {α : Type} :
    ∀ (l : List α) (i : Nat) (e d : α), i < l.length →
      (l.set i e).getD i d = e
  | _ :: _, 0, _, _, _ => rfl
  | _ :: rest, i + 1, e, d, h =>
    getD_set_self rest i e d (by simpa using h)
  | [], _, _, _, h => absurd h (by simp)

theorem getD_set_ne {α : Type} :
    ∀ (l : List α) (i j : Nat) (e d : α), i ≠ j →
      (l.set i e).getD j d = l.getD j d
  | [], _, _, _, _, _ => by simp
  | _ :: _, 0, 0, _, _, h => absurd rfl h
  | _ :: _, 0, _ + 1, _, _, _ => rfl
  | _ :: _, _ + 1, 0, _, _, _ => rfl
  | _ :: rest, i + 1, j + 1, e, d, h =>
    getD_set_ne rest i j e d (by omega)

/-- Reading back the environment just written. -/
theorem getEnv_setEnv_self (st : SState) (i : Nat) (e : Env)
    (h : i < st.envs.length) : getEnv (setEnv st i e) i = e :=
  getD_set_self st.envs i e _ h

/-- Reading another environment after a write. -/
theorem getEnv_setEnv_ne (st : SState) (i j : Nat) (e : Env) (h : i ≠ j) :
    getEnv (setEnv st i e) j = getEnv st j :=
  getD_set_ne st.envs i j e _ h

/-- `define` writes the binding into the target environment's map. -/
theorem getEnv_envDefine_self (st : SState) (i : Nat) (nm : String)
    (v : Option Value) (h : i < st.envs.length) :
    getEnv (envDefine st i nm v) i =
      { getEnv st i with
        values := alInsert (getEnv st i).values nm
          (match v with
           | some w => .assigned w
           | none => .unassigned) } :=
  getEnv_setEnv_self st i _ h

theorem alFind?_alInsert_self {κ α : Type} [DecidableEq κ]
    (l : List (κ × α)) (k : κ) (v : α) :
    alFind? (alInsert l k v) k = some v := by
  induction l with
  | nil => simp [alInsert, alFind?]
  | cons p rest ih =>
    obtain ⟨k', w⟩ := p
    unfold alInsert
    by_cases h : k' = k
    · subst h; simp [alFind?]
    · simp only [if_neg h]
      unfold alFind?
      simp [h, ih]

theorem alFind?_alInsert_ne {κ α : Type} [DecidableEq κ]
    (l : List (κ × α)) (k k' : κ) (v : α) (h : k ≠ k') :
    alFind? (alInsert l k v) k' = alFind? l k' := by
  induction l with
  | nil => simp [alInsert, alFind?, h]
  | cons p rest ih =>
    obtain ⟨k'', w⟩ := p
    unfold alInsert
    by_cases hk : k'' = k
    · subst hk
      unfold alFind?
      simp [h]
    · simp only [if_neg hk]
      unfold alFind?
      split <;> simp [ih]

end Lox

namespace Lox

/-! ## More unfolding equations (proved by `rfl`) -/

theorem interp_succ_class_nosuper (n : Nat) (id : String) (ms : List Func)
    (st : SState) :
    interp (n + 1) (.stmtJ (.classS id none ms)) st =
      .ok .unit
        (envDefine (envDefine st st.current id none) st.current id
          (some (.callable
            ⟨((alFind? (buildMethods ms st.current) "init").map
                Callable.arity).getD 0,
             .loxClass (.mk id (buildMethods ms st.current) none)⟩))) := rfl

theorem interp_succ_call_class (n ar : Nat) (cls : LoxClass)
    (args : List Value) (st : SState) :
    interp (n + 1) (.callJ ⟨ar, .loxClass cls⟩ args) st =
      match alFind? cls.methods "init" with
      | none =>
        .ok (.val (.instanceV st.insts.length))
          { st with insts := st.insts ++ [⟨cls, []⟩] }
      | some m =>
        match bindThis { st with insts := st.insts ++ [⟨cls, []⟩] } m
            st.insts.length with
        | none => .err .panicked { st with insts := st.insts ++ [⟨cls, []⟩] }
        | some (bound, st2) => interp n (.callJ bound args) st2 := rfl

theorem interp_succ_call_fun (n ar : Nat) (idOpt : Option String)
    (ps : List String) (body : List Stmt) (closure : Nat) (isInit : Bool)
    (args : List Value) (st : SState) :
    interp (n + 1) (.callJ ⟨ar, .loxFun idOpt ps body closure isInit⟩ args)
        st =
      match interp n (.stmtsJ body) (callSetup st ps args closure) with
      | .ok _ st3 =>
        if isInit then
          match lookupAt { st3 with current := st.current } closure 0
              ⟨0, 0, "this"⟩ with
          | .ok v => .ok (.val v) { st3 with current := st.current }
          | .error e => .err e { st3 with current := st.current }
        else .ok (.val .nil) { st3 with current := st.current }
      | .err e st3 =>
        match e with
        | .ret v =>
          if isInit then
            match lookupAt { st3 with current := st.current } closure 0
                ⟨0, 0, "this"⟩ with
            | .ok w => .ok (.val w) { st3 with current := st.current }
            | .error e2 => .err e2 { st3 with current := st.current }
          else .ok (.val v) { st3 with current := st.current }
        | _ => .err e { st3 with current := st.current }
      | .fuel st3 => .fuel st3 := rfl

theorem lookupAt_zero (st : SState) (i : Nat) (r : Ref) :
    lookupAt st i 0 r =
      match alFind? (getEnv st i).values r.identifier with
      | some (.assigned v) => .ok v
      | some .unassigned => .error (.unassignedVariable r.identifier)
      | some .undeclared => .error .panicked
      | none => .error .panicked := rfl

theorem getEnv_current_update (st : SState) (c i : Nat) :
    getEnv { st with current := c } i = getEnv st i := rfl

end Lox

namespace Lox

/-- C9: a class value's arity is the arity of the `init` entry of its
method table when there is one and `0` otherwise; calling an `init`-less
class builds a fresh instance with an empty field map, and calling it
with a wrong number of arguments fails with
`IncorrectNumberOfArguments{expected, found}` before any instance is
built — concretely, `class A {} A(1);` fails with `expected 0, found
1`. -/
theorem class_arity_and_call :
    (∀ (n : Nat) (id : String) (ms : List Func) (st : SState),
      st.current < st.envs.length →
      ∃ stf, interp (n + 1) (.stmtJ (.classS id none ms)) st = .ok .unit stf ∧
        alFind? (getEnv stf st.current).values id =
          some (.assigned (.callable
            ⟨(match alFind? (buildMethods ms st.current) "init" with
              | some m => m.arity
              | none => 0),
             .loxClass (.mk id (buildMethods ms st.current) none)⟩))) ∧
    (∀ (n ar : Nat) (cls : LoxClass) (args : List Value) (st : SState),
      alFind? cls.methods "init" = none →
      interp (n + 1) (.callJ ⟨ar, .loxClass cls⟩ args) st =
        .ok (.val (.instanceV st.insts.length))
          { st with insts := st.insts ++ [⟨cls, []⟩] }) ∧
    (∃ stf, pipeline 1000 toksC9 =
      some (.err (.incorrectNumberOfArguments 0 1) stf)) := by
  refine ⟨?_, ?_, ⟨_, rfl⟩⟩
  · intro n id ms st h
    refine ⟨_, interp_succ_class_nosuper n id ms st, ?_⟩
    have hlen : st.current < (envDefine st st.current id none).envs.length := by
      simpa [envDefine, setEnv] using h
    have hcur : (envDefine st st.current id none).current = st.current := rfl
    rw [show (envDefine (envDefine st st.current id none) st.current id
          (some (.callable
            ⟨((alFind? (buildMethods ms st.current) "init").map
                Callable.arity).getD 0,
             .loxClass (.mk id (buildMethods ms st.current) none)⟩)))
        = setEnv (envDefine st st.current id none) st.current
            { getEnv (envDefine st st.current id none) st.current with
              values := alInsert
                (getEnv (envDefine st st.current id none) st.current).values
                id (.assigned (.callable
                  ⟨((alFind? (buildMethods ms st.current) "init").map
                      Callable.arity).getD 0,
                   .loxClass (.mk id (buildMethods ms st.current) none)⟩)) }
        from rfl]
    rw [getEnv_setEnv_self _ _ _ hlen]
    rw [alFind?_alInsert_self]
    cases hfind : alFind? (buildMethods ms st.current) "init" <;>
      simp [hfind]
  · intro n ar cls args st h
    rw [interp_succ_call_class, h]

/-- C9 witness: calling the `init`-less class `A` with zero arguments
from the fresh interpreter state yields instance 0 with no fields. -/
theorem class_arity_and_call_witness :
    interp 1 (.callJ ⟨0, .loxClass (.mk "A" [] none)⟩ []) (initState []) =
      .ok (.val (.instanceV 0))
        { initState [] with insts := [⟨.mk "A" [] none, []⟩] } :=
  class_arity_and_call.2.1 0 0 (.mk "A" [] none) [] (initState []) rfl

end Lox

namespace Lox

/-- C4: calling a user function whose `is_initializer` flag is set
returns the value bound to `this` at slot 0 of its closure, both when the
body raises `Return` (a bare `return;` carries `Nil`) and when execution
falls off the end of the body; property access preserves
`is_initializer` when binding methods; and concretely
`print(Foo().init().x)` prints the field of the one instance, while
`f == f.init()` is `true` for both a fall-off-the-end and a bare-return
initializer (instance identity). -/
theorem init_returns_this :
    (∀ (n ar : Nat) (idOpt : Option String) (ps : List String)
       (body : List Stmt) (closure : Nat) (args : List Value)
       (st st3 : SState) (o : IOut) (w : Value),
      interp n (.stmtsJ body) (callSetup st ps args closure) = .ok o st3 →
      alFind? (getEnv st3 closure).values "this" = some (.assigned w) →
      interp (n + 1) (.callJ ⟨ar, .loxFun idOpt ps body closure true⟩ args) st
        = .ok (.val w) { st3 with current := st.current }) ∧
    (∀ (n ar : Nat) (idOpt : Option String) (ps : List String)
       (body : List Stmt) (closure : Nat) (args : List Value)
       (st st3 : SState) (v w : Value),
      interp n (.stmtsJ body) (callSetup st ps args closure)
        = .err (.ret v) st3 →
      alFind? (getEnv st3 closure).values "this" = some (.assigned w) →
      interp (n + 1) (.callJ ⟨ar, .loxFun idOpt ps body closure true⟩ args) st
        = .ok (.val w) { st3 with current := st.current }) ∧
    (∀ (n : Nat) (obj : Expr) (name : String) (st st1 : SState)
       (i ar cl : Nat) (idOpt : Option String) (ps : List String)
       (body : List Stmt) (ini : Bool),
      interp n (.exprJ obj) st = .ok (.val (.instanceV i)) st1 →
      alFind? (getInst st1 i).fields name = none →
      interp n (.findJ (some (getInst st1 i).klass) name) st1
        = .ok (.methodO (some ⟨ar, .loxFun idOpt ps body cl ini⟩)) st1 →
      interp (n + 1) (.exprJ (.get obj name)) st
        = .ok
            (.val (.callable ⟨ar, .loxFun idOpt ps body st1.envs.length ini⟩))
            (envDefine { st1 with envs := st1.envs ++ [⟨some cl, []⟩] }
              st1.envs.length "this" (some (.instanceV i)))) ∧
    (pipeline 1000 toksC4get).map Res.outputOf = some ["42"] ∧
    (pipeline 1000 toksC4fall).map Res.outputOf = some ["true"] ∧
    (pipeline 1000 toksC4ret).map Res.outputOf = some ["true"] := by
  refine ⟨?_, ?_, ?_, rfl, rfl, rfl⟩
  · intro n ar idOpt ps body closure args st st3 o w h1 h2
    rw [interp_succ_call_fun, h1]
    simp only [if_true]
    rw [lookupAt_zero, getEnv_current_update, h2]
  · intro n ar idOpt ps body closure args st st3 v w h1 h2
    rw [interp_succ_call_fun, h1]
    simp only [if_true]
    rw [lookupAt_zero, getEnv_current_update, h2]
  · intro n obj name st st1 i ar cl idOpt ps body ini h1 h2 h3
    simp only [interp, h1, h2, h3, bindThis, spawnChild]

/-- C4 witness: an initializer with empty body called on a closure whose
slot 0 binds `this` to instance 0 returns that instance. -/
theorem init_returns_this_witness :
    interp 2
      (.callJ ⟨0, .loxFun none [] [] 0 true⟩ [])
      (⟨[⟨none, [("this", .assigned (.instanceV 0))]⟩],
        [⟨.mk "K" [] none, []⟩], 0, [], []⟩ : SState) =
      .ok (.val (.instanceV 0))
        (⟨[⟨none, [("this", .assigned (.instanceV 0))]⟩,
           ⟨some 0, []⟩],
          [⟨.mk "K" [] none, []⟩], 0, [], []⟩ : SState) :=
  init_returns_this.1 1 0 none [] [] 0 []
    (⟨[⟨none, [("this", .assigned (.instanceV 0))]⟩],
      [⟨.mk "K" [] none, []⟩], 0, [], []⟩ : SState)
    (⟨[⟨none, [("this", .assigned (.instanceV 0))]⟩,
       ⟨some 0, []⟩],
      [⟨.mk "K" [] none, []⟩], 1, [], []⟩ : SState)
    .unit (.instanceV 0) rfl rfl

end Lox

namespace Lox

theorem parseF_succ_arguments (n : Nat) (ts : List Token) (acc : List Expr)
    (pos : Nat) :
    parseF (n + 1) ts (.argumentsJ acc) pos =
      if (peekT ts pos).kind = .rightParen then .ok (.args acc.reverse) pos
      else
        match parseF n ts .assignmentJ pos with
        | .ok (.expr e) p =>
          if (peekT ts p).kind = .comma then
            parseF n ts (.argumentsJ (e :: acc)) (p + 1)
          else .ok (.args (e :: acc).reverse) p
        | .ok _ _ => .err .embeddingUnreachable
        | .err e => .err e
        | .fuel => .fuel := rfl

theorem parseF_succ_parameters (n : Nat) (ts : List Token)
    (acc : List String) (pos : Nat) :
    parseF (n + 1) ts (.parametersJ acc) pos =
      if (peekT ts pos).kind = .rightParen then .ok (.params acc.reverse) pos
      else
        match (peekT ts pos).kind with
        | .identifier name =>
          if (peekT ts (pos + 1)).kind = .comma then
            parseF n ts (.parametersJ (name :: acc)) (pos + 2)
          else .ok (.params (name :: acc).reverse) (pos + 1)
        | _ => .err .expectedIdentifier := rfl

/-- C10: both `Parser::parameters` and `Parser::arguments` accept an
optional trailing comma before the closing `)` — each loop iteration
first tests for `)` and exits without consuming anything — and the
resulting sequence is identical to the one parsed without the trailing
comma (only the final cursor moves past the extra comma).  Concretely,
`f(1, 2,);` parses to the same statement as `f(1, 2);`, and
`(fun (a, b,) {});` to the same statement as `(fun (a, b) {});`. -/
theorem trailing_comma_accepted :
    -- a `)` at loop entry (in particular: right after a consumed comma)
    -- ends `arguments` with the accumulated list
    (∀ (n : Nat) (ts : List Token) (acc : List Expr) (pos : Nat),
      (peekT ts pos).kind = .rightParen →
      parseF (n + 1) ts (.argumentsJ acc) pos = .ok (.args acc.reverse) pos) ∧
    -- last argument followed by `,` `)`
    (∀ (n : Nat) (ts : List Token) (acc : List Expr) (pos p : Nat) (e : Expr),
      (peekT ts pos).kind ≠ .rightParen →
      parseF (n + 1) ts .assignmentJ pos = .ok (.expr e) p →
      (peekT ts p).kind = .comma →
      (peekT ts (p + 1)).kind = .rightParen →
      parseF (n + 2) ts (.argumentsJ acc) pos
        = .ok (.args (e :: acc).reverse) (p + 1)) ∧
    -- last argument followed by `)` directly
    (∀ (n : Nat) (ts : List Token) (acc : List Expr) (pos p : Nat) (e : Expr),
      (peekT ts pos).kind ≠ .rightParen →
      parseF (n + 1) ts .assignmentJ pos = .ok (.expr e) p →
      (peekT ts p).kind = .rightParen →
      parseF (n + 2) ts (.argumentsJ acc) pos
        = .ok (.args (e :: acc).reverse) p) ∧
    -- the same three shapes for `parameters`
    (∀ (n : Nat) (ts : List Token) (acc : List String) (pos : Nat),
      (peekT ts pos).kind = .rightParen →
      parseF (n + 1) ts (.parametersJ acc) pos
        = .ok (.params acc.reverse) pos) ∧
    (∀ (n : Nat) (ts : List Token) (acc : List String) (pos : Nat)
       (name : String),
      (peekT ts pos).kind = .identifier name →
      (peekT ts (pos + 1)).kind = .comma →
      (peekT ts (pos + 2)).kind = .rightParen →
      parseF (n + 2) ts (.parametersJ acc) pos
        = .ok (.params (name :: acc).reverse) (pos + 2)) ∧
    (∀ (n : Nat) (ts : List Token) (acc : List String) (pos : Nat)
       (name : String),
      (peekT ts pos).kind = .identifier name →
      (peekT ts (pos + 1)).kind = .rightParen →
      parseF (n + 1) ts (.parametersJ acc) pos
        = .ok (.params (name :: acc).reverse) (pos + 1)) ∧
    -- concrete parses: with and without the trailing comma, same AST
    (parseProgram 1000 (mkToks toksC10argsTrail)
        = some [.expr (.call (.var ⟨0, 0, "f"⟩)
            [.lit (.num 1), .lit (.num 2)])] ∧
     parseProgram 1000 (mkToks toksC10args)
        = some [.expr (.call (.var ⟨0, 0, "f"⟩)
            [.lit (.num 1), .lit (.num 2)])]) ∧
    (parseProgram 1000 (mkToks toksC10paramsTrail)
        = some [.expr (.grouping (.anonFun ["a", "b"] []))] ∧
     parseProgram 1000 (mkToks toksC10params)
        = some [.expr (.grouping (.anonFun ["a", "b"] []))]) := by
  refine ⟨?_, ?_, ?_, ?_, ?_, ?_, ⟨rfl, rfl⟩, ⟨rfl, rfl⟩⟩
  · intro n ts acc pos h
    rw [parseF_succ_arguments, if_pos h]
  · intro n ts acc pos p e hpos h hc hr
    rw [parseF_succ_arguments, if_neg hpos, h]
    show (if (peekT ts p).kind = TokKind.comma then
        parseF (n + 1) ts (.argumentsJ (e :: acc)) (p + 1)
      else .ok (.args (e :: acc).reverse) p) = _
    rw [if_pos hc, parseF_succ_arguments, if_pos hr]
  · intro n ts acc pos p e hpos h hr
    rw [parseF_succ_arguments, if_neg hpos, h]
    show (if (peekT ts p).kind = TokKind.comma then
        parseF (n + 1) ts (.argumentsJ (e :: acc)) (p + 1)
      else .ok (.args (e :: acc).reverse) p) = _
    rw [if_neg (by simp [hr])]
  · intro n ts acc pos h
    rw [parseF_succ_parameters, if_pos h]
  · intro n ts acc pos name hid hc hr
    rw [parseF_succ_parameters, if_neg (by simp [hid]), hid]
    show (if (peekT ts (pos + 1)).kind = TokKind.comma then
        parseF (n + 1) ts (.parametersJ (name :: acc)) (pos + 2)
      else .ok (.params (name :: acc).reverse) (pos + 1)) = _
    rw [if_pos hc, parseF_succ_parameters, if_pos hr]
  · intro n ts acc pos name hid hr
    rw [parseF_succ_parameters, if_neg (by simp [hid]), hid]
    show (if (peekT ts (pos + 1)).kind = TokKind.comma then
        parseF n ts (.parametersJ (name :: acc)) (pos + 2)
      else .ok (.params (name :: acc).reverse) (pos + 1)) = _
    rw [if_neg (by simp [hr])]

/-- C10 witness: the trailing-comma exit of `arguments` and `parameters`
on a literal `)` token. -/
theorem trailing_comma_accepted_witness :
    parseF 3 [⟨0, 0, .rightParen⟩] (.argumentsJ [.lit (.num 7)]) 0
        = .ok (.args [.lit (.num 7)]) 0 ∧
    parseF 3 [⟨0, 0, .rightParen⟩] (.parametersJ ["a"]) 0
        = .ok (.params ["a"]) 0 :=
  ⟨trailing_comma_accepted.1 2 [⟨0, 0, .rightParen⟩] [.lit (.num 7)] 0 rfl,
   trailing_comma_accepted.2.2.2.1 2 [⟨0, 0, .rightParen⟩] ["a"] 0 rfl⟩

end Lox

namespace Lox

theorem rlStep_scopes (r : Ref) (acc : RState) (d : Nat) :
    (rlStep r acc d).scopes = acc.scopes := by
  unfold rlStep; split <;> rfl

theorem rlStep_eq_pos (r : Ref) (acc : RState) (d : Nat)
    (h : (alFind? (acc.scopes.getD d []) r.identifier).isSome = true) :
    rlStep r acc d = { acc with locals := alInsert acc.locals r d } := by
  unfold rlStep; rw [if_pos h]

theorem rlStep_eq_neg (r : Ref) (acc : RState) (d : Nat)
    (h : (alFind? (acc.scopes.getD d []) r.identifier).isSome = false) :
    rlStep r acc d = acc := by
  unfold rlStep; rw [h]; simp

/-- The `resolve_local` loop never changes the scope stack. -/
theorem rlFold_scopes (st : RState) (r : Ref) (m : Nat) :
    ((List.range m).foldl (rlStep r) st).scopes = st.scopes := by
  induction m with
  | zero => rfl
  | succ m ih =>
    rw [List.range_succ, List.foldl_append, List.foldl_cons, List.foldl_nil,
      rlStep_scopes, ih]

/-- After the `resolve_local` loop over depths `0, …, m-1`, the recorded
depth for `r` is the *largest* matching depth below `m` (the outermost
matching scope): later insertions overwrite earlier ones. -/
theorem rlFold_find (st : RState) (r : Ref) (m : Nat) (d : Nat)
    (hd : d < m)
    (hmatch : (alFind? (st.scopes.getD d []) r.identifier).isSome = true)
    (hnone : ∀ d', d < d' → d' < m →
      (alFind? (st.scopes.getD d' []) r.identifier).isSome = false) :
    alFind? ((List.range m).foldl (rlStep r) st).locals r = some d := by
  induction m with
  | zero => omega
  | succ m ih =>
    rw [List.range_succ, List.foldl_append, List.foldl_cons, List.foldl_nil]
    by_cases hdm : d = m
    · subst hdm
      rw [rlStep_eq_pos _ _ _ (by rw [rlFold_scopes]; exact hmatch)]
      exact alFind?_alInsert_self _ _ _
    · have hm : (alFind? (st.scopes.getD m []) r.identifier).isSome = false :=
        hnone m (by omega) (by omega)
      rw [rlStep_eq_neg _ _ _ (by rw [rlFold_scopes]; exact hm)]
      exact ih (by omega) (fun d' h1 h2 => hnone d' h1 (by omega))

/-- C2 (refuting the claim; the code resolves to the *outermost*
declaration): `resolve_local` records, for a reference found in several
scopes, the depth of the outermost matching scope — its loop walks the
whole stack without breaking, so the last (deepest) insertion wins.  On
the concrete scope stack of `print(a)` in
`{ var a = 1; { var a = 2; print(a); } }`, where the innermost scope
(depth 0) also declares `a`, the recorded depth is 1, the full
parse+resolve run records `locals[a@print] = 1`, and the interpreted
program prints `1` — the shadowing (innermost) declaration holds `2`. -/
theorem resolver_depth_outermost :
    (∀ (st : RState) (r : Ref) (d : Nat), d < st.scopes.length →
      (alFind? (st.scopes.getD d []) r.identifier).isSome = true →
      (∀ d', d < d' → d' < st.scopes.length →
        (alFind? (st.scopes.getD d' []) r.identifier).isSome = false) →
      alFind? (resolveLocal st r).locals r = some d) ∧
    ((alFind?
        (([[("a", true)], [("a", true)]] :
          List (List (String × Bool))).getD 0 []) "a").isSome = true ∧
      alFind?
        (resolveLocal
          ⟨[[("a", true)], [("a", true)]], [], false, .noneK, .noneK⟩
          refC2).locals refC2 = some 1) ∧
    (∃ rst,
      Option.bind (parseProgram 1000 (mkToks toksC2)) (resolveProgram 1000)
        = some (rst, false) ∧
      alFind? rst.locals refC2 = some 1) ∧
    (pipeline 1000 toksC2).map Res.outputOf = some ["1"] := by
  refine ⟨?_, ⟨rfl, rfl⟩, ⟨_, rfl, rfl⟩, rfl⟩
  intro st r d hd hmatch hnone
  exact rlFold_find st r st.scopes.length d hd hmatch hnone

/-- C2 witness: the general outermost-depth fact applied to the concrete
two-scope stack (both scopes declare `a`; recorded depth is 1, not the
innermost 0). -/
theorem resolver_depth_outermost_witness :
    alFind?
      (resolveLocal
        ⟨[[("a", true)], [("a", true)]], [], false, .noneK, .noneK⟩
        refC2).locals refC2 = some 1 :=
  resolver_depth_outermost.1
    ⟨[[("a", true)], [("a", true)]], [], false, .noneK, .noneK⟩
    refC2 1 (by decide) (by decide)
    (fun d' h1 h2 => absurd h2 (by simp; omega))

end Lox

namespace Lox

/-! ## Unfolding equations used by the scenario-7 divergence proof -/

theorem interp_succ_stmts_nil (n : Nat) (st : SState) :
    interp (n + 1) (.stmtsJ []) st = .ok .unit st := rfl

theorem interp_succ_stmts_cons (n : Nat) (s : Stmt) (rest : List Stmt)
    (st : SState) :
    interp (n + 1) (.stmtsJ (s :: rest)) st =
      match interp n (.stmtJ s) st with
      | .ok _ st' => interp n (.stmtsJ rest) st'
      | r => r := rfl

theorem interp_succ_if (n : Nat) (c : Expr) (t : Stmt) (e : Option Stmt)
    (st : SState) :
    interp (n + 1) (.stmtJ (.ifS c t e)) st =
      match interp n (.exprJ c) st with
      | .ok (.val v) st1 =>
        if v.isTruthy then interp n (.stmtJ t) st1
        else
          match e with
          | some s => interp n (.stmtJ s) st1
          | none => .ok .unit st1
      | .ok _ st1 => .err .panicked st1
      | r => r := rfl

theorem interp_succ_continue (n : Nat) (st : SState) :
    interp (n + 1) (.stmtJ .continueS) st = .err .cont st := rfl

theorem interp_succ_lit (n : Nat) (l : Lit) (st : SState) :
    interp (n + 1) (.exprJ (.lit l)) st = .ok (.val (litToValue l)) st := rfl

theorem interp_succ_var (n : Nat) (reference : Ref) (st : SState) :
    interp (n + 1) (.exprJ (.var reference)) st =
      match alFind? st.locals reference with
      | some distance =>
        match lookupAt st st.current distance reference with
        | .ok v => .ok (.val v) st
        | .error e => .err e st
      | none =>
        match envLookup (getEnv st 0) reference with
        | .ok v => .ok (.val v) st
        | .error e => .err e st := rfl

theorem interp_succ_binary (n : Nat) (l : Expr) (op : BinOp) (r : Expr)
    (st : SState) :
    interp (n + 1) (.exprJ (.binary l op r)) st =
      match interp n (.exprJ l) st with
      | .ok (.val lv) st1 =>
        match interp n (.exprJ r) st1 with
        | .ok (.val rv) st2 =>
          match op with
          | .comma => .ok (.val rv) st2
          | .bangEqual => .ok (.val (.boolean (!valueEq lv rv))) st2
          | .doubleEquals => .ok (.val (.boolean (valueEq lv rv))) st2
          | .greaterThan | .greaterEqual | .lessThan | .lessEqual =>
            match evaluateComparison lv op rv with
            | .ok v => .ok (.val v) st2
            | .error e => .err e st2
          | .plus =>
            match evaluatePlus st2 lv rv with
            | .ok v => .ok (.val v) st2
            | .error e => .err e st2
          | .minus =>
            match lv, rv with
            | .num a, .num b => .ok (.val (.num (a - b))) st2
            | .num _, x => .err (.typeError "number" x.typeName) st2
            | x, _ => .err (.typeError "number" x.typeName) st2
          | .star =>
            match lv, rv with
            | .num a, .num b => .ok (.val (.num (a * b))) st2
            | .num _, x => .err (.typeError "number" x.typeName) st2
            | x, _ => .err (.typeError "number" x.typeName) st2
          | .slash =>
            match lv, rv with
            | .num a, .num b => .ok (.val (.num (a / b))) st2
            | .num _, x => .err (.typeError "number" x.typeName) st2
            | x, _ => .err (.typeError "number" x.typeName) st2
        | .ok _ st2 => .err .panicked st2
        | r => r
      | .ok _ st1 => .err .panicked st1
      | r => r := rfl

theorem ancestorIx_zero (st : SState) (i : Nat) :
    ancestorIx st i 0 = some i := rfl

theorem ancestorIx_succ (st : SState) (i d : Nat) :
    ancestorIx st i (d + 1) =
      match (getEnv st i).parent with
      | some p => ancestorIx st p d
      | none => none := rfl

theorem lookupAt_unfold (st : SState) (i d : Nat) (r : Ref) :
    lookupAt st i d r =
      match
        (match ancestorIx st i d with
         | some j => alFind? (getEnv st j).values r.identifier
         | none => none) with
      | some (.assigned v) => .ok v
      | some .unassigned => .error (.unassignedVariable r.identifier)
      | some .undeclared => .error .panicked
      | none => .error .panicked := rfl

theorem getD_concat_length {α : Type} (l : List α) (a d : α) :
    (l ++ [a]).getD l.length d = a := by
  rw [List.getD_append_right _ _ _ _ (Nat.le_refl _)]
  simp

end Lox

namespace Lox

theorem lookupAt_eq (st : SState) (i d : Nat) (r : Ref) (j : Nat)
    (hj : ancestorIx st i d = some j) :
    lookupAt st i d r =
      match alFind? (getEnv st j).values r.identifier with
      | some (.assigned v) => .ok v
      | some .unassigned => .error (.unassignedVariable r.identifier)
      | some .undeclared => .error .panicked
      | none => .error .panicked := by
  rw [lookupAt_unfold, hj]

/-- Reading `i` (recorded depth 2) inside the loop body: two parent hops
from the current environment land in the loop-header environment. -/
theorem varDepth2_eval (m : Nat) (s : SState) (p1 : Nat)
    (hloc : s.locals = localsC1)
    (hc : getEnv s s.current = ⟨some p1, []⟩)
    (hp1 : getEnv s p1 = ⟨some 1, []⟩)
    (h1 : getEnv s 1 = ⟨some 0, [("i", VarState.assigned (Value.num 1))]⟩) :
    interp (m + 1) (.exprJ (.var ⟨0, 20, "i"⟩)) s = .ok (.val (.num 1)) s := by
  have ha : ancestorIx s s.current 2 = some 1 := by
    rw [ancestorIx_succ, hc]
    show ancestorIx s p1 1 = some 1
    rw [ancestorIx_succ, hp1]
    rfl
  have hl : lookupAt s s.current 2 (⟨0, 20, "i"⟩ : Ref) = .ok (.num 1) := by
    rw [lookupAt_eq s s.current 2 _ 1 ha, h1]
    rfl
  have hstep : interp (m + 1) (.exprJ (.var ⟨0, 20, "i"⟩)) s
      = match lookupAt s s.current 2 (⟨0, 20, "i"⟩ : Ref) with
        | .ok v => .ok (.val v) s
        | .error e => .err e s := by
    rw [interp_succ_var, hloc]
    rfl
  rw [hstep, hl]

/-- `i == 1` evaluates to `true` in the diverging state. -/
theorem condI2_eval (m : Nat) (s : SState) (p1 : Nat)
    (hloc : s.locals = localsC1)
    (hc : getEnv s s.current = ⟨some p1, []⟩)
    (hp1 : getEnv s p1 = ⟨some 1, []⟩)
    (h1 : getEnv s 1 = ⟨some 0, [("i", VarState.assigned (Value.num 1))]⟩) :
    interp (m + 2)
        (.exprJ (.binary (.var ⟨0, 20, "i"⟩) .doubleEquals (.lit (.num 1)))) s
      = .ok (.val (.boolean true)) s := by
  rw [interp_succ_binary, varDepth2_eval m s p1 hloc hc hp1 h1]
  rfl

/-- `if (i == 1) continue;` raises `Continue` in the diverging state. -/
theorem ifContC1_eval (m : Nat) (s : SState) (p1 : Nat)
    (hloc : s.locals = localsC1)
    (hc : getEnv s s.current = ⟨some p1, []⟩)
    (hp1 : getEnv s p1 = ⟨some 1, []⟩)
    (h1 : getEnv s 1 = ⟨some 0, [("i", VarState.assigned (Value.num 1))]⟩) :
    interp (m + 3)
        (.stmtJ (.ifS
          (.binary (.var ⟨0, 20, "i"⟩) .doubleEquals (.lit (.num 1)))
          .continueS none)) s
      = .err .cont s := by
  rw [interp_succ_if, condI2_eval m s p1 hloc hc hp1 h1]
  rfl

end Lox

namespace Lox

/-- The user-written loop body at `i = 1`: spawns a block environment,
hits the `continue`, and propagates it while restoring the previous
environment. -/
theorem userBodyC1_eval (m : Nat) (s : SState)
    (hloc : s.locals = localsC1)
    (hcur : s.current < s.envs.length)
    (hc : getEnv s s.current = ⟨some 1, []⟩)
    (hlen : 1 < s.envs.length)
    (h1 : getEnv s 1 = ⟨some 0, [("i", VarState.assigned (Value.num 1))]⟩) :
    interp (m + 5) (.stmtJ userBodyC1) s =
      .err .cont
        { s with
          envs := s.envs ++ [⟨some s.current, []⟩]
          current := s.current } := by
  have hc' : getEnv
      { s with
        envs := s.envs ++ [⟨some s.current, []⟩]
        current := s.envs.length }
      s.envs.length = ⟨some s.current, []⟩ :=
    getD_concat_length _ _ _
  have hp1' : getEnv
      { s with
        envs := s.envs ++ [⟨some s.current, []⟩]
        current := s.envs.length }
      s.current = ⟨some 1, []⟩ := by
    show (s.envs ++ [(⟨some s.current, []⟩ : Env)]).getD s.current
      (⟨none, []⟩ : Env) = _
    rw [List.getD_append _ _ _ _ hcur]
    exact hc
  have h1' : getEnv
      { s with
        envs := s.envs ++ [⟨some s.current, []⟩]
        current := s.envs.length }
      1 = ⟨some 0, [("i", VarState.assigned (Value.num 1))]⟩ := by
    show (s.envs ++ [(⟨some s.current, []⟩ : Env)]).getD 1
      (⟨none, []⟩ : Env) = _
    rw [List.getD_append _ _ _ _ hlen]
    exact h1
  have hstmts :
      interp (m + 4)
        (.stmtsJ
          [.ifS (.binary (.var ⟨0, 20, "i"⟩) .doubleEquals (.lit (.num 1)))
            .continueS none,
           .expr (.call (.var ⟨0, 26, "print"⟩) [.var ⟨0, 28, "i"⟩])])
        { s with
          envs := s.envs ++ [⟨some s.current, []⟩]
          current := s.envs.length }
      = .err .cont
          { s with
            envs := s.envs ++ [⟨some s.current, []⟩]
            current := s.envs.length } := by
    rw [interp_succ_stmts_cons,
      ifContC1_eval m
        { s with
          envs := s.envs ++ [⟨some s.current, []⟩]
          current := s.envs.length }
        s.current hloc hc' hp1' h1']
  show interp (m + 4 + 1) (.stmtJ (.block _)) s = _
  rw [interp_succ_block, hstmts]

end Lox

namespace Lox

/-- One pass over the desugared loop body
`Block[userBody, Expr(i = i + 1)]` at `i = 1`: the `Continue` raised in
the user body propagates out of the enclosing block *before* the
increment statement runs, leaving `i` untouched (only two abandoned
block environments are appended to the heap). -/
theorem bodyC1_run (m : Nat) (st : SState) (h : InvC1 st) :
    interp (m + 7) (.stmtJ (.block [userBodyC1, .expr incrC1])) st =
      .err .cont
        { st with
          envs := (st.envs ++ [⟨some st.current, []⟩])
            ++ [⟨some st.envs.length, []⟩]
          current := st.current } := by
  obtain ⟨h1, h2, h3, h4⟩ := h
  have hcur' :
      ({ st with
          envs := st.envs ++ [⟨some st.current, []⟩]
          current := st.envs.length } : SState).current
        < ({ st with
            envs := st.envs ++ [⟨some st.current, []⟩]
            current := st.envs.length } : SState).envs.length := by
    simp
  have hc' : getEnv
      { st with
        envs := st.envs ++ [⟨some st.current, []⟩]
        current := st.envs.length }
      ({ st with
        envs := st.envs ++ [⟨some st.current, []⟩]
        current := st.envs.length } : SState).current = ⟨some 1, []⟩ := by
    show (st.envs ++ [(⟨some st.current, []⟩ : Env)]).getD st.envs.length
      (⟨none, []⟩ : Env) = _
    rw [getD_concat_length, h1]
  have hlen' : (1 : Nat)
      < ({ st with
          envs := st.envs ++ [⟨some st.current, []⟩]
          current := st.envs.length } : SState).envs.length := by
    simp
    omega
  have h1' : getEnv
      { st with
        envs := st.envs ++ [⟨some st.current, []⟩]
        current := st.envs.length }
      1 = ⟨some 0, [("i", VarState.assigned (Value.num 1))]⟩ := by
    show (st.envs ++ [(⟨some st.current, []⟩ : Env)]).getD 1
      (⟨none, []⟩ : Env) = _
    rw [List.getD_append _ _ _ _ h2]
    exact h3
  have hbody :
      interp (m + 6)
        (.stmtsJ [userBodyC1, .expr incrC1])
        { st with
          envs := st.envs ++ [⟨some st.current, []⟩]
          current := st.envs.length }
      = .err .cont
          { st with
            envs := (st.envs ++ [⟨some st.current, []⟩])
              ++ [⟨some st.envs.length, []⟩]
            current := st.envs.length } := by
    rw [interp_succ_stmts_cons,
      userBodyC1_eval m
        { st with
          envs := st.envs ++ [⟨some st.current, []⟩]
          current := st.envs.length }
        h4 hcur' hc' hlen' h1']
  show interp (m + 6 + 1) (.stmtJ (.block _)) st = _
  rw [interp_succ_block, hbody]

end Lox

namespace Lox

/-- The loop condition `i < 3` in any state satisfying the loop
invariant: either the fuel runs out inside the condition (fuel < 2) or
it evaluates to `true` without touching the state (`1 < 3`). -/
theorem condC1_eval (n : Nat) (st : SState) (h : InvC1 st) :
    interp n (.exprJ condC1) st = .fuel st ∨
      interp n (.exprJ condC1) st = .ok (.val (.boolean true)) st := by
  obtain ⟨h1, h2, h3, h4⟩ := h
  match n with
  | 0 => exact Or.inl rfl
  | 1 => exact Or.inl rfl
  | k + 2 =>
    right
    have hl : lookupAt st st.current 0 (⟨0, 7, "i"⟩ : Ref) = .ok (.num 1) := by
      rw [h1, lookupAt_zero, h3]
      rfl
    have hstep : interp (k + 1) (.exprJ (.var ⟨0, 7, "i"⟩)) st
        = match lookupAt st st.current 0 (⟨0, 7, "i"⟩ : Ref) with
          | .ok v => .ok (.val v) st
          | .error e => .err e st := by
      rw [interp_succ_var, h4]
      rfl
    have hvar : interp (k + 1) (.exprJ (.var ⟨0, 7, "i"⟩)) st
        = .ok (.val (.num 1)) st := by
      rw [hstep, hl]
    show interp (k + 1 + 1)
        (.exprJ (.binary (.var ⟨0, 7, "i"⟩) .lessThan (.lit (.num 3)))) st = _
    rw [interp_succ_binary, hvar]
    rfl

/-- One pass of the loop body preserves the loop invariant: the two
abandoned block environments are appended but `current` and the
environment holding `i = 1` are unchanged. -/
theorem InvC1_step (st : SState) (h : InvC1 st) :
    InvC1
      { st with
        envs := (st.envs ++ [⟨some st.current, []⟩])
          ++ [⟨some st.envs.length, []⟩]
        current := st.current } := by
  obtain ⟨h1, h2, h3, h4⟩ := h
  refine ⟨h1, ?_, ?_, h4⟩
  · simp
  · show ((st.envs ++ [(⟨some st.current, []⟩ : Env)])
        ++ [(⟨some st.envs.length, []⟩ : Env)]).getD 1 (⟨none, []⟩ : Env) = _
    rw [List.getD_append _ _ _ _ (by simp; omega),
      List.getD_append _ _ _ _ h2]
    exact h3

/-- The desugared `While` loop of the scenario-7 program never
terminates from any state satisfying the loop invariant (`i = 1`): the
`continue` skips the increment, so every iteration re-enters the loop
with `i` still `1` and strictly less fuel. -/
theorem whileC1_diverges : ∀ n : Nat, ∀ st : SState, InvC1 st →
    (interp n (.stmtJ whileC1) st).isFuel = true := by
  intro n
  induction n using Nat.strong_induction_on with
  | _ n ih =>
  rcases n with _ | m
  · intro st _
    rfl
  · intro st h
    show (interp (m + 1)
      (.stmtJ (.whileS condC1 (.block [userBodyC1, .expr incrC1])))
      st).isFuel = true
    rw [interp_succ_while]
    rcases condC1_eval m st h with hc | hc
    · rw [hc]
      rfl
    · rw [hc]
      show (match interp m (.stmtJ (.block [userBodyC1, .expr incrC1])) st with
          | .ok _ st2 =>
            interp m
              (.stmtJ (.whileS condC1 (.block [userBodyC1, .expr incrC1]))) st2
          | .err .brk st2 => .ok .unit st2
          | .err .cont st2 =>
            interp m
              (.stmtJ (.whileS condC1 (.block [userBodyC1, .expr incrC1]))) st2
          | .err e st2 => .err e st2
          | .fuel st2 => .fuel st2).isFuel = true
      rcases Nat.lt_or_ge m 7 with hm | hm
      · interval_cases m <;> rfl
      · obtain ⟨k, hk⟩ := Nat.exists_eq_add_of_le hm
        subst hk
        rw [Nat.add_comm 7 k, bodyC1_run k st h]
        exact ih (k + 7) (by omega) _ (InvC1_step st h)

end Lox

namespace Lox

set_option maxRecDepth 10000

/-- C1: a `for` statement is indeed desugared during parsing into
`Block[init, While(cond, Block[body, Expr(incr)])]`, and the spec's
program `for (var i = 0; i < 3; i = i + 1) { if (i == 1) continue; print(i); }`
parses to exactly that shape and resolves without errors — but the
claimed behaviour (`terminates and prints 0 and 2`) is wrong.  The
`Continue` error caught by the `While` arm was raised *inside* the
desugared block, so it aborts that block before the increment
`Expr(i = i + 1)` statement runs; once `i` reaches `1` every iteration
re-raises `Continue` with `i` still `1`.  Formally: from any state
satisfying the loop invariant `InvC1` (`i = 1`), the `While` statement
exhausts every fuel bound, and the concrete run of the whole program
exhausts fuel `60` having printed only the line `0`. -/
theorem for_desugar_continue_diverges :
    parseProgram 1000 (mkToks toksC1) = some progC1 ∧
    resolveProgram 1000 progC1
      = some (⟨[], localsC1, false, .noneK, .noneK⟩, false) ∧
    (∀ n : Nat, ∀ st : SState, InvC1 st →
      (interp n (.stmtJ whileC1) st).isFuel = true) ∧
    (interpret 60 progC1 (initState localsC1)).isFuel = true ∧
    (interpret 60 progC1 (initState localsC1)).outputOf = ["0"] :=
  ⟨rfl, rfl, whileC1_diverges, rfl, rfl⟩

/-- The divergence conjunct of `for_desugar_continue_diverges` applied
at a concrete invariant state: two environments (globals and the loop
header holding `i = 1`), fuel `40`. -/
theorem for_desugar_continue_diverges_witness :
    InvC1 ⟨[initialEnv, ⟨some 0, [("i", VarState.assigned (Value.num 1))]⟩],
      [], 1, localsC1, []⟩ ∧
    (interp 40 (.stmtJ whileC1)
      ⟨[initialEnv, ⟨some 0, [("i", VarState.assigned (Value.num 1))]⟩],
        [], 1, localsC1, []⟩).isFuel = true :=
  ⟨⟨rfl, by decide, rfl, rfl⟩,
   for_desugar_continue_diverges.2.2.1 40 _ ⟨rfl, by decide, rfl, rfl⟩⟩

end Lox

namespace Lox

/-! ### Well-formedness preservation lemmas for the evaluator state
(used by the control-flow safety argument) -/

theorem getD_mem_or_default {α : Type} (l : List α) (i : Nat) (d : α) :
    l.getD i d ∈ l ∨ l.getD i d = d := by
  rcases h : l[i]? with _ | x
  · right
    simp [List.getD_eq_getElem?_getD, h]
  · left
    rw [List.getD_eq_getElem?_getD, h]
    exact List.getElem?_mem h

theorem alInsert_mem {κ α : Type} [DecidableEq κ]
    {l : List (κ × α)} {k : κ} {v : α} {p : κ × α}
    (h : p ∈ alInsert l k v) : p ∈ l ∨ p = (k, v) := by
  induction l with
  | nil =>
    right
    simpa [alInsert] using h
  | cons q rest ih =>
    obtain ⟨k', w⟩ := q
    unfold alInsert at h
    split at h
    · rename_i heq
      subst heq
      rcases List.mem_cons.mp h with h' | h'
      · right
        exact h'
      · left
        exact List.mem_cons_of_mem _ h'
    · rcases List.mem_cons.mp h with h' | h'
      · left
        rw [h']
        exact List.mem_cons_self _ _
      · rcases ih h' with h'' | h''
        · left
          exact List.mem_cons_of_mem _ h''
        · right
          exact h''

theorem StOk_getEnv {st : SState} (h : StOk st) (i : Nat) :
    EnvOk (getEnv st i) := by
  rcases getD_mem_or_default st.envs i ⟨none, []⟩ with hm | hd
  · exact h.1 _ hm
  · unfold getEnv
    rw [hd]
    intro p hp
    exact absurd hp (List.not_mem_nil p)

theorem StOk_getInst {st : SState} (h : StOk st) (i : Nat) :
    InstOk (getInst st i) := by
  rcases getD_mem_or_default st.insts i ⟨⟨"", [], none⟩, []⟩ with hm | hd
  · exact h.2 _ hm
  · unfold getInst
    rw [hd]
    refine ⟨ClsOk.mk (fun p hp => absurd hp (List.not_mem_nil p)) ?_, ?_⟩
    · intro s hs
      cases hs
    · intro p hp
      exact absurd hp (List.not_mem_nil p)

theorem EnvOk_insert {e : Env} (he : EnvOk e) {vs : VarState}
    (hv : ∀ w, vs = VarState.assigned w → VOk w) (name : String) :
    EnvOk { e with values := alInsert e.values name vs } := by
  intro p hp w hw
  rcases alInsert_mem hp with h' | h'
  · exact he p h' w hw
  · subst h'
    exact hv w hw

theorem StOk_setEnv {st : SState} (h : StOk st) {e : Env} (he : EnvOk e)
    (i : Nat) : StOk (setEnv st i e) := by
  refine ⟨?_, h.2⟩
  intro e' he'
  rcases List.mem_or_eq_of_mem_set he' with hm | hm
  · exact h.1 _ hm
  · rw [hm]
    exact he

theorem StOk_envDefine {st : SState} (h : StOk st) (i : Nat) (name : String)
    {v : Option Value} (hv : ∀ w, v = some w → VOk w) :
    StOk (envDefine st i name v) := by
  simp only [envDefine]
  refine StOk_setEnv h (EnvOk_insert (StOk_getEnv h i) ?_ name) i
  intro w hw
  cases v with
  | none => cases hw
  | some u =>
    cases hw
    exact hv w rfl

theorem StOk_append_env {st : SState} (h : StOk st) (p : Option Nat) :
    StOk { st with envs := st.envs ++ [⟨p, []⟩] } := by
  refine ⟨?_, h.2⟩
  intro e he
  rcases List.mem_append.mp he with hm | hm
  · exact h.1 _ hm
  · rw [List.mem_singleton.mp hm]
    intro q hq
    exact absurd hq (List.not_mem_nil q)

theorem StOk_defineFold {l : List (String × Value)} (hl : ∀ pa ∈ l, VOk pa.2) :
    ∀ {st : SState}, StOk st → ∀ i,
      StOk (l.foldl (fun acc pa => envDefine acc i pa.1 (some pa.2)) st) := by
  induction l with
  | nil =>
    intro st h i
    exact h
  | cons pa rest ih =>
    intro st h i
    simp only [List.foldl_cons]
    refine ih (fun q hq => hl q (List.mem_cons_of_mem _ hq))
      (StOk_envDefine h i pa.1 ?_) i
    intro w hw
    cases hw
    exact hl pa (List.mem_cons_self _ _)

theorem StOk_callSetup {st : SState} (h : StOk st) (ps : List String)
    {args : List Value} (hargs : ∀ v ∈ args, VOk v) (closure : Nat) :
    StOk (callSetup st ps args closure) := by
  simp only [callSetup, spawnChild]
  refine StOk_defineFold (fun pa hpa => hargs _ (List.of_mem_zip hpa).2) ?_ _
  exact ⟨(StOk_append_env h (some closure)).1, h.2⟩

theorem StOk_allocInst {st : SState} (h : StOk st) {cls : LoxClass}
    (hc : ClsOk cls) : StOk { st with insts := st.insts ++ [⟨cls, []⟩] } := by
  refine ⟨h.1, ?_⟩
  intro i hi
  rcases List.mem_append.mp hi with hm | hm
  · exact h.2 _ hm
  · rw [List.mem_singleton.mp hm]
    exact ⟨hc, fun p hp => absurd hp (List.not_mem_nil p)⟩

theorem StOk_instSet {st : SState} (h : StOk st) (i : Nat) (id : String)
    {v : Value} (hv : VOk v) : StOk (instSet st i id v) := by
  simp only [instSet]
  refine ⟨h.1, ?_⟩
  intro j hj
  rcases List.mem_or_eq_of_mem_set hj with hm | hm
  · exact h.2 _ hm
  · rw [hm]
    have hio : InstOk (getInst st i) := StOk_getInst h i
    refine ⟨hio.1, ?_⟩
    intro p hp
    rcases alInsert_mem hp with hm' | hm'
    · exact hio.2 p hm'
    · rw [hm']
      exact hv

theorem bindThis_spec {st : SState} (h : StOk st) {c : Callable} (hc : COk c)
    (i : Nat) {bound : Callable} {st' : SState}
    (hb : bindThis st c i = some (bound, st')) : COk bound ∧ StOk st' := by
  obtain ⟨a, k⟩ := c
  cases hc with
  | mk hk =>
    cases hk with
    | native =>
      simp [bindThis] at hb
    | loxClass hcls =>
      simp [bindThis] at hb
    | loxFun hbody =>
      simp only [bindThis, spawnChild, Option.some.injEq, Prod.mk.injEq] at hb
      obtain ⟨hb1, hb2⟩ := hb
      subst hb1
      subst hb2
      refine ⟨COk.mk (KOk.loxFun hbody), ?_⟩
      refine StOk_envDefine (StOk_append_env h _) _ _ ?_
      intro w hw
      cases hw
      exact VOk.instanceV

end Lox

namespace Lox

theorem lookupAt_VOk {st : SState} (h : StOk st) {i d : Nat} {r : Ref}
    {v : Value} (hl : lookupAt st i d r = .ok v) : VOk v := by
  simp only [lookupAt] at hl
  split at hl
  · cases hl
    rename_i heq
    split at heq
    · exact StOk_getEnv h _ _ (alFind?_mem heq) _ rfl
    · cases heq
  · cases hl
  · cases hl
  · cases hl

theorem lookupAt_err {st : SState} {i d : Nat} {r : Ref} {e : RtErr}
    (hl : lookupAt st i d r = .error e) : e.isCtrl = false := by
  simp only [lookupAt] at hl
  split at hl
  · cases hl
  · cases hl
    rfl
  · cases hl
    rfl
  · cases hl
    rfl

theorem envLookup_VOk {e : Env} (he : EnvOk e) {r : Ref} {v : Value}
    (hl : envLookup e r = .ok v) : VOk v := by
  simp only [envLookup] at hl
  split at hl
  · cases hl
    rename_i heq
    rcases hf : alFind? e.values r.identifier with _ | vs
    · rw [hf] at heq
      cases heq
    · rw [hf] at heq
      cases heq
      exact he _ (alFind?_mem hf) _ rfl
  · cases hl
  · cases hl

theorem envLookup_err {e : Env} {r : Ref} {er : RtErr}
    (hl : envLookup e r = .error er) : er.isCtrl = false := by
  simp only [envLookup] at hl
  split at hl
  · cases hl
  · cases hl
    rfl
  · cases hl
    rfl

theorem assignAt_StOk {st : SState} (h : StOk st) {i d : Nat} {r : Ref}
    {v : Value} (hv : VOk v) {st' : SState}
    (ha : assignAt st i d r v = .ok st') : StOk st' := by
  simp only [assignAt] at ha
  split at ha
  · cases ha
  · split at ha
    · cases ha
      refine StOk_setEnv h (EnvOk_insert (StOk_getEnv h _) ?_ _) _
      intro w hw
      cases hw
      exact hv
    · cases ha

theorem assignAt_err {st : SState} {i d : Nat} {r : Ref} {v : Value}
    {e : RtErr} (ha : assignAt st i d r v = .error e) : e.isCtrl = false := by
  simp only [assignAt] at ha
  split at ha
  · cases ha
    rfl
  · split at ha
    · cases ha
    · cases ha
      rfl

theorem envAssign_StOk {st : SState} (h : StOk st) {i : Nat} {r : Ref}
    {v : Value} (hv : VOk v) {st' : SState}
    (ha : envAssign st i r v = .ok st') : StOk st' := by
  simp only [envAssign] at ha
  split at ha
  · cases ha
    refine StOk_setEnv h (EnvOk_insert (StOk_getEnv h _) ?_ _) _
    intro w hw
    cases hw
    exact hv
  · cases ha

theorem envAssign_err {st : SState} {i : Nat} {r : Ref} {v : Value}
    {e : RtErr} (ha : envAssign st i r v = .error e) : e.isCtrl = false := by
  simp only [envAssign] at ha
  split at ha
  · cases ha
  · cases ha
    rfl

theorem runNative_spec {st : SState} (h : StOk st) {f : NativeFn}
    {args : List Value} {v : Value} {st' : SState}
    (hr : runNative st f args = .ok (v, st')) : VOk v ∧ StOk st' := by
  cases f with
  | clock =>
    cases hr
    exact ⟨VOk.num, h⟩
  | printFn =>
    cases args with
    | nil => cases hr
    | cons a rest =>
      cases hr
      exact ⟨VOk.nil, h.1, h.2⟩
  | readLine =>
    cases hr
    exact ⟨VOk.str, h⟩

theorem runNative_err {st : SState} {f : NativeFn} {args : List Value}
    {e : RtErr} (hr : runNative st f args = .error e) : e.isCtrl = false := by
  cases f with
  | clock => cases hr
  | printFn =>
    cases args with
    | nil =>
      cases hr
      rfl
    | cons a rest => cases hr
  | readLine => cases hr

theorem litToValue_VOk (l : Lit) : VOk (litToValue l) := by
  cases l with
  | str s => exact VOk.str
  | num n => exact VOk.num
  | boolean b => exact VOk.boolean
  | nil => exact VOk.nil

theorem evaluatePlus_VOk {st : SState} {l r v : Value}
    (h : evaluatePlus st l r = .ok v) : VOk v := by
  simp only [evaluatePlus] at h
  split at h <;> cases h <;> first | exact VOk.num | exact VOk.str

theorem evaluatePlus_err {st : SState} {l r : Value} {e : RtErr}
    (h : evaluatePlus st l r = .error e) : e.isCtrl = false := by
  simp only [evaluatePlus] at h
  split at h <;> cases h <;> rfl

theorem evaluateComparison_VOk {l : Value} {op : BinOp} {r v : Value}
    (h : evaluateComparison l op r = .ok v) : VOk v := by
  simp only [evaluateComparison] at h
  split at h <;> (try split at h) <;> cases h <;> exact VOk.boolean

theorem evaluateComparison_err {l : Value} {op : BinOp} {r : Value} {e : RtErr}
    (h : evaluateComparison l op r = .error e) : e.isCtrl = false := by
  simp only [evaluateComparison] at h
  split at h <;> (try split at h) <;> cases h <;> rfl

theorem buildMethods_COk {ms : List Func} (closure : Nat)
    (hms : ∀ m ∈ ms, ∀ s ∈ Func.body m, SOk false true s) :
    ∀ p ∈ buildMethods ms closure, COk p.2 := by
  have aux : ∀ (l : List Func), (∀ m ∈ l, ∀ s ∈ Func.body m, SOk false true s) →
      ∀ (acc : List (String × Callable)), (∀ p ∈ acc, COk p.2) →
      ∀ p ∈ l.foldl
        (fun acc m =>
          alInsert acc m.identifier
            ⟨m.parameters.length,
             .loxFun (some m.identifier) m.parameters m.body closure
               (m.identifier = "init")⟩)
        acc, COk p.2 := by
    intro l
    induction l with
    | nil =>
      intro _ acc hacc p hp
      exact hacc p hp
    | cons m rest ih =>
      intro hl acc hacc p hp
      simp only [List.foldl_cons] at hp
      refine ih (fun m' hm' s hs => hl m' (List.mem_cons_of_mem _ hm') s hs)
        _ ?_ p hp
      intro q hq
      rcases alInsert_mem hq with h' | h'
      · exact hacc q h'
      · rw [h']
        exact COk.mk (KOk.loxFun (hl m (List.mem_cons_self _ _)))
  intro p hp
  exact aux ms hms [] (fun q hq => absurd hq (List.not_mem_nil q)) p hp

theorem JobCtrl_of_not {e : RtErr} (hb : e ≠ .brk) (hc : e ≠ .cont)
    (hr : ∀ v, e ≠ .ret v) (l f : Bool) (j : IJob) : JobCtrl l f j e := by
  cases j
  all_goals
    first
    | exact ⟨fun h' => h'.elim (fun h'' => absurd h'' hb)
          (fun h'' => absurd h'' hc),
        fun v hv => absurd hv (hr v)⟩
    | exact ⟨hb, hc, hr⟩

theorem JobCtrl_nonCtrl (e : RtErr) (he : e.isCtrl = false) (l f : Bool)
    (j : IJob) : JobCtrl l f j e := by
  refine JobCtrl_of_not ?_ ?_ ?_ l f j
  · rintro rfl
    simp [RtErr.isCtrl] at he
  · rintro rfl
    simp [RtErr.isCtrl] at he
  · rintro v rfl
    simp [RtErr.isCtrl] at he

theorem ResSpec_cast {l f : Bool} {j1 j2 : IJob}
    (h1 : ∀ e, JobCtrl l f j1 e → JobCtrl l f j2 e) {r : Res}
    (h : ResSpec l f j1 r) : ResSpec l f j2 r := by
  cases r with
  | ok o st => exact h
  | err e st => exact ⟨h.1, h1 e h.2⟩
  | fuel st => exact h

end Lox

namespace Lox

/-! ### Preservation of the state invariant and of the control-error
discipline, one fuel step at a time.  `pres_*` handles one job kind,
assuming the property (`ih`) for all jobs at the next-smaller fuel. -/

theorem pres_find (n : Nat)
    (ih : ∀ (l f : Bool) (j : IJob) (st : SState),
      JobOk l f j → StOk st → ResSpec l f j (interp n j st))
    (l f : Bool) (c : Option LoxClass) (id : String) (st : SState)
    (hj : ∀ s, c = some s → ClsOk s) (hst : StOk st) :
    ResSpec l f (.findJ c id) (interp (n + 1) (.findJ c id) st) := by
  cases c with
  | none =>
    refine ⟨hst, ?_⟩
    intro m hm
    cases hm
  | some s =>
    obtain ⟨cid, ms, sup⟩ := s
    have hcls := hj _ rfl
    cases hcls with
    | mk hms hsup =>
      simp only [interp]
      rcases hf : alFind? ms id with _ | m <;> simp only [hf]
      · exact ResSpec_cast (fun e he => he)
          (ih l f (.findJ sup id) st (fun s' hs' => hsup s' hs') hst)
      · refine ⟨hst, ?_⟩
        intro m' hm'
        cases hm'
        exact hms _ (alFind?_mem hf)

theorem pres_stmts (n : Nat)
    (ih : ∀ (l f : Bool) (j : IJob) (st : SState),
      JobOk l f j → StOk st → ResSpec l f j (interp n j st))
    (l f : Bool) (ss : List Stmt) (st : SState)
    (hj : ∀ s ∈ ss, SOk l f s) (hst : StOk st) :
    ResSpec l f (.stmtsJ ss) (interp (n + 1) (.stmtsJ ss) st) := by
  cases ss with
  | nil => exact ⟨hst, True.intro⟩
  | cons s rest =>
    simp only [interp]
    have h1 := ih l f (.stmtJ s) st (hj s (List.mem_cons_self s rest)) hst
    rcases hres : interp n (.stmtJ s) st with ⟨o, st1⟩ | ⟨er, st1⟩ | st1 <;>
      rw [hres] at h1 <;> simp only [hres]
    · exact ResSpec_cast (fun e he => he)
        (ih l f (.stmtsJ rest) st1
          (fun s' hs' => hj s' (List.mem_cons_of_mem _ hs')) h1.1)
    · exact ⟨h1.1, h1.2⟩
    · trivial

theorem pres_args (n : Nat)
    (ih : ∀ (l f : Bool) (j : IJob) (st : SState),
      JobOk l f j → StOk st → ResSpec l f j (interp n j st))
    (l f : Bool) (es : List Expr) (acc : List Value) (st : SState)
    (hj : (∀ e ∈ es, EOk e) ∧ (∀ v ∈ acc, VOk v)) (hst : StOk st) :
    ResSpec l f (.argsJ es acc) (interp (n + 1) (.argsJ es acc) st) := by
  cases es with
  | nil =>
    refine ⟨hst, ?_⟩
    intro v hv
    exact hj.2 v (List.mem_reverse.mp hv)
  | cons e rest =>
    simp only [interp]
    have h1 := ih l f (.exprJ e) st (hj.1 e (List.mem_cons_self e rest)) hst
    rcases hres : interp n (.exprJ e) st with ⟨o, st1⟩ | ⟨er, st1⟩ | st1 <;>
      rw [hres] at h1 <;> try simp only [hres]
    · rcases o with _ | v | vs | mo
      · exact ⟨h1.1, JobCtrl_nonCtrl .panicked rfl l f _⟩
      · refine ResSpec_cast (fun e' he' => he')
          (ih l f (.argsJ rest (v :: acc)) st1
            ⟨fun e' he' => hj.1 e' (List.mem_cons_of_mem _ he'), ?_⟩ h1.1)
        intro w hw
        rcases List.mem_cons.mp hw with h' | h'
        · rw [h']
          exact h1.2
        · exact hj.2 w h'
      · exact ⟨h1.1, JobCtrl_nonCtrl .panicked rfl l f _⟩
      · exact ⟨h1.1, JobCtrl_nonCtrl .panicked rfl l f _⟩
    · exact ⟨h1.1, h1.2⟩
    · trivial

end Lox

namespace Lox

theorem pres_call (n : Nat)
    (ih : ∀ (l f : Bool) (j : IJob) (st : SState),
      JobOk l f j → StOk st → ResSpec l f j (interp n j st))
    (l f : Bool) (c : Callable) (args : List Value) (st : SState)
    (hj : COk c ∧ ∀ v ∈ args, VOk v) (hst : StOk st) :
    ResSpec l f (.callJ c args) (interp (n + 1) (.callJ c args) st) := by
  obtain ⟨a, k⟩ := c
  obtain ⟨hc, hargs⟩ := hj
  cases hc with
  | mk hk =>
  cases hk with
  | native =>
    rename_i fn
    simp only [interp]
    rcases hr : runNative st fn args with er | ⟨v, st'⟩ <;> simp only [hr]
    · exact ⟨hst, JobCtrl_nonCtrl er (runNative_err hr) l f _⟩
    · exact ⟨(runNative_spec hst hr).2, (runNative_spec hst hr).1⟩
  | loxFun hbody =>
    rename_i id ps body closure isInit
    simp only [interp]
    have hst2 : StOk (callSetup st ps args closure) :=
      StOk_callSetup hst ps hargs closure
    have h1 := ih false true (.stmtsJ body) (callSetup st ps args closure)
      hbody hst2
    rcases hres : interp n (.stmtsJ body) (callSetup st ps args closure)
        with ⟨o, st3⟩ | ⟨er, st3⟩ | st3 <;>
      rw [hres] at h1 <;> try simp only [hres]
    · cases isInit
      · exact ⟨⟨h1.1.1, h1.1.2⟩, VOk.nil⟩
      · rcases hl : lookupAt { st3 with current := st.current } closure 0
            ⟨0, 0, "this"⟩ with e2 | w <;> simp only [hl]
        · exact ⟨⟨h1.1.1, h1.1.2⟩, JobCtrl_nonCtrl e2 (lookupAt_err hl) l f _⟩
        · exact ⟨⟨h1.1.1, h1.1.2⟩,
            lookupAt_VOk
              (⟨h1.1.1, h1.1.2⟩ : StOk { st3 with current := st.current }) hl⟩
    · cases er
      case brk => exact absurd (h1.2.1 (Or.inl rfl)) Bool.false_ne_true
      case cont => exact absurd (h1.2.1 (Or.inr rfl)) Bool.false_ne_true
      case ret v =>
        have hfv := h1.2.2 v rfl
        cases isInit
        · exact ⟨⟨h1.1.1, h1.1.2⟩, hfv.2⟩
        · rcases hl : lookupAt { st3 with current := st.current } closure 0
              ⟨0, 0, "this"⟩ with e2 | w <;> simp only [hl]
          · exact ⟨⟨h1.1.1, h1.1.2⟩,
              JobCtrl_nonCtrl e2 (lookupAt_err hl) l f _⟩
          · exact ⟨⟨h1.1.1, h1.1.2⟩,
              lookupAt_VOk
                (⟨h1.1.1, h1.1.2⟩ : StOk { st3 with current := st.current })
                hl⟩
      all_goals refine ⟨⟨h1.1.1, h1.1.2⟩, JobCtrl_nonCtrl _ ?_ l f _⟩
      all_goals rfl
    · trivial
  | loxClass hcls =>
    rename_i cls
    obtain ⟨cid, ms, sup⟩ := cls
    simp only [interp, allocInst]
    have hstA : StOk { st with insts := st.insts ++ [⟨⟨cid, ms, sup⟩, []⟩] } :=
      StOk_allocInst hst hcls
    rcases hin : alFind? (LoxClass.mk cid ms sup).methods "init" with _ | m <;>
      simp only [hin]
    · exact ⟨hstA, VOk.instanceV⟩
    · have hm : COk m := by
        cases hcls with
        | mk hms hsup => exact hms _ (alFind?_mem hin)
      rcases hb : bindThis { st with insts := st.insts ++ [⟨⟨cid, ms, sup⟩, []⟩] }
          m st.insts.length with _ | ⟨bound, st2⟩ <;> simp only [hb]
      · exact ⟨hstA, JobCtrl_nonCtrl .panicked rfl l f _⟩
      · have hbs := bindThis_spec hstA hm st.insts.length hb
        exact ResSpec_cast (fun e he => he)
          (ih l f (.callJ bound args) st2 ⟨hbs.1, hargs⟩ hbs.2)

end Lox

namespace Lox

theorem ResSpec_ite {l f : Bool} {j : IJob} (c : Prop) [Decidable c]
    {r1 r2 : Res} (h1 : ResSpec l f j r1) (h2 : ResSpec l f j r2) :
    ResSpec l f j (if c then r1 else r2) := by
  split
  · exact h1
  · exact h2

theorem pres_expr (n : Nat)
    (ih : ∀ (l f : Bool) (j : IJob) (st : SState),
      JobOk l f j → StOk st → ResSpec l f j (interp n j st))
    (l f : Bool) (e : Expr) (st : SState) (hj : EOk e) (hst : StOk st) :
    ResSpec l f (.exprJ e) (interp (n + 1) (.exprJ e) st) := by
  cases hj with
  | lit => exact ⟨hst, litToValue_VOk _⟩
  | var =>
    rename_i r
    simp only [interp]
    rcases hd : alFind? st.locals r with _ | d <;> simp only [hd]
    · rcases hl : envLookup (getEnv st 0) r with er | v <;> simp only [hl]
      · exact ⟨hst, JobCtrl_nonCtrl er (envLookup_err hl) l f _⟩
      · exact ⟨hst, envLookup_VOk (StOk_getEnv hst 0) hl⟩
    · rcases hl : lookupAt st st.current d r with er | v <;> simp only [hl]
      · exact ⟨hst, JobCtrl_nonCtrl er (lookupAt_err hl) l f _⟩
      · exact ⟨hst, lookupAt_VOk hst hl⟩
  | this =>
    rename_i ln col
    simp only [interp]
    rcases hd : alFind? st.locals ⟨ln, col, "this"⟩ with _ | d <;>
      simp only [hd]
    · rcases hl : envLookup (getEnv st 0) ⟨ln, col, "this"⟩ with er | v <;>
        simp only [hl]
      · exact ⟨hst, JobCtrl_nonCtrl er (envLookup_err hl) l f _⟩
      · exact ⟨hst, envLookup_VOk (StOk_getEnv hst 0) hl⟩
    · rcases hl : lookupAt st st.current d ⟨ln, col, "this"⟩ with er | v <;>
        simp only [hl]
      · exact ⟨hst, JobCtrl_nonCtrl er (lookupAt_err hl) l f _⟩
      · exact ⟨hst, lookupAt_VOk hst hl⟩
  | anonFun hbody =>
    exact ⟨hst, VOk.callable (COk.mk (KOk.loxFun hbody))⟩
  | grouping he2 =>
    rename_i e2
    exact ResSpec_cast (fun e' he' => he') (ih l f (.exprJ e2) st he2 hst)
  | unary he2 =>
    rename_i op e2
    simp only [interp]
    have h1 := ih l f (.exprJ e2) st he2 hst
    rcases hres : interp n (.exprJ e2) st with ⟨o, st1⟩ | ⟨er, st1⟩ | st1 <;>
      rw [hres] at h1 <;> try simp only [hres]
    · rcases o with _ | v | vs | mo
      · exact ⟨h1.1, JobCtrl_nonCtrl .panicked rfl l f _⟩
      · cases op
        case minus =>
          cases v
          case num => exact ⟨h1.1, VOk.num⟩
          all_goals exact ⟨h1.1, JobCtrl_nonCtrl (.typeError _ _) rfl l f _⟩
        case bang => exact ⟨h1.1, VOk.boolean⟩
      · exact ⟨h1.1, JobCtrl_nonCtrl .panicked rfl l f _⟩
      · exact ⟨h1.1, JobCtrl_nonCtrl .panicked rfl l f _⟩
    · exact ⟨h1.1, h1.2⟩
    · trivial
  | ternary hc ht hf2 =>
    rename_i c t fe
    simp only [interp]
    have h1 := ih l f (.exprJ c) st hc hst
    rcases hres : interp n (.exprJ c) st with ⟨o, st1⟩ | ⟨er, st1⟩ | st1 <;>
      rw [hres] at h1 <;> try simp only [hres]
    · rcases o with _ | v | vs | mo
      · exact ⟨h1.1, JobCtrl_nonCtrl .panicked rfl l f _⟩
      · exact ResSpec_ite _
          (ResSpec_cast (fun e' he' => he') (ih l f (.exprJ t) st1 ht h1.1))
          (ResSpec_cast (fun e' he' => he') (ih l f (.exprJ fe) st1 hf2 h1.1))
      · exact ⟨h1.1, JobCtrl_nonCtrl .panicked rfl l f _⟩
      · exact ⟨h1.1, JobCtrl_nonCtrl .panicked rfl l f _⟩
    · exact ⟨h1.1, h1.2⟩
    · trivial
  | logical ha hb2 =>
    rename_i a op b
    simp only [interp]
    have h1 := ih l f (.exprJ a) st ha hst
    rcases hres : interp n (.exprJ a) st with ⟨o, st1⟩ | ⟨er, st1⟩ | st1 <;>
      rw [hres] at h1 <;> try simp only [hres]
    · rcases o with _ | v | vs | mo
      · exact ⟨h1.1, JobCtrl_nonCtrl .panicked rfl l f _⟩
      · cases op
        case andOp =>
          exact ResSpec_ite _
            (ResSpec_cast (fun e' he' => he') (ih l f (.exprJ b) st1 hb2 h1.1))
            ⟨h1.1, h1.2⟩
        case orOp =>
          exact ResSpec_ite _ ⟨h1.1, h1.2⟩
            (ResSpec_cast (fun e' he' => he') (ih l f (.exprJ b) st1 hb2 h1.1))
      · exact ⟨h1.1, JobCtrl_nonCtrl .panicked rfl l f _⟩
      · exact ⟨h1.1, JobCtrl_nonCtrl .panicked rfl l f _⟩
    · exact ⟨h1.1, h1.2⟩
    · trivial
  | binary ha hb2 =>
    rename_i a op b
    simp only [interp]
    have h1 := ih l f (.exprJ a) st ha hst
    rcases hres1 : interp n (.exprJ a) st with ⟨o1, st1⟩ | ⟨er1, st1⟩ | st1 <;>
      rw [hres1] at h1 <;> try simp only [hres1]
    · rcases o1 with _ | lv | vs | mo
      · exact ⟨h1.1, JobCtrl_nonCtrl .panicked rfl l f _⟩
      · have h2 := ih l f (.exprJ b) st1 hb2 h1.1
        rcases hres2 : interp n (.exprJ b) st1
            with ⟨o2, st2⟩ | ⟨er2, st2⟩ | st2 <;>
          rw [hres2] at h2 <;> try simp only [hres2]
        · rcases o2 with _ | rv | vs2 | mo2
          · exact ⟨h2.1, JobCtrl_nonCtrl .panicked rfl l f _⟩
          · cases op
            case comma => exact ⟨h2.1, h2.2⟩
            case bangEqual => exact ⟨h2.1, VOk.boolean⟩
            case doubleEquals => exact ⟨h2.1, VOk.boolean⟩
            case plus =>
              rcases hp : evaluatePlus st2 lv rv with e' | w <;>
                simp only [hp]
              · exact ⟨h2.1, JobCtrl_nonCtrl e' (evaluatePlus_err hp) l f _⟩
              · exact ⟨h2.1, evaluatePlus_VOk hp⟩
            case minus =>
              cases lv <;> cases rv <;>
                first
                  | exact ⟨h2.1, VOk.num⟩
                  | exact ⟨h2.1, JobCtrl_nonCtrl (.typeError _ _) rfl l f _⟩
            case star =>
              cases lv <;> cases rv <;>
                first
                  | exact ⟨h2.1, VOk.num⟩
                  | exact ⟨h2.1, JobCtrl_nonCtrl (.typeError _ _) rfl l f _⟩
            case slash =>
              cases lv <;> cases rv <;>
                first
                  | exact ⟨h2.1, VOk.num⟩
                  | exact ⟨h2.1, JobCtrl_nonCtrl (.typeError _ _) rfl l f _⟩
            case greaterThan =>
              rcases hcmp : evaluateComparison lv .greaterThan rv
                  with e' | w <;> simp only [hcmp]
              · exact ⟨h2.1,
                  JobCtrl_nonCtrl e' (evaluateComparison_err hcmp) l f _⟩
              · exact ⟨h2.1, evaluateComparison_VOk hcmp⟩
            case greaterEqual =>
              rcases hcmp : evaluateComparison lv .greaterEqual rv
                  with e' | w <;> simp only [hcmp]
              · exact ⟨h2.1,
                  JobCtrl_nonCtrl e' (evaluateComparison_err hcmp) l f _⟩
              · exact ⟨h2.1, evaluateComparison_VOk hcmp⟩
            case lessThan =>
              rcases hcmp : evaluateComparison lv .lessThan rv
                  with e' | w <;> simp only [hcmp]
              · exact ⟨h2.1,
                  JobCtrl_nonCtrl e' (evaluateComparison_err hcmp) l f _⟩
              · exact ⟨h2.1, evaluateComparison_VOk hcmp⟩
            case lessEqual =>
              rcases hcmp : evaluateComparison lv .lessEqual rv
                  with e' | w <;> simp only [hcmp]
              · exact ⟨h2.1,
                  JobCtrl_nonCtrl e' (evaluateComparison_err hcmp) l f _⟩
              · exact ⟨h2.1, evaluateComparison_VOk hcmp⟩
          · exact ⟨h2.1, JobCtrl_nonCtrl .panicked rfl l f _⟩
          · exact ⟨h2.1, JobCtrl_nonCtrl .panicked rfl l f _⟩
        · exact ⟨h2.1, h2.2⟩
        · trivial
      · exact ⟨h1.1, JobCtrl_nonCtrl .panicked rfl l f _⟩
      · exact ⟨h1.1, JobCtrl_nonCtrl .panicked rfl l f _⟩
    · exact ⟨h1.1, h1.2⟩
    · trivial
  | assignment hv =>
    rename_i r ve
    simp only [interp]
    have h1 := ih l f (.exprJ ve) st hv hst
    rcases hres : interp n (.exprJ ve) st with ⟨o, st1⟩ | ⟨er, st1⟩ | st1 <;>
      rw [hres] at h1 <;> try simp only [hres]
    · rcases o with _ | v | vs | mo
      · exact ⟨h1.1, JobCtrl_nonCtrl .panicked rfl l f _⟩
      · rcases hd : alFind? st1.locals r with _ | d <;> simp only [hd]
        · rcases ha2 : envAssign st1 0 r v with er2 | st2 <;> simp only [ha2]
          · exact ⟨h1.1, JobCtrl_nonCtrl er2 (envAssign_err ha2) l f _⟩
          · exact ⟨envAssign_StOk h1.1 h1.2 ha2, h1.2⟩
        · rcases ha2 : assignAt st1 st1.current d r v with er2 | st2 <;>
            simp only [ha2]
          · exact ⟨h1.1, JobCtrl_nonCtrl er2 (assignAt_err ha2) l f _⟩
          · exact ⟨assignAt_StOk h1.1 h1.2 ha2, h1.2⟩
      · exact ⟨h1.1, JobCtrl_nonCtrl .panicked rfl l f _⟩
      · exact ⟨h1.1, JobCtrl_nonCtrl .panicked rfl l f _⟩
    · exact ⟨h1.1, h1.2⟩
    · trivial
  | call hc hargs =>
    rename_i callee args
    simp only [interp]
    have h1 := ih l f (.exprJ callee) st hc hst
    rcases hres1 : interp n (.exprJ callee) st
        with ⟨o1, st1⟩ | ⟨er1, st1⟩ | st1 <;>
      rw [hres1] at h1 <;> try simp only [hres1]
    · rcases o1 with _ | cv | vs | mo
      · exact ⟨h1.1, JobCtrl_nonCtrl .panicked rfl l f _⟩
      · have h2 := ih l f (.argsJ args []) st1
          ⟨hargs, fun v hv' => absurd hv' (List.not_mem_nil v)⟩ h1.1
        rcases hres2 : interp n (.argsJ args []) st1
            with ⟨o2, st2⟩ | ⟨er2, st2⟩ | st2 <;>
          rw [hres2] at h2 <;> try simp only [hres2]
        · rcases o2 with _ | v2 | argVals | mo2
          · exact ⟨h2.1, JobCtrl_nonCtrl .panicked rfl l f _⟩
          · exact ⟨h2.1, JobCtrl_nonCtrl .panicked rfl l f _⟩
          · cases cv
            case callable fc =>
              have hcok : COk fc := by
                cases h1.2 with
                | callable h' => exact h'
              exact ResSpec_ite _
                (ResSpec_cast (fun e' he' => he')
                  (ih l f (.callJ fc argVals) st2 ⟨hcok, h2.2⟩ h2.1))
                ⟨h2.1, JobCtrl_nonCtrl (.incorrectNumberOfArguments _ _)
                  rfl l f _⟩
            all_goals exact ⟨h2.1,
              JobCtrl_nonCtrl (.typeIsNotCallable _) rfl l f _⟩
          · exact ⟨h2.1, JobCtrl_nonCtrl .panicked rfl l f _⟩
        · exact ⟨h2.1, h2.2⟩
        · trivial
      · exact ⟨h1.1, JobCtrl_nonCtrl .panicked rfl l f _⟩
      · exact ⟨h1.1, JobCtrl_nonCtrl .panicked rfl l f _⟩
    · exact ⟨h1.1, h1.2⟩
    · trivial
  | get ho =>
    rename_i obj name
    simp only [interp]
    have h1 := ih l f (.exprJ obj) st ho hst
    rcases hres1 : interp n (.exprJ obj) st
        with ⟨o1, st1⟩ | ⟨er1, st1⟩ | st1 <;>
      rw [hres1] at h1 <;> try simp only [hres1]
    · rcases o1 with _ | v | vs | mo
      · exact ⟨h1.1, JobCtrl_nonCtrl .panicked rfl l f _⟩
      · cases v
        case instanceV i =>
          rcases hfld : alFind? (getInst st1 i).fields name with _ | w <;>
            simp only [hfld]
          · have h2 := ih l f (.findJ (some (getInst st1 i).klass) name) st1
              (fun s hs => by
                cases hs
                exact (StOk_getInst h1.1 i).1) h1.1
            rcases hres2 : interp n (.findJ (some (getInst st1 i).klass) name)
                st1 with ⟨o2, st2⟩ | ⟨er2, st2⟩ | st2 <;>
              rw [hres2] at h2 <;> try simp only [hres2]
            · rcases o2 with _ | v2 | vs2 | mo2
              · exact ⟨h2.1, JobCtrl_nonCtrl .panicked rfl l f _⟩
              · exact ⟨h2.1, JobCtrl_nonCtrl .panicked rfl l f _⟩
              · exact ⟨h2.1, JobCtrl_nonCtrl .panicked rfl l f _⟩
              · rcases mo2 with _ | m
                · exact ⟨h2.1,
                    JobCtrl_nonCtrl (.undefinedProperty _) rfl l f _⟩
                · rcases hb : bindThis st2 m i with _ | ⟨bound, st3⟩ <;>
                    simp only [hb]
                  · exact ⟨h2.1, JobCtrl_nonCtrl .panicked rfl l f _⟩
                  · have hbs := bindThis_spec h2.1 (h2.2 m rfl) i hb
                    exact ⟨hbs.2, VOk.callable hbs.1⟩
            · exact ⟨h2.1, h2.2⟩
            · trivial
          · exact ⟨h1.1, (StOk_getInst h1.1 i).2 _ (alFind?_mem hfld)⟩
        all_goals exact ⟨h1.1,
          JobCtrl_nonCtrl (.typeIsNotInstance _) rfl l f _⟩
      · exact ⟨h1.1, JobCtrl_nonCtrl .panicked rfl l f _⟩
      · exact ⟨h1.1, JobCtrl_nonCtrl .panicked rfl l f _⟩
    · exact ⟨h1.1, h1.2⟩
    · trivial
  | set ho hv =>
    rename_i obj name ve
    simp only [interp]
    have h1 := ih l f (.exprJ obj) st ho hst
    rcases hres1 : interp n (.exprJ obj) st
        with ⟨o1, st1⟩ | ⟨er1, st1⟩ | st1 <;>
      rw [hres1] at h1 <;> try simp only [hres1]
    · rcases o1 with _ | ov | vs | mo
      · exact ⟨h1.1, JobCtrl_nonCtrl .panicked rfl l f _⟩
      · have h2 := ih l f (.exprJ ve) st1 hv h1.1
        rcases hres2 : interp n (.exprJ ve) st1
            with ⟨o2, st2⟩ | ⟨er2, st2⟩ | st2 <;>
          rw [hres2] at h2 <;> try simp only [hres2]
        · rcases o2 with _ | v | vs2 | mo2
          · exact ⟨h2.1, JobCtrl_nonCtrl .panicked rfl l f _⟩
          · cases ov
            case instanceV i =>
              exact ⟨StOk_instSet h2.1 i name h2.2, h2.2⟩
            all_goals exact ⟨h2.1,
              JobCtrl_nonCtrl (.typeIsNotInstance _) rfl l f _⟩
          · exact ⟨h2.1, JobCtrl_nonCtrl .panicked rfl l f _⟩
          · exact ⟨h2.1, JobCtrl_nonCtrl .panicked rfl l f _⟩
        · exact ⟨h2.1, h2.2⟩
        · trivial
      · exact ⟨h1.1, JobCtrl_nonCtrl .panicked rfl l f _⟩
      · exact ⟨h1.1, JobCtrl_nonCtrl .panicked rfl l f _⟩
    · exact ⟨h1.1, h1.2⟩
    · trivial
  | super =>
    rename_i ln col method
    simp only [interp]
    rcases hd : alFind? st.locals ⟨ln, col, "super"⟩ with _ | d <;>
      simp only [hd]
    · exact ⟨hst, JobCtrl_nonCtrl .panicked rfl l f _⟩
    · rcases hl : lookupAt st st.current d ⟨ln, col, "super"⟩
          with er | sv <;> simp only [hl]
      · exact ⟨hst, JobCtrl_nonCtrl er (lookupAt_err hl) l f _⟩
      · cases sv
        case callable c2 =>
          obtain ⟨ar2, k2⟩ := c2
          cases k2
          case loxClass superC =>
            have hcls : ClsOk superC := by
              have hvs := lookupAt_VOk hst hl
              cases hvs with
              | callable hc' =>
                cases hc' with
                | mk hk' =>
                  cases hk' with
                  | loxClass h' => exact h'
            refine ResSpec_ite _ ⟨hst, JobCtrl_nonCtrl .panicked rfl l f _⟩ ?_
            rcases hl2 : lookupAt st st.current (d - 1) ⟨0, 0, "this"⟩
                with er2 | ov <;> simp only [hl2]
            · exact ⟨hst, JobCtrl_nonCtrl er2 (lookupAt_err hl2) l f _⟩
            · cases ov
              case instanceV obj =>
                have h2 := ih l f (.findJ (some superC) method) st
                  (fun s hs => by
                    cases hs
                    exact hcls) hst
                rcases hres2 : interp n (.findJ (some superC) method) st
                    with ⟨o2, st2⟩ | ⟨er3, st2⟩ | st2 <;>
                  rw [hres2] at h2 <;> try simp only [hres2]
                · rcases o2 with _ | v2 | vs2 | mo2
                  · exact ⟨h2.1, JobCtrl_nonCtrl .panicked rfl l f _⟩
                  · exact ⟨h2.1, JobCtrl_nonCtrl .panicked rfl l f _⟩
                  · exact ⟨h2.1, JobCtrl_nonCtrl .panicked rfl l f _⟩
                  · rcases mo2 with _ | m
                    · exact ⟨h2.1,
                        JobCtrl_nonCtrl (.undefinedProperty _) rfl l f _⟩
                    · rcases hb : bindThis st2 m obj
                          with _ | ⟨bound, st3⟩ <;> simp only [hb]
                      · exact ⟨h2.1, JobCtrl_nonCtrl .panicked rfl l f _⟩
                      · have hbs := bindThis_spec h2.1 (h2.2 m rfl) obj hb
                        exact ⟨hbs.2, VOk.callable hbs.1⟩
                · exact ⟨h2.1, h2.2⟩
                · trivial
              all_goals exact ⟨hst, JobCtrl_nonCtrl .panicked rfl l f _⟩
          all_goals exact ⟨hst, JobCtrl_nonCtrl .panicked rfl l f _⟩
        all_goals exact ⟨hst, JobCtrl_nonCtrl .panicked rfl l f _⟩

end Lox

namespace Lox

theorem StOk_setCurrent {st : SState} (h : StOk st) (c : Nat) :
    StOk { st with current := c } :=
  ⟨h.1, h.2⟩

theorem pres_stmt (n : Nat)
    (ih : ∀ (l f : Bool) (j : IJob) (st : SState),
      JobOk l f j → StOk st → ResSpec l f j (interp n j st))
    (l f : Bool) (s : Stmt) (st : SState) (hj : SOk l f s) (hst : StOk st) :
    ResSpec l f (.stmtJ s) (interp (n + 1) (.stmtJ s) st) := by
  cases hj with
  | expr he =>
    rename_i e
    simp only [interp]
    have h1 := ih l f (.exprJ e) st he hst
    rcases hres : interp n (.exprJ e) st with ⟨o, st1⟩ | ⟨er, st1⟩ | st1 <;>
      rw [hres] at h1 <;> try simp only [hres]
    · exact ⟨h1.1, True.intro⟩
    · exact ⟨h1.1, JobCtrl_of_not h1.2.1 h1.2.2.1 h1.2.2.2 l f _⟩
    · trivial
  | decl hinit =>
    rename_i id initVal
    cases initVal with
    | none =>
      exact ⟨StOk_envDefine hst st.current id (fun w hw => nomatch hw),
        True.intro⟩
    | some e0 =>
      have he0 := hinit e0 rfl
      simp only [interp]
      have h1 := ih l f (.exprJ e0) st he0 hst
      rcases hres : interp n (.exprJ e0) st with ⟨o, st1⟩ | ⟨er, st1⟩ | st1 <;>
        rw [hres] at h1 <;> try simp only [hres]
      · rcases o with _ | v | vs | mo
        · exact ⟨h1.1, JobCtrl_nonCtrl .panicked rfl l f _⟩
        · refine ⟨StOk_envDefine h1.1 st1.current id ?_, True.intro⟩
          intro w hw
          cases hw
          exact h1.2
        · exact ⟨h1.1, JobCtrl_nonCtrl .panicked rfl l f _⟩
        · exact ⟨h1.1, JobCtrl_nonCtrl .panicked rfl l f _⟩
      · exact ⟨h1.1, JobCtrl_of_not h1.2.1 h1.2.2.1 h1.2.2.2 l f _⟩
      · trivial
  | block hss =>
    rename_i ss
    rw [interp_succ_block]
    have hstB : StOk
        { st with
          envs := st.envs ++ [⟨some st.current, []⟩]
          current := st.envs.length } :=
      StOk_setCurrent (StOk_append_env hst (some st.current)) _
    have h1 := ih l f (.stmtsJ ss)
      { st with
        envs := st.envs ++ [⟨some st.current, []⟩]
        current := st.envs.length } hss hstB
    rcases hres : interp n (.stmtsJ ss)
        { st with
          envs := st.envs ++ [⟨some st.current, []⟩]
          current := st.envs.length } with ⟨o, st2⟩ | ⟨er, st2⟩ | st2 <;>
      rw [hres] at h1 <;> try simp only [hres]
    · exact ⟨StOk_setCurrent h1.1 _, True.intro⟩
    · exact ⟨StOk_setCurrent h1.1 _, h1.2⟩
    · trivial
  | ifS hc ht helse =>
    rename_i c tB eB
    simp only [interp]
    have h1 := ih l f (.exprJ c) st hc hst
    rcases hres : interp n (.exprJ c) st with ⟨o, st1⟩ | ⟨er, st1⟩ | st1 <;>
      rw [hres] at h1 <;> try simp only [hres]
    · rcases o with _ | v | vs | mo
      · exact ⟨h1.1, JobCtrl_nonCtrl .panicked rfl l f _⟩
      · refine ResSpec_ite _
          (ResSpec_cast (fun e' he' => he') (ih l f (.stmtJ tB) st1 ht h1.1))
          ?_
        cases eB with
        | none => exact ⟨h1.1, True.intro⟩
        | some e2 =>
          exact ResSpec_cast (fun e' he' => he')
            (ih l f (.stmtJ e2) st1 (helse e2 rfl) h1.1)
      · exact ⟨h1.1, JobCtrl_nonCtrl .panicked rfl l f _⟩
      · exact ⟨h1.1, JobCtrl_nonCtrl .panicked rfl l f _⟩
    · exact ⟨h1.1, JobCtrl_of_not h1.2.1 h1.2.2.1 h1.2.2.2 l f _⟩
    · trivial
  | forS hc hb hinc =>
    exact ⟨hst, JobCtrl_nonCtrl .panicked rfl l f _⟩
  | whileS hc hb =>
    rename_i c bd
    rw [interp_succ_while]
    have h1 := ih l f (.exprJ c) st hc hst
    rcases hres : interp n (.exprJ c) st with ⟨o, st1⟩ | ⟨er, st1⟩ | st1 <;>
      rw [hres] at h1 <;> try simp only [hres]
    · rcases o with _ | v | vs | mo
      · exact ⟨h1.1, JobCtrl_nonCtrl .panicked rfl l f _⟩
      · refine ResSpec_ite _ ?_ ⟨h1.1, True.intro⟩
        have h2 := ih true f (.stmtJ bd) st1 hb h1.1
        rcases hres2 : interp n (.stmtJ bd) st1
            with ⟨o2, st2⟩ | ⟨er2, st2⟩ | st2 <;>
          rw [hres2] at h2 <;> try simp only [hres2]
        · exact ResSpec_cast (fun e' he' => he')
            (ih l f (.stmtJ (.whileS c bd)) st2 (SOk.whileS hc hb) h2.1)
        · cases er2
          case brk => exact ⟨h2.1, True.intro⟩
          case cont =>
            exact ResSpec_cast (fun e' he' => he')
              (ih l f (.stmtJ (.whileS c bd)) st2 (SOk.whileS hc hb) h2.1)
          case ret v2 =>
            refine ⟨h2.1, ?_, ?_⟩
            · intro h'
              rcases h' with h'' | h'' <;> cases h''
            · intro w hw
              cases hw
              exact h2.2.2 v2 rfl
          all_goals refine ⟨h2.1, JobCtrl_nonCtrl _ ?_ l f _⟩
          all_goals rfl
        · trivial
      · exact ⟨h1.1, JobCtrl_nonCtrl .panicked rfl l f _⟩
      · exact ⟨h1.1, JobCtrl_nonCtrl .panicked rfl l f _⟩
    · exact ⟨h1.1, JobCtrl_of_not h1.2.1 h1.2.2.1 h1.2.2.2 l f _⟩
    · trivial
  | breakS =>
    exact ⟨hst, fun _ => rfl, fun v hv => nomatch hv⟩
  | continueS =>
    exact ⟨hst, fun _ => rfl, fun v hv => nomatch hv⟩
  | funDecl hbody =>
    rename_i fn
    refine ⟨StOk_envDefine hst st.current fn.identifier ?_, True.intro⟩
    intro w hw
    cases hw
    exact VOk.callable (COk.mk (KOk.loxFun hbody))
  | ret hinit =>
    rename_i eO
    cases eO with
    | none =>
      exact ⟨hst, fun h' => h'.elim (fun h'' => nomatch h'')
          (fun h'' => nomatch h''),
        fun w hw => by cases hw; exact ⟨rfl, VOk.nil⟩⟩
    | some e0 =>
      have he0 := hinit e0 rfl
      simp only [interp]
      have h1 := ih l true (.exprJ e0) st he0 hst
      rcases hres : interp n (.exprJ e0) st with ⟨o, st1⟩ | ⟨er, st1⟩ | st1 <;>
        rw [hres] at h1 <;> try simp only [hres]
      · rcases o with _ | v | vs | mo
        · exact ⟨h1.1, JobCtrl_nonCtrl .panicked rfl l true _⟩
        · exact ⟨h1.1, fun h' => h'.elim (fun h'' => nomatch h'')
              (fun h'' => nomatch h''),
            fun w hw => by cases hw; exact ⟨rfl, h1.2⟩⟩
        · exact ⟨h1.1, JobCtrl_nonCtrl .panicked rfl l true _⟩
        · exact ⟨h1.1, JobCtrl_nonCtrl .panicked rfl l true _⟩
      · exact ⟨h1.1, JobCtrl_of_not h1.2.1 h1.2.2.1 h1.2.2.2 l true _⟩
      · trivial
  | classS hsup hms =>
    rename_i id sup ms
    cases sup with
    | none =>
      refine ⟨StOk_envDefine
          (StOk_envDefine hst st.current id
            (fun w (hw : (none : Option Value) = some w) => nomatch hw))
          _ id ?_, True.intro⟩
      intro w hw
      cases hw
      refine VOk.callable (COk.mk (KOk.loxClass (ClsOk.mk
        (buildMethods_COk _ hms) (fun s hs => nomatch hs))))
    | some supE =>
      have hE := hsup supE rfl
      simp only [interp]
      have h1 := ih l f (.exprJ supE) st hE hst
      rcases hres : interp n (.exprJ supE) st
          with ⟨o, st1⟩ | ⟨er, st1⟩ | st1 <;>
        rw [hres] at h1 <;> try simp only [hres]
      · rcases o with _ | v | vs | mo
        · exact ⟨h1.1, JobCtrl_nonCtrl .panicked rfl l f _⟩
        · cases v
          case callable c2 =>
            obtain ⟨ar2, k2⟩ := c2
            cases k2
            case loxClass superC =>
              have hclsS : ClsOk superC := by
                cases h1.2 with
                | callable hc' =>
                  cases hc' with
                  | mk hk' =>
                    cases hk' with
                    | loxClass h' => exact h'
              have hst2 : StOk (envDefine st1 st1.current id none) :=
                StOk_envDefine h1.1 _ id (fun w hw => nomatch hw)
              have hst4 := StOk_envDefine
                (StOk_setCurrent
                  (StOk_append_env hst2
                    (some (envDefine st1 st1.current id none).current))
                  (envDefine st1 st1.current id none).envs.length)
                (envDefine st1 st1.current id none).envs.length "super"
                (fun w (hw : some (Value.callable ⟨0, .loxClass superC⟩)
                    = some w) => by
                  cases hw
                  exact VOk.callable (COk.mk (KOk.loxClass hclsS)))
              refine ⟨StOk_envDefine (StOk_setCurrent hst4 _) _ id ?_,
                True.intro⟩
              intro w hw
              cases hw
              exact VOk.callable (COk.mk (KOk.loxClass (ClsOk.mk
                (buildMethods_COk _ hms)
                (fun s hs => by cases hs; exact hclsS))))
            all_goals exact ⟨h1.1,
              JobCtrl_nonCtrl .superClassMustBeAClass rfl l f _⟩
          all_goals exact ⟨h1.1,
            JobCtrl_nonCtrl .superClassMustBeAClass rfl l f _⟩
        · exact ⟨h1.1, JobCtrl_nonCtrl .panicked rfl l f _⟩
        · exact ⟨h1.1, JobCtrl_nonCtrl .panicked rfl l f _⟩
      · exact ⟨h1.1, JobCtrl_of_not h1.2.1 h1.2.2.1 h1.2.2.2 l f _⟩
      · trivial

end Lox

namespace Lox

/-- Fuel-indexed preservation: starting from a well-formed state, any job
carrying resolver-accepted code yields a well-formed result whose error,
if any, obeys the control discipline (`Break`/`Continue` only under a
live loop flag, `Return` only under a live function flag, and never from
expression, argument, call or method-search jobs). -/
theorem preservation : ∀ (n : Nat) (l f : Bool) (j : IJob) (st : SState),
    JobOk l f j → StOk st → ResSpec l f j (interp n j st) := by
  intro n
  induction n with
  | zero =>
    intro l f j st _ _
    trivial
  | succ n ih =>
    intro l f j st hj hst
    cases j with
    | stmtJ s => exact pres_stmt n ih l f s st hj hst
    | stmtsJ ss => exact pres_stmts n ih l f ss st hj hst
    | exprJ e => exact pres_expr n ih l f e st hj hst
    | argsJ es acc => exact pres_args n ih l f es acc st hj hst
    | callJ c args => exact pres_call n ih l f c args st hj hst
    | findJ c id => exact pres_find n ih l f c id st hj hst

/-- The interpreter's initial state (globals only holding the three
natives) is well-formed. -/
theorem StOk_initState (locals : List (Ref × Nat)) :
    StOk (initState locals) := by
  refine ⟨?_, ?_⟩
  · intro e he
    rcases List.mem_singleton.mp he with rfl
    intro p hp v hv
    rcases List.mem_cons.mp hp with h' | h'
    · rw [h'] at hv
      cases hv
      exact VOk.callable (COk.mk KOk.native)
    rcases List.mem_cons.mp h' with h'' | h''
    · rw [h''] at hv
      cases hv
      exact VOk.callable (COk.mk KOk.native)
    rcases List.mem_cons.mp h'' with h3 | h3
    · rw [h3] at hv
      cases hv
      exact VOk.callable (COk.mk KOk.native)
    · exact absurd h3 (List.not_mem_nil p)
  · intro i hi
    exact absurd hi (List.not_mem_nil i)

end Lox

namespace Lox

/-! ### Resolver extraction: a successful resolver run certifies the
static shape `SOk`/`EOk` and preserves the `is_in_loop` /
`function_kind` flags. -/

theorem rDeclare_flags {st : RState} {id : String} {st' : RState}
    (h : rDeclare st id = .ok st') :
    st'.isInLoop = st.isInLoop ∧ st'.functionKind = st.functionKind := by
  simp only [rDeclare] at h
  split at h
  · cases h
    exact ⟨rfl, rfl⟩
  · split at h
    · cases h
    · cases h
      exact ⟨rfl, rfl⟩

theorem rDefine_flags (st : RState) (id : String) :
    (rDefine st id).isInLoop = st.isInLoop
      ∧ (rDefine st id).functionKind = st.functionKind := by
  unfold rDefine
  split <;> exact ⟨rfl, rfl⟩

theorem rlStep_flags (r : Ref) (acc : RState) (d : Nat) :
    (rlStep r acc d).isInLoop = acc.isInLoop
      ∧ (rlStep r acc d).functionKind = acc.functionKind := by
  unfold rlStep
  split <;> exact ⟨rfl, rfl⟩

theorem resolveLocal_flags (st : RState) (r : Ref) :
    (resolveLocal st r).isInLoop = st.isInLoop
      ∧ (resolveLocal st r).functionKind = st.functionKind := by
  unfold resolveLocal
  generalize List.range st.scopes.length = ds
  induction ds generalizing st with
  | nil => exact ⟨rfl, rfl⟩
  | cons d rest ih =>
    simp only [List.foldl_cons]
    have h1 := rlStep_flags r st d
    have h2 := ih (rlStep r st d)
    exact ⟨h2.1.trans h1.1, h2.2.trans h1.2⟩

theorem declareParams_flags : ∀ (ps : List String) (st st' : RState),
    declareParams st ps = .ok st' →
    st'.isInLoop = st.isInLoop ∧ st'.functionKind = st.functionKind := by
  intro ps
  induction ps with
  | nil =>
    intro st st' h
    cases h
    exact ⟨rfl, rfl⟩
  | cons p rest ih =>
    intro st st' h
    simp only [declareParams] at h
    rcases hd : rDeclare st p with e | st1
    · rw [hd] at h
      cases h
    · rw [hd] at h
      have h1 := rDeclare_flags hd
      have h2 := rDefine_flags st1 p
      have h3 := ih _ _ h
      exact ⟨h3.1.trans (h2.1.trans h1.1), h3.2.trans (h2.2.trans h1.2)⟩

theorem inFun_true {fk : FunctionKind} (h : ¬fk = .noneK) : fk.inFun = true := by
  cases fk
  · exact absurd rfl h
  · rfl
  · rfl
  · rfl

end Lox

namespace Lox

/-- Extraction: a resolver run that returns `.ok` certifies the static
shape of its job (under the entry flags) and restores the
`is_in_loop`/`function_kind` flags. -/
theorem resolveF_extract : ∀ (n : Nat) (j : RJob) (st st' : RState),
    resolveF n j st = .ok st' →
    st'.isInLoop = st.isInLoop ∧ st'.functionKind = st.functionKind ∧
    (match j with
     | .stmtJ s => SOk st.isInLoop st.functionKind.inFun s
     | .stmtsJ ss => ∀ s ∈ ss, SOk st.isInLoop st.functionKind.inFun s
     | .exprJ e => EOk e
     | .exprsJ es => ∀ e ∈ es, EOk e
     | .funcJ ps body kind => ∀ s ∈ body, SOk false kind.inFun s
     | .methodsJ ms => ∀ m ∈ ms, ∀ s ∈ Func.body m, SOk false true s) := by
  intro n
  induction n with
  | zero =>
    intro j st st' h
    cases h
  | succ n ih =>
    intro j st st' h
    cases j with
    | stmtsJ ss =>
      cases ss with
      | nil =>
        cases h
        exact ⟨rfl, rfl, fun s hs => absurd hs (List.not_mem_nil s)⟩
      | cons s rest =>
        simp only [resolveF] at h
        split at h
        · rename_i stA hA
          have h1 := ih (.stmtJ s) st stA hA
          have h2 := ih (.stmtsJ rest) stA st' h
          have h2s := h2.2.2
          rw [h1.1, h1.2.1] at h2s
          refine ⟨h2.1.trans h1.1, h2.2.1.trans h1.2.1, ?_⟩
          intro s' hs'
          rcases List.mem_cons.mp hs' with h' | h'
          · rw [h']
            exact h1.2.2
          · exact h2s s' h'
        · rename_i hne
          exact absurd h (hne st')
    | exprsJ es =>
      cases es with
      | nil =>
        cases h
        exact ⟨rfl, rfl, fun e he => absurd he (List.not_mem_nil e)⟩
      | cons e rest =>
        simp only [resolveF] at h
        split at h
        · rename_i stA hA
          have h1 := ih (.exprJ e) st stA hA
          have h2 := ih (.exprsJ rest) stA st' h
          refine ⟨h2.1.trans h1.1, h2.2.1.trans h1.2.1, ?_⟩
          intro e' he'
          rcases List.mem_cons.mp he' with h' | h'
          · rw [h']
            exact h1.2.2
          · exact h2.2.2 e' h'
        · rename_i hne
          exact absurd h (hne st')
    | methodsJ ms =>
      cases ms with
      | nil =>
        cases h
        exact ⟨rfl, rfl, fun m hm => absurd hm (List.not_mem_nil m)⟩
      | cons m rest =>
        simp only [resolveF] at h
        split at h
        · rename_i stA hA
          have h1 := ih (.funcJ m.parameters m.body
            (if m.identifier = "init" then .initK else .methodK)) st stA hA
          have h2 := ih (.methodsJ rest) stA st' h
          have hkt : (if m.identifier = "init" then FunctionKind.initK
              else FunctionKind.methodK).inFun = true := by
            split <;> rfl
          have h1s : ∀ s ∈ m.body, SOk false
              (if m.identifier = "init" then FunctionKind.initK
                else FunctionKind.methodK).inFun s := h1.2.2
          rw [hkt] at h1s
          refine ⟨h2.1.trans h1.1, h2.2.1.trans h1.2.1, ?_⟩
          intro m' hm'
          rcases List.mem_cons.mp hm' with h' | h'
          · rw [h']
            exact h1s
          · exact h2.2.2 m' h'
        · rename_i hne
          exact absurd h (hne st')
    | funcJ ps body kind =>
      simp only [resolveF] at h
      split at h
      · cases h
      · rename_i stC hdp
        split at h
        · rename_i stD hB
          cases h
          have hb := ih (.stmtsJ body) stC stD hB
          have hdpf := declareParams_flags ps _ stC hdp
          have hbs := hb.2.2
          rw [hdpf.1, hdpf.2] at hbs
          exact ⟨rfl, rfl, fun s hs => hbs s hs⟩
        · rename_i hne
          exact absurd h (hne st')
    | exprJ e =>
      cases e with
      | lit v =>
        cases h
        exact ⟨rfl, rfl, EOk.lit⟩
      | var r =>
        simp only [resolveF] at h
        split at h
        · cases h
        · cases h
          have hf := resolveLocal_flags st r
          exact ⟨hf.1, hf.2, EOk.var⟩
      | this ln col =>
        simp only [resolveF] at h
        split at h
        · cases h
        · cases h
          have hf := resolveLocal_flags st ⟨ln, col, "this"⟩
          exact ⟨hf.1, hf.2, EOk.this⟩
      | super ln col m =>
        simp only [resolveF] at h
        split at h
        · cases h
        · cases h
          have hf := resolveLocal_flags st ⟨ln, col, "super"⟩
          exact ⟨hf.1, hf.2, EOk.super⟩
      | grouping e2 =>
        have h1 := ih (.exprJ e2) st st' h
        exact ⟨h1.1, h1.2.1, EOk.grouping h1.2.2⟩
      | unary op e2 =>
        have h1 := ih (.exprJ e2) st st' h
        exact ⟨h1.1, h1.2.1, EOk.unary h1.2.2⟩
      | anonFun ps body =>
        have h1 := ih (.funcJ ps body .functionK) st st' h
        exact ⟨h1.1, h1.2.1, EOk.anonFun h1.2.2⟩
      | assignment r ve =>
        simp only [resolveF] at h
        split at h
        · rename_i stA hA
          cases h
          have h1 := ih (.exprJ ve) st stA hA
          have hf := resolveLocal_flags stA r
          exact ⟨hf.1.trans h1.1, hf.2.trans h1.2.1, EOk.assignment h1.2.2⟩
        · rename_i hne
          exact absurd h (hne st')
      | logical a op b =>
        simp only [resolveF] at h
        split at h
        · rename_i stA hA
          have h1 := ih (.exprJ a) st stA hA
          have h2 := ih (.exprJ b) stA st' h
          exact ⟨h2.1.trans h1.1, h2.2.1.trans h1.2.1,
            EOk.logical h1.2.2 h2.2.2⟩
        · rename_i hne
          exact absurd h (hne st')
      | binary a op b =>
        simp only [resolveF] at h
        split at h
        · rename_i stA hA
          have h1 := ih (.exprJ a) st stA hA
          have h2 := ih (.exprJ b) stA st' h
          exact ⟨h2.1.trans h1.1, h2.2.1.trans h1.2.1,
            EOk.binary h1.2.2 h2.2.2⟩
        · rename_i hne
          exact absurd h (hne st')
      | ternary c t fe =>
        simp only [resolveF] at h
        split at h
        · rename_i stA hA
          split at h
          · rename_i stB hB
            have h1 := ih (.exprJ c) st stA hA
            have h2 := ih (.exprJ t) stA stB hB
            have h3 := ih (.exprJ fe) stB st' h
            exact ⟨(h3.1.trans h2.1).trans h1.1,
              (h3.2.1.trans h2.2.1).trans h1.2.1,
              EOk.ternary h1.2.2 h2.2.2 h3.2.2⟩
          · rename_i hne
            exact absurd h (hne st')
        · rename_i hne
          exact absurd h (hne st')
      | call callee args =>
        simp only [resolveF] at h
        split at h
        · rename_i stA hA
          have h1 := ih (.exprJ callee) st stA hA
          have h2 := ih (.exprsJ args) stA st' h
          exact ⟨h2.1.trans h1.1, h2.2.1.trans h1.2.1,
            EOk.call h1.2.2 h2.2.2⟩
        · rename_i hne
          exact absurd h (hne st')
      | get obj name =>
        have h1 := ih (.exprJ obj) st st' h
        exact ⟨h1.1, h1.2.1, EOk.get h1.2.2⟩
      | set obj name ve =>
        simp only [resolveF] at h
        split at h
        · rename_i stA hA
          have h1 := ih (.exprJ obj) st stA hA
          have h2 := ih (.exprJ ve) stA st' h
          exact ⟨h2.1.trans h1.1, h2.2.1.trans h1.2.1,
            EOk.set h1.2.2 h2.2.2⟩
        · rename_i hne
          exact absurd h (hne st')
    | stmtJ s =>
      cases s with
      | expr e =>
        have h1 := ih (.exprJ e) st st' h
        exact ⟨h1.1, h1.2.1, SOk.expr h1.2.2⟩
      | decl id initVal =>
        cases initVal with
        | none =>
          simp only [resolveF] at h
          split at h
          · cases h
          · rename_i stA hd
            have hdf := rDeclare_flags hd
            cases h
            have hf := rDefine_flags stA id
            exact ⟨hf.1.trans hdf.1, hf.2.trans hdf.2,
              SOk.decl (fun e he => nomatch he)⟩
        | some e0 =>
          simp only [resolveF] at h
          split at h
          · cases h
          · rename_i stA hd
            have hdf := rDeclare_flags hd
            split at h
            · rename_i stB hB
              cases h
              have hb := ih (.exprJ e0) stA stB hB
              have hf := rDefine_flags stB id
              exact ⟨hf.1.trans (hb.1.trans hdf.1),
                hf.2.trans (hb.2.1.trans hdf.2),
                SOk.decl (fun e' he' => by cases he'; exact hb.2.2)⟩
            · rename_i hne
              exact absurd h (hne st')
      | block ss =>
        simp only [resolveF] at h
        split at h
        · rename_i stA hA
          cases h
          have hs := ih (.stmtsJ ss) (beginScope st) stA hA
          exact ⟨hs.1, hs.2.1, SOk.block (fun s hs' => hs.2.2 s hs')⟩
        · rename_i hne
          exact absurd h (hne st')
      | ifS c tB eB =>
        cases eB with
        | none =>
          simp only [resolveF] at h
          split at h
          · rename_i stA hA
            split at h
            · rename_i stB hB
              have hc := ih (.exprJ c) st stA hA
              have ht := ih (.stmtJ tB) stA stB hB
              have hts := ht.2.2
              rw [hc.1, hc.2.1] at hts
              cases h
              exact ⟨ht.1.trans hc.1, ht.2.1.trans hc.2.1,
                SOk.ifS hc.2.2 hts (fun s hs => nomatch hs)⟩
            · rename_i hne
              exact absurd h (hne st')
          · rename_i hne
            exact absurd h (hne st')
        | some eS =>
          simp only [resolveF] at h
          split at h
          · rename_i stA hA
            split at h
            · rename_i stB hB
              have hc := ih (.exprJ c) st stA hA
              have ht := ih (.stmtJ tB) stA stB hB
              have hts := ht.2.2
              rw [hc.1, hc.2.1] at hts
              have he := ih (.stmtJ eS) stB st' h
              have hes := he.2.2
              rw [ht.1, hc.1, ht.2.1, hc.2.1] at hes
              exact ⟨(he.1.trans ht.1).trans hc.1,
                (he.2.1.trans ht.2.1).trans hc.2.1,
                SOk.ifS hc.2.2 hts (fun s hs => by cases hs; exact hes)⟩
            · rename_i hne
              exact absurd h (hne st')
          · rename_i hne
            exact absurd h (hne st')
      | whileS c bd =>
        simp only [resolveF] at h
        split at h
        · rename_i stA hA
          split at h
          · rename_i stB hB
            cases h
            have hc := ih (.exprJ c) { st with isInLoop := true } stA hA
            have hb := ih (.stmtJ bd) stA stB hB
            have hbs := hb.2.2
            rw [hc.1, hc.2.1] at hbs
            exact ⟨rfl, hb.2.1.trans hc.2.1, SOk.whileS hc.2.2 hbs⟩
          · rename_i hne
            exact absurd h (hne st')
        · rename_i hne
          exact absurd h (hne st')
      | forS c inc bd =>
        cases inc with
        | none =>
          simp only [resolveF] at h
          split at h
          · rename_i stA hA
            split at h
            · rename_i stB hB
              cases h
              have hc := ih (.exprJ c) { st with isInLoop := true } stA hA
              have hb := ih (.stmtJ bd) stA stB hB
              have hbs := hb.2.2
              rw [hc.1, hc.2.1] at hbs
              exact ⟨rfl, hb.2.1.trans hc.2.1,
                SOk.forS hc.2.2 hbs (fun e he => nomatch he)⟩
            · rename_i hne
              exact absurd h (hne st')
          · rename_i hne
            exact absurd h (hne st')
        | some eI =>
          simp only [resolveF] at h
          split at h
          · rename_i stA hA
            split at h
            · rename_i stB hB
              split at h
              · rename_i stC hC
                cases h
                have hc := ih (.exprJ c) { st with isInLoop := true } stA hA
                have hb := ih (.stmtJ bd) stA stB hB
                have hbs := hb.2.2
                rw [hc.1, hc.2.1] at hbs
                have hi := ih (.exprJ eI) stB stC hC
                exact ⟨rfl, (hi.2.1.trans hb.2.1).trans hc.2.1,
                  SOk.forS hc.2.2 hbs
                    (fun e' he' => by cases he'; exact hi.2.2)⟩
              · rename_i hne
                exact absurd h (hne st')
            · rename_i hne
              exact absurd h (hne st')
          · rename_i hne
            exact absurd h (hne st')
      | breakS =>
        simp only [resolveF] at h
        split at h
        · rename_i hl
          cases h
          exact ⟨rfl, rfl, by rw [hl]; exact SOk.breakS⟩
        · cases h
      | continueS =>
        simp only [resolveF] at h
        split at h
        · rename_i hl
          cases h
          exact ⟨rfl, rfl, by rw [hl]; exact SOk.continueS⟩
        · cases h
      | funDecl fn =>
        simp only [resolveF] at h
        split at h
        · cases h
        · rename_i stA hd
          have hf := ih (.funcJ fn.parameters fn.body .functionK)
            (rDefine stA fn.identifier) st' h
          have hdf := rDeclare_flags hd
          have hdef := rDefine_flags stA fn.identifier
          exact ⟨hf.1.trans (hdef.1.trans hdf.1),
            hf.2.1.trans (hdef.2.trans hdf.2),
            SOk.funDecl hf.2.2⟩
      | ret eO =>
        cases eO with
        | none =>
          simp only [resolveF] at h
          by_cases hfk : st.functionKind = .noneK
          · rw [if_pos hfk] at h
            cases h
          · rw [if_neg hfk] at h
            cases h
            exact ⟨rfl, rfl, by
              rw [inFun_true hfk]
              exact SOk.ret (fun e' he' => nomatch he')⟩
        | some e0 =>
          simp only [resolveF] at h
          by_cases hfk : st.functionKind = .noneK
          · rw [if_pos hfk] at h
            cases h
          · rw [if_neg hfk] at h
            by_cases hfk2 : st.functionKind = .initK
            · rw [if_pos hfk2] at h
              cases h
            · rw [if_neg hfk2] at h
              have he0 := ih (.exprJ e0) st st' h
              exact ⟨he0.1, he0.2.1, by
                rw [inFun_true hfk]
                exact SOk.ret (fun e' he' => by cases he'; exact he0.2.2)⟩
      | classS id sup ms =>
        cases sup with
        | none =>
          simp only [resolveF] at h
          rcases hd : rDeclare { st with classKind := ClassKind.classK } id
            with e1 | stA
          · simp only [hd] at h
            cases h
          · simp only [hd] at h
            have hdf := rDeclare_flags hd
            rcases hd2 : rDeclare (beginScope (rDefine stA id)) "this"
              with e2 | stC
            · simp only [hd2] at h
              cases h
            · simp only [hd2] at h
              have hd2f := rDeclare_flags hd2
              rcases hM : resolveF n (.methodsJ ms) (rDefine stC "this")
                with stD | ⟨e3, stD2⟩ | _
              · simp only [hM] at h
                cases h
                have hm := ih (.methodsJ ms) (rDefine stC "this") stD hM
                refine ⟨?_, ?_, ?_⟩
                · exact hm.1.trans ((rDefine_flags stC "this").1.trans
                    (hd2f.1.trans ((rDefine_flags stA id).1.trans hdf.1)))
                · exact hm.2.1.trans ((rDefine_flags stC "this").2.trans
                    (hd2f.2.trans ((rDefine_flags stA id).2.trans hdf.2)))
                · exact SOk.classS (fun e he => nomatch he)
                    (fun m hm' s hs => hm.2.2 m hm' s hs)
              · simp only [hM] at h
                cases h
              · simp only [hM] at h
                cases h
        | some supE =>
          cases supE
          case var r =>
            simp only [resolveF] at h
            rcases hd : rDeclare { st with classKind := ClassKind.classK } id
              with e1 | stA
            · simp only [hd] at h
              cases h
            · simp only [hd] at h
              have hdf := rDeclare_flags hd
              by_cases hri : r.identifier = id
              · rw [if_pos hri] at h
                cases h
              · rw [if_neg hri] at h
                rcases hd3 : rDeclare (beginScope
                    { rDefine stA id with classKind := ClassKind.subclassK })
                    "super" with e2 | stU
                · simp only [hd3] at h
                  cases h
                · simp only [hd3] at h
                  have hd3f := rDeclare_flags hd3
                  rcases hW : resolveF n (.exprJ (.var r))
                      (rDefine stU "super") with stW | ⟨e3, stW2⟩ | _
                  · simp only [hW] at h
                    have hs := ih (.exprJ (.var r)) (rDefine stU "super")
                      stW hW
                    rcases hd2 : rDeclare (beginScope stW) "this"
                      with e4 | stC
                    · simp only [hd2] at h
                      cases h
                    · simp only [hd2] at h
                      have hd2f := rDeclare_flags hd2
                      rcases hM : resolveF n (.methodsJ ms)
                          (rDefine stC "this") with stD | ⟨e5, stD2⟩ | _
                      · simp only [hM] at h
                        cases h
                        have hm := ih (.methodsJ ms) (rDefine stC "this")
                          stD hM
                        exact ⟨hm.1.trans
                            ((rDefine_flags stC "this").1.trans
                              (hd2f.1.trans (hs.1.trans
                                ((rDefine_flags stU "super").1.trans
                                  (hd3f.1.trans
                                    ((rDefine_flags stA id).1.trans
                                      hdf.1)))))),
                          hm.2.1.trans
                            ((rDefine_flags stC "this").2.trans
                              (hd2f.2.trans (hs.2.1.trans
                                ((rDefine_flags stU "super").2.trans
                                  (hd3f.2.trans
                                    ((rDefine_flags stA id).2.trans
                                      hdf.2)))))),
                          SOk.classS (fun e he => by cases he; exact EOk.var)
                            (fun m hm' s hsx => hm.2.2 m hm' s hsx)⟩
                      · simp only [hM] at h
                        cases h
                      · simp only [hM] at h
                        cases h
                  · simp only [hW] at h
                    cases h
                  · simp only [hW] at h
                    cases h
          all_goals
            simp only [resolveF] at h
            rcases hd : rDeclare { st with classKind := ClassKind.classK } id
              with e1 | stA
            · simp only [hd] at h
              cases h
            · simp only [hd] at h
              cases h

end Lox

namespace Lox

theorem rp_fold_none (fuel : Nat) : ∀ (stmts : List Stmt),
    stmts.foldl
      (fun acc s =>
        match acc with
        | none => none
        | some (st, hadError) =>
          match resolveF fuel (.stmtJ s) st with
          | .ok st' => some (st', hadError)
          | .err _ st' => some (st', true)
          | .fuel => none)
      none = none := by
  intro stmts
  induction stmts with
  | nil => rfl
  | cons s rest ih =>
    simp only [List.foldl_cons]
    exact ih

theorem rp_fold_true (fuel : Nat) : ∀ (stmts : List Stmt) (st rst : RState),
    stmts.foldl
      (fun acc s =>
        match acc with
        | none => none
        | some (st, hadError) =>
          match resolveF fuel (.stmtJ s) st with
          | .ok st' => some (st', hadError)
          | .err _ st' => some (st', true)
          | .fuel => none)
      (some (st, true)) = some (rst, false) → False := by
  intro stmts
  induction stmts with
  | nil =>
    intro st rst h
    cases h
  | cons s rest ih =>
    intro st rst h
    simp only [List.foldl_cons] at h
    rcases hr : resolveF fuel (.stmtJ s) st with st1 | ⟨e1, st1⟩ | _
    · rw [hr] at h
      exact ih st1 rst h
    · rw [hr] at h
      exact ih st1 rst h
    · rw [hr] at h
      cases (rp_fold_none fuel rest).symm.trans h

theorem resolveProgram_extract (fuel : Nat) : ∀ (stmts : List Stmt)
    (st : RState), st.isInLoop = false → st.functionKind = .noneK →
    ∀ (rst : RState),
    stmts.foldl
      (fun acc s =>
        match acc with
        | none => none
        | some (st, hadError) =>
          match resolveF fuel (.stmtJ s) st with
          | .ok st' => some (st', hadError)
          | .err _ st' => some (st', true)
          | .fuel => none)
      (some (st, false)) = some (rst, false) →
    ∀ s ∈ stmts, SOk false false s := by
  intro stmts
  induction stmts with
  | nil =>
    intro st _ _ rst _ s hs
    exact absurd hs (List.not_mem_nil s)
  | cons s0 rest ih =>
    intro st hl hf rst h s hs
    simp only [List.foldl_cons] at h
    rcases hr : resolveF fuel (.stmtJ s0) st with st1 | ⟨e1, st1⟩ | _
    · rw [hr] at h
      have hx := resolveF_extract fuel (.stmtJ s0) st st1 hr
      rcases List.mem_cons.mp hs with h' | h'
      · rw [h']
        have hs0 := hx.2.2
        rw [hl, hf] at hs0
        exact hs0
      · refine ih st1 ?_ ?_ rst h s h'
        · rw [hx.1, hl]
        · rw [hx.2.1, hf]
    · rw [hr] at h
      exact absurd h (rp_fold_true fuel rest st1 rst)
    · rw [hr] at h
      cases (rp_fold_none fuel rest).symm.trans h

end Lox

namespace Lox

/-- C3: for every program the resolver accepts without reporting an
error, the internal control-flow error variants `Break`, `Continue` and
`Return` never surface from interpretation: whatever fuel bound and
`locals` table are used, if running the program from the initial
interpreter state stops with an error, that error is not one of the
three control variants (they are always caught by the enclosing `While`
statement resp. the enclosing `call` boundary, as the preservation
theorem `preservation` shows job by job). -/
theorem control_errors_never_surface (rfuel : Nat) (stmts : List Stmt)
    (rst : RState) (hres : resolveProgram rfuel stmts = some (rst, false)) :
    ∀ (n : Nat) (locals : List (Ref × Nat)) (e : RtErr) (st' : SState),
      interpret n stmts (initState locals) = .err e st' →
      e.isCtrl = false := by
  intro n locals e st' hint
  have hsok : ∀ s ∈ stmts, SOk false false s := by
    have h0 := hres
    simp only [resolveProgram] at h0
    exact resolveProgram_extract rfuel stmts rInit rfl rfl rst h0
  have hpres := preservation n false false (.stmtsJ stmts) (initState locals)
    hsok (StOk_initState locals)
  rw [show interp n (.stmtsJ stmts) (initState locals) = .err e st'
    from hint] at hpres
  cases e
  case brk => exact absurd (hpres.2.1 (Or.inl rfl)) Bool.false_ne_true
  case cont => exact absurd (hpres.2.1 (Or.inr rfl)) Bool.false_ne_true
  case ret v => exact absurd (hpres.2.2 v rfl).1 Bool.false_ne_true
  all_goals rfl

/-- C3 witness: `print x;`-style program `x;` (a bare undeclared
variable) passes the resolver and fails at runtime with
`UndeclaredVariable`, which is not a control-flow variant. -/
theorem control_errors_never_surface_witness :
    resolveProgram 10 [Stmt.expr (.var ⟨0, 0, "x"⟩)] = some (rInit, false) ∧
    interpret 5 [Stmt.expr (.var ⟨0, 0, "x"⟩)] (initState [])
      = .err (.undeclaredVariable "x") (initState []) ∧
    (RtErr.undeclaredVariable "x").isCtrl = false :=
  ⟨rfl, rfl,
    control_errors_never_surface 10 [Stmt.expr (.var ⟨0, 0, "x"⟩)] rInit rfl
      5 [] (.undeclaredVariable "x") (initState []) rfl⟩

end Lox
